import Mathlib

/-!
# ucComm framing utilities: COBS byte stuffing, CRC-32C, PCG32

A shallow embedding of `src/cobs.c`, `src/crc32c.c` and `src/pcg32.c`.

Conventions of the embedding:

* a byte (`uint8_t`) is a `Nat`; arithmetic that C performs in `uint8_t`
  is reduced `% 256`, arithmetic in `uint32_t` is reduced `% 2 ^ 32` and
  arithmetic in `uint64_t` is reduced `% 2 ^ 64` wherever the C operation
  can leave the range;
* `size_t` counters (`n`, `nout`) and pointer offsets are lengths of, or
  offsets into, objects that exist in memory; they are plain `Nat`;
* the output buffer of `cobs_enc` is a memory `Nat → Nat` indexed from the
  original value of the `out` pointer, because the encoder reads back and
  patches the code byte `out[0]` of the block it is building;
* a `while (n-- > 0)` loop that consumes exactly one input byte per
  iteration is a left fold of the loop body over the input bytes.
-/

namespace UcComm

/-! ## Memory helpers -/

/-- The store `m[i] = v` on a byte memory. -/
def store (m : Nat → Nat) (i v : Nat) : Nat → Nat :=
  fun j => if j = i then v else m j

/-- The `n` bytes of memory `m` that start at offset `a`. -/
def seg (m : Nat → Nat) (a n : Nat) : List Nat :=
  (List.range n).map (fun i => m (a + i))

/-! ## `cobs.c` -/

/-- The function `cobs_enc_size` of `cobs.c`: `(n + 253)/254 + n`. -/
def cobs_enc_size (n : Nat) : Nat :=
  (n + 253) / 254 + n

/-- The variables of `cobs_enc` that live across loop iterations: the output
memory, the offset of the moving pointer `out`, the counter `nout` and the
flag `last_max`. -/
structure EncState where
  mem : Nat → Nat
  out : Nat
  nout : Nat
  last_max : Bool

/-- The state of `cobs_enc` on entry to the loop: `nout = 0`,
`last_max = false`, `out[0] = 1`. -/
def cobs_enc_init (m : Nat → Nat) : EncState :=
  { mem := store m 0 1, out := 0, nout := 0, last_max := false }

/-- One iteration of the loop of `cobs_enc` on the input byte `v`. -/
def cobs_enc_step (s : EncState) (v : Nat) : EncState :=
  if v = 0 then
    -- nout += out[0]; out += out[0]; out[0] = 1;
    let c := s.mem s.out
    { mem := store s.mem (s.out + c) 1, out := s.out + c, nout := s.nout + c,
      last_max := false }
  else
    -- out[out[0]++] = v;
    let c := s.mem s.out
    let m1 := store s.mem (s.out + c) v
    let m2 := store m1 s.out ((c + 1) % 256)
    if m2 s.out = 255 then
      -- nout += out[0]; out += out[0]; out[0] = 1; last_max = true;
      let c2 := m2 s.out
      { mem := store m2 (s.out + c2) 1, out := s.out + c2, nout := s.nout + c2,
        last_max := true }
    else
      { mem := m2, out := s.out, nout := s.nout, last_max := false }

/-- The state of `cobs_enc` when its loop exits. -/
def cobs_enc_loop (m : Nat → Nat) (inp : List Nat) : EncState :=
  inp.foldl cobs_enc_step (cobs_enc_init m)

/-- The function `cobs_enc`: the returned length together with the final
output memory.  `m` is the content of the output buffer on entry. -/
def cobs_enc (m : Nat → Nat) (inp : List Nat) : Nat × (Nat → Nat) :=
  let s := cobs_enc_loop m inp
  if !s.last_max then (s.nout + s.mem s.out, s.mem) else (s.nout, s.mem)

/-- The encoded frame: the output bytes at the positions below the length
returned by `cobs_enc`. -/
def cobs_enc_bytes (m : Nat → Nat) (inp : List Nat) : List Nat :=
  seg (cobs_enc m inp).2 0 (cobs_enc m inp).1

/-- The output indices (relative to the original `out`) that one iteration of
the loop of `cobs_enc` stores to, in program order. -/
def cobs_enc_step_stores (s : EncState) (v : Nat) : List Nat :=
  if v = 0 then
    -- out += out[0]; out[0] = 1;
    [s.out + s.mem s.out]
  else
    -- out[out[0]++] = v;  stores to out[out[0]] and to out[0]
    let c := s.mem s.out
    let m1 := store s.mem (s.out + c) v
    let m2 := store m1 s.out ((c + 1) % 256)
    if m2 s.out = 255 then
      -- out += out[0]; out[0] = 1;
      [s.out + c, s.out, s.out + m2 s.out]
    else
      [s.out + c, s.out]

/-- The loop of `cobs_enc` run on `inp`, together with every output index it
has stored to so far; the first store is `out[0] = 1` before the loop. -/
def cobs_enc_trace (m : Nat → Nat) (inp : List Nat) : EncState × List Nat :=
  inp.foldl (fun st v => (cobs_enc_step st.1 v, st.2 ++ cobs_enc_step_stores st.1 v))
    (cobs_enc_init m, [0])

/-- The variables of `cobs_dec` that live across loop iterations; `out` is the
sequence of bytes stored through `*out++`, oldest first. -/
structure DecState where
  out0 : Bool
  code : Nat
  nout : Nat
  out : List Nat

/-- The state of `cobs_dec` on entry to the loop. -/
def cobs_dec_init : DecState :=
  { out0 := false, code := 0, nout := 0, out := [] }

/-- One iteration of the loop of `cobs_dec`; `x` is the byte `*in++` that the
iteration consumes. -/
def cobs_dec_step (s : DecState) (x : Nat) : DecState :=
  if s.code = 0 then
    -- if (out0) { *out++ = 0x00; nout++; }  code = *in++; out0 = code != 255; code--;
    let out := if s.out0 then s.out ++ [0] else s.out
    let nout := if s.out0 then s.nout + 1 else s.nout
    { out0 := decide (x ≠ 255), code := (x + 255) % 256, nout := nout, out := out }
  else
    -- *out++ = *in++; nout++; code--;
    { out0 := s.out0, code := (s.code + 255) % 256, nout := s.nout + 1,
      out := s.out ++ [x] }

/-- The state of `cobs_dec` when its loop exits. -/
def cobs_dec_loop (inp : List Nat) : DecState :=
  inp.foldl cobs_dec_step cobs_dec_init

/-- The function `cobs_dec`: the returned `ssize_t` together with the bytes
written to the output buffer. -/
def cobs_dec (inp : List Nat) : Int × List Nat :=
  -- if (memchr(in, 0x00, n) != NULL) return -1;
  if 0 ∈ inp then (-1, [])
  else
    let s := cobs_dec_loop inp
    if s.code > 0 then (-2, s.out) else ((s.nout : Int), s.out)

/-! ## `crc32c.h`, `crc32c.c` -/

/-- The macro `CRC32C_INIT`. -/
def CRC32C_INIT : Nat := 0

/-- The macro `CRC32C_OK_REM`. -/
def CRC32C_OK_REM : Nat := 0x48674bc7

/-- The `w`-bit reflection (bit reversal) of `x`. -/
def reflect : Nat → Nat → Nat
  | 0, _ => 0
  | w + 1, x => (x % 2) * 2 ^ w + reflect w (x / 2)

/-- The CRC-32C (Castagnoli) polynomial in normal form. -/
def CRC32C_POLY : Nat := 0x1EDC6F41

/-- One bit of the reflected polynomial division that generates the table. -/
def crc32c_tab_bit (c : Nat) : Nat :=
  if c % 2 = 1 then (c >>> 1) ^^^ reflect 32 CRC32C_POLY else c >>> 1

/-- Modelled from the spec: the array `crc32c_tab` of the generated header
`crc32c_tab.h`, which is not among the sources.  The spec describes it as the
"256-entry table, polynomial 0x1EDC6F41 reflected": entry `i` is the result of
eight reflected division steps on `i`. -/
def crc32c_tab (i : Nat) : Nat :=
  crc32c_tab_bit (crc32c_tab_bit (crc32c_tab_bit (crc32c_tab_bit
    (crc32c_tab_bit (crc32c_tab_bit (crc32c_tab_bit (crc32c_tab_bit i)))))))

/-- One iteration of the loop of `crc32c_update` on the byte `b`:
`uint8_t idx = (crc & 0xff) ^ *data++; crc = (crc >> 8) ^ crc32c_tab[idx];` -/
def crc32c_step (crc b : Nat) : Nat :=
  let idx := ((crc &&& 0xff) ^^^ b) % 256
  (crc >>> 8) ^^^ crc32c_tab idx

/-- The function `crc32c_update`. -/
def crc32c_update (crc : Nat) (data : List Nat) : Nat :=
  (data.foldl crc32c_step (crc ^^^ 0xffffffff)) ^^^ 0xffffffff

/-- The four bytes of a 32-bit word, least significant first (the spec's
`crc_le`). -/
def crc_le (c : Nat) : List Nat :=
  [c % 256, (c >>> 8) % 256, (c >>> 16) % 256, (c >>> 24) % 256]

/-! ## `pcg32.h`, `pcg32.c` -/

/-- The structure `pcg32_random_t` (`struct pcg_state_setseq_64`): two 64-bit
words. -/
structure pcg32_random_t where
  state : Nat
  inc : Nat

/-- The function `pcg32_random_r`: the generator after the call together with
the returned 32-bit value. -/
def pcg32_random_r (rng : pcg32_random_t) : pcg32_random_t × Nat :=
  let oldstate := rng.state
  -- rng->state = oldstate * 6364136223846793005ULL + rng->inc;
  let state := (oldstate * 6364136223846793005 + rng.inc) % 2 ^ 64
  -- uint32_t xorshifted = (uint32_t) (((oldstate >> 18u) ^ oldstate) >> 27u);
  let xorshifted := (((oldstate >>> 18) ^^^ oldstate) >>> 27) % 2 ^ 32
  -- uint32_t rot = oldstate >> 59u;
  let rot := (oldstate >>> 59) % 2 ^ 32
  -- return (xorshifted >> rot) | (xorshifted << ((-rot) & 31));
  ({ state := state, inc := rng.inc },
    (xorshifted >>> rot) ||| ((xorshifted <<< (((2 ^ 32 - rot) % 2 ^ 32) &&& 31)) % 2 ^ 32))

/-- The macro `PCG32_INITIALIZER`. -/
def PCG32_INITIALIZER : pcg32_random_t :=
  { state := 0x853c49e6748fea9b, inc := 0xda3e39cb94b95bdb }

/-- The function `pcg32_srandom_r`; `rng` is what the generator held before
the call. -/
def pcg32_srandom_r (rng : pcg32_random_t) (initstate initseq : Nat) : pcg32_random_t :=
  -- rng->state = 0U;
  let rng1 : pcg32_random_t := { state := 0, inc := rng.inc }
  -- rng->inc = (initseq << 1u) | 1u;
  let rng2 : pcg32_random_t := { state := rng1.state, inc := ((initseq <<< 1) % 2 ^ 64) ||| 1 }
  -- pcg32_random_r(rng);
  let rng3 := (pcg32_random_r rng2).1
  -- rng->state += initstate;
  let rng4 : pcg32_random_t := { state := (rng3.state + initstate) % 2 ^ 64, inc := rng3.inc }
  -- pcg32_random_r(rng);
  (pcg32_random_r rng4).1

/-- The local `threshold` of `pcg32_boundedrand_r`:
`uint32_t threshold = -bound % bound;` -/
def pcg32_threshold (bound : Nat) : Nat :=
  ((2 ^ 32 - bound) % 2 ^ 32) % bound

/-- The loop `for (;;)` of `pcg32_boundedrand_r`, run for at most `fuel`
iterations: `none` when no draw was accepted within `fuel` iterations. -/
def pcg32_boundedrand_loop (bound threshold : Nat) :
    Nat → pcg32_random_t → Option (pcg32_random_t × Nat)
  | 0, _ => none
  | fuel + 1, rng =>
    -- uint32_t r = pcg32_random_r(rng); if (r >= threshold) return r % bound;
    let r := (pcg32_random_r rng).2
    if r ≥ threshold then some ((pcg32_random_r rng).1, r % bound)
    else pcg32_boundedrand_loop bound threshold fuel (pcg32_random_r rng).1

/-- The function `pcg32_boundedrand_r`, its loop run for at most `fuel`
iterations: the generator after the call together with the returned value. -/
def pcg32_boundedrand_r (fuel : Nat) (rng : pcg32_random_t) (bound : Nat) :
    Option (pcg32_random_t × Nat) :=
  pcg32_boundedrand_loop bound (pcg32_threshold bound) fuel rng

/-- The function `pcg32_randbytes`: the generator after the call together with
the `n` bytes stored through `*b++`, oldest first.  `fuel` bounds the
iterations of each call of `pcg32_boundedrand_r`. -/
def pcg32_randbytes (fuel : Nat) : Nat → pcg32_random_t → Option (pcg32_random_t × List Nat)
  | 0, rng => some (rng, [])
  | n + 1, rng =>
    -- *b++ = pcg32_boundedrand_r(rng, 256);
    match pcg32_boundedrand_r fuel rng 256 with
    | none => none
    | some (rng1, v) =>
      match pcg32_randbytes fuel n rng1 with
      | none => none
      | some (rng2, bs) => some (rng2, (v % 256) :: bs)

/-- The values returned by `k` successive calls of `pcg32_random_r`, oldest
first, together with the generator after the last call. -/
def pcg32_draws : Nat → pcg32_random_t → List Nat × pcg32_random_t
  | 0, rng => ([], rng)
  | k + 1, rng =>
    ((pcg32_random_r rng).2 :: (pcg32_draws k (pcg32_random_r rng).1).1,
      (pcg32_draws k (pcg32_random_r rng).1).2)

/-- The spec's rotate-right of the 32-bit word `x` by `r` places, `r < 32`:
the low `r` bits of `x` move to the top, the other bits move down by `r`. -/
def rotr32 (x r : Nat) : Nat :=
  x / 2 ^ r + (x % 2 ^ r) * 2 ^ (32 - r)

/-! ## The CBOR codec (`cbor.h`, `cbor.c`)

The codec's implementation is not among the sources: only its tests
(`test/test_cbor.c`) and a caller (`test/dninterp.c`) are.  The definitions of
this section are modelled from the spec (§3, §4.2 to §4.5, §4.8, §7).  They
agree with the rows of the test tables that they cover, except one row of
`test_text` on which the words of spec §4.5 and the test differ (a code point
split across two chunks of an indefinite-length text).  A reader works on the
bytes between the stream's cursor and its logical length and returns the
value together with the bytes that remain; a writer is given the stream's
write-avail and returns the bytes it appends. -/

/-- Modelled from the spec: the error enumeration `cbor_error_t` of the absent
header `cbor.h` (spec §7), with the enumerators in the order in which
`test/dninterp.c` lists them. -/
inductive cbor_error_t where
  | CBOR_ERROR_NONE
  | CBOR_ERROR_END_OF_STREAM
  | CBOR_ERROR_INVALID_AI
  | CBOR_ERROR_INDEF_MISMATCH
  | CBOR_ERROR_INDEF_NESTING
  | CBOR_ERROR_INVALID_UTF8
  | CBOR_ERROR_BUFFER_TOO_SMALL
  | CBOR_ERROR_BAD_TYPE
  | CBOR_ERROR_RECURSION
  | CBOR_ERROR_MAP_LENGTH
  | CBOR_ERROR_BAD_SIMPLE_VALUE
  | CBOR_ERROR_UNEXPECTED_BREAK
  | CBOR_ERROR_NULL
  | CBOR_ERROR_ITEM_TOO_LONG
  | CBOR_ERROR_RANGE
  | CBOR_ERROR_KEY_NOT_FOUND
  | CBOR_ERROR_BAD_DATETIME
  | CBOR_ERROR_BAD_DOUBLE
  | CBOR_ERROR_BAD_DECIMAL
  | CBOR_ERROR_BAD_RATIONAL
  | CBOR_ERROR_BAD_ENCODED
  | CBOR_ERROR_CANT_CONVERT_TYPE
  | CBOR_ERROR_IDX_TOO_BIG
  | CBOR_ERROR_FMT
  | CBOR_ERROR_ARRAY_TOO_LARGE
  deriving DecidableEq

open cbor_error_t

/-- The outcome of a codec operation: the value it produced, or the error it
returned in place of `CBOR_ERROR_NONE`. -/
inductive cbor_result (α : Type) where
  | ok (v : α)
  | error (e : cbor_error_t)
  deriving DecidableEq

open cbor_result

/-- The `n` big-endian bytes of `u`. -/
def be_bytes : Nat → Nat → List Nat
  | 0, _ => []
  | n + 1, u => (u / 256 ^ n) % 256 :: be_bytes n u

/-- The number a big-endian byte sequence stands for. -/
def be_value : List Nat → Nat
  | [] => 0
  | b :: r => b * 256 ^ r.length + be_value r

/-- A decoded head (spec §4.2): major type, argument, and whether the head
has additional information 31. -/
structure cbor_head_t where
  major : Nat
  arg : Nat
  indef : Bool
  deriving DecidableEq

/-- Modelled from the spec: the head writer of the absent `cbor.c` (spec
§4.2): the initial byte `(major << 5) | ai` followed by the argument bytes of
the encoding rule's table, which selects the smallest field that holds
`u`. -/
def cbor_head_bytes (major u : Nat) : List Nat :=
  if u < 24 then [major * 32 + u]
  else if u < 256 then (major * 32 + 24) :: be_bytes 1 u
  else if u < 65536 then (major * 32 + 25) :: be_bytes 2 u
  else if u < 4294967296 then (major * 32 + 26) :: be_bytes 4 u
  else (major * 32 + 27) :: be_bytes 8 u

/-- Modelled from the spec: the head reader of the absent `cbor.c` (spec
§4.2).  Additional information below 24 is the argument itself; 24, 25, 26,
27 select 1, 2, 4, 8 big-endian argument bytes, and running past the end of
the data is `CBOR_ERROR_END_OF_STREAM`; 28, 29, 30 are
`CBOR_ERROR_INVALID_AI`; 31 is the indefinite form on the majors that permit
it (2, 3, 4, 5; spec §3), the break on major 7, and `CBOR_ERROR_INVALID_AI`
on the others, as the rows `1F` and `3F` of the integer test tables
require. -/
def cbor_read_head : List Nat → cbor_result (cbor_head_t × List Nat)
  | [] => error CBOR_ERROR_END_OF_STREAM
  | ib :: rest =>
    let major := ib / 32
    let ai := ib % 32
    if ai < 24 then ok ({ major := major, arg := ai, indef := false }, rest)
    else if ai < 28 then
      if rest.length < 2 ^ (ai - 24) then error CBOR_ERROR_END_OF_STREAM
      else ok ({ major := major, arg := be_value (rest.take (2 ^ (ai - 24))), indef := false },
        rest.drop (2 ^ (ai - 24)))
    else if ai < 31 then error CBOR_ERROR_INVALID_AI
    else if major = 0 ∨ major = 1 ∨ major = 6 then error CBOR_ERROR_INVALID_AI
    else ok ({ major := major, arg := 0, indef := true }, rest)

/-- Modelled from the spec: `cbor_write_uint64` of the absent `cbor.c`
(spec §4.3: major 0, minimum-length head); `CBOR_ERROR_BUFFER_TOO_SMALL` when
the head does not fit the write-avail (spec §7). -/
def cbor_write_uint64 (avail v : Nat) : cbor_result (List Nat) :=
  if (cbor_head_bytes 0 v).length ≤ avail then ok (cbor_head_bytes 0 v)
  else error CBOR_ERROR_BUFFER_TOO_SMALL

/-- Modelled from the spec: `cbor_write_int64` of the absent `cbor.c`
(spec §4.3): `v ≥ 0` is major 0 with argument `v`, `v < 0` is major 1 with
argument `-1 - v`, each with the minimum-length head. -/
def cbor_write_int64 (avail : Nat) (v : Int) : cbor_result (List Nat) :=
  let b := if 0 ≤ v then cbor_head_bytes 0 v.toNat else cbor_head_bytes 1 (-1 - v).toNat
  if b.length ≤ avail then ok b else error CBOR_ERROR_BUFFER_TOO_SMALL

/-- Modelled from the spec: `cbor_read_uint64` of the absent `cbor.c`
(spec §4.3): it decodes the head and accepts only major 0. -/
def cbor_read_uint64 (s : List Nat) : cbor_result (Nat × List Nat) :=
  match cbor_read_head s with
  | error e => error e
  | ok (h, rest) =>
    if h.major = 0 then ok (h.arg, rest) else error CBOR_ERROR_BAD_TYPE

/-- Modelled from the spec: `cbor_read_int64` of the absent `cbor.c`
(spec §4.3): major 0 with `u ≤ 2^63 - 1` is `+u`, major 1 with
`u ≤ 2^63 - 1` is `-1 - u`, a larger argument is `CBOR_ERROR_RANGE`, another
major is `CBOR_ERROR_BAD_TYPE`. -/
def cbor_read_int64 (s : List Nat) : cbor_result (Int × List Nat) :=
  match cbor_read_head s with
  | error e => error e
  | ok (h, rest) =>
    if h.major = 0 then
      if h.arg ≤ 2 ^ 63 - 1 then ok ((h.arg : Int), rest) else error CBOR_ERROR_RANGE
    else if h.major = 1 then
      if h.arg ≤ 2 ^ 63 - 1 then ok (-1 - (h.arg : Int), rest) else error CBOR_ERROR_RANGE
    else error CBOR_ERROR_BAD_TYPE

/-- Modelled from the spec: `cbor_write_bool` of the absent `cbor.c` (spec
§3: the canonical simple values 20 and 21, bytes F4 and F5). -/
def cbor_write_bool (avail : Nat) (v : Bool) : cbor_result (List Nat) :=
  if 1 ≤ avail then ok [if v then 0xF5 else 0xF4] else error CBOR_ERROR_BUFFER_TOO_SMALL

/-- Modelled from the spec: `cbor_read_bool` of the absent `cbor.c`: F4 is
false, F5 is true. -/
def cbor_read_bool : List Nat → cbor_result (Bool × List Nat)
  | [] => error CBOR_ERROR_END_OF_STREAM
  | ib :: rest =>
    if ib = 0xF4 then ok (false, rest)
    else if ib = 0xF5 then ok (true, rest)
    else error CBOR_ERROR_BAD_TYPE

/-- One variadic argument of `cbor_pack`, or one value stored through an
output pointer of `cbor_unpack` (spec §4.8). -/
inductive cbor_arg_t where
  | int64 (v : Int)
  | uint64 (v : Nat)
  | bool (v : Bool)
  deriving DecidableEq

/-- Modelled from the spec: `cbor_pack` of the absent `cbor.c` (spec §4.8):
each directive of the format string consumes one argument and drives the
writer of its type (`q` int64, `Q` uint64, `?` bool); another directive is
`CBOR_ERROR_FMT`. -/
def cbor_pack_list : Nat → List Char → List cbor_arg_t → cbor_result (List Nat)
  | _, [], _ => ok []
  | avail, 'q' :: fmt, cbor_arg_t.int64 v :: args =>
    match cbor_write_int64 avail v with
    | error e => error e
    | ok b =>
      match cbor_pack_list (avail - b.length) fmt args with
      | error e => error e
      | ok r => ok (b ++ r)
  | avail, 'Q' :: fmt, cbor_arg_t.uint64 v :: args =>
    match cbor_write_uint64 avail v with
    | error e => error e
    | ok b =>
      match cbor_pack_list (avail - b.length) fmt args with
      | error e => error e
      | ok r => ok (b ++ r)
  | avail, '?' :: fmt, cbor_arg_t.bool v :: args =>
    match cbor_write_bool avail v with
    | error e => error e
    | ok b =>
      match cbor_pack_list (avail - b.length) fmt args with
      | error e => error e
      | ok r => ok (b ++ r)
  | _, _ :: _, _ => error CBOR_ERROR_FMT

/-- Modelled from the spec: `cbor_pack` of the absent `cbor.c` (spec §4.8) on a
stream with `avail` bytes of write-avail. -/
def cbor_pack (avail : Nat) (fmt : String) (args : List cbor_arg_t) : cbor_result (List Nat) :=
  cbor_pack_list avail fmt.data args

/-- Modelled from the spec: `cbor_unpack` of the absent `cbor.c` (spec §4.8):
each directive drives the reader of its type and the first read error is
propagated. -/
def cbor_unpack_list : List Char → List Nat → cbor_result (List cbor_arg_t × List Nat)
  | [], s => ok ([], s)
  | c :: fmt, s =>
    if c = 'q' then
      match cbor_read_int64 s with
      | error e => error e
      | ok (v, rest) =>
        match cbor_unpack_list fmt rest with
        | error e => error e
        | ok (vs, rest2) => ok (cbor_arg_t.int64 v :: vs, rest2)
    else if c = 'Q' then
      match cbor_read_uint64 s with
      | error e => error e
      | ok (v, rest) =>
        match cbor_unpack_list fmt rest with
        | error e => error e
        | ok (vs, rest2) => ok (cbor_arg_t.uint64 v :: vs, rest2)
    else if c = '?' then
      match cbor_read_bool s with
      | error e => error e
      | ok (v, rest) =>
        match cbor_unpack_list fmt rest with
        | error e => error e
        | ok (vs, rest2) => ok (cbor_arg_t.bool v :: vs, rest2)
    else error CBOR_ERROR_FMT

/-- Modelled from the spec: `cbor_unpack` of the absent `cbor.c` (spec §4.8) on
the bytes a stream holds from its cursor. -/
def cbor_unpack (fmt : String) (s : List Nat) : cbor_result (List cbor_arg_t × List Nat) :=
  cbor_unpack_list fmt.data s

/-- A UTF-8 continuation byte, 80 to BF. -/
def utf8_is_cont (b : Nat) : Bool :=
  decide (0x80 ≤ b ∧ b < 0xC0)

/-- Modelled from the spec: the UTF-8 validator of the absent `cbor.c`
(spec §4.5: "strict: surrogates rejected, overlongs rejected, continuation
bytes checked").  It walks the bytes one code point at a time: the lead byte
fixes the length, every following byte must be a continuation byte, and the
code point they carry must need that length, must not be a surrogate and must
not exceed U+10FFFF. -/
def utf8_valid : List Nat → Bool
  | [] => true
  | b0 :: rest =>
    if b0 < 0x80 then utf8_valid rest
    else
      match rest with
      | [] => false
      | b1 :: r1 =>
        if 0xC0 ≤ b0 ∧ b0 < 0xE0 then
          utf8_is_cont b1 && decide (0x80 ≤ (b0 - 0xC0) * 64 + (b1 - 0x80)) && utf8_valid r1
        else
          match r1 with
          | [] => false
          | b2 :: r2 =>
            if 0xE0 ≤ b0 ∧ b0 < 0xF0 then
              utf8_is_cont b1 && utf8_is_cont b2 &&
                decide (0x800 ≤ (b0 - 0xE0) * 4096 + (b1 - 0x80) * 64 + (b2 - 0x80)) &&
                decide ((b0 - 0xE0) * 4096 + (b1 - 0x80) * 64 + (b2 - 0x80) < 0xD800 ∨
                  0xDFFF < (b0 - 0xE0) * 4096 + (b1 - 0x80) * 64 + (b2 - 0x80)) &&
                utf8_valid r2
            else
              match r2 with
              | [] => false
              | b3 :: r3 =>
                if 0xF0 ≤ b0 ∧ b0 < 0xF8 then
                  utf8_is_cont b1 && utf8_is_cont b2 && utf8_is_cont b3 &&
                    decide (0x10000 ≤ (b0 - 0xF0) * 262144 + (b1 - 0x80) * 4096
                      + (b2 - 0x80) * 64 + (b3 - 0x80)) &&
                    decide ((b0 - 0xF0) * 262144 + (b1 - 0x80) * 4096
                      + (b2 - 0x80) * 64 + (b3 - 0x80) ≤ 0x10FFFF) &&
                    utf8_valid r3
                else false

/-- Modelled from the spec: the chunk loop of the string readers of the absent
`cbor.c` (spec §4.5), run on the bytes after the opening head, for at most
`fuel` chunk heads.  The break byte 0xFF ends the string; a chunk whose major
differs is `CBOR_ERROR_INDEF_MISMATCH`; a chunk that is itself indefinite is
`CBOR_ERROR_INDEF_NESTING`; running out of input before the break is
`CBOR_ERROR_END_OF_STREAM`.  The result is the logical string, the
concatenation of the chunks, and the bytes after the break. -/
def cbor_read_chunks (major : Nat) : Nat → List Nat → cbor_result (List Nat × List Nat)
  | 0, _ => error CBOR_ERROR_END_OF_STREAM
  | fuel + 1, s =>
    match cbor_read_head s with
    | error e => error e
    | ok (h, rest) =>
      if h.major = 7 ∧ h.indef = true then ok ([], rest)
      else if h.major ≠ major then error CBOR_ERROR_INDEF_MISMATCH
      else if h.indef = true then error CBOR_ERROR_INDEF_NESTING
      else if rest.length < h.arg then error CBOR_ERROR_END_OF_STREAM
      else
        match cbor_read_chunks major fuel (rest.drop h.arg) with
        | error e => error e
        | ok (cs, rest2) => ok (rest.take h.arg ++ cs, rest2)

/-- Modelled from the spec: the common part of `cbor_read_bytes` and
`cbor_read_text` of the absent `cbor.c` (spec §4.5): the head must have the
requested major (`CBOR_ERROR_BAD_TYPE` otherwise); a definite string is the
next `arg` bytes (`CBOR_ERROR_END_OF_STREAM` when fewer remain); an indefinite
string is the concatenation of its chunks.  For text, "UTF-8 validation runs
over the whole logical string (including across chunks of an
indefinite-length string)".  The result is the content of the returned
sub-stream and the bytes after the item. -/
def cbor_read_string (major : Nat) (text : Bool) (s : List Nat) :
    cbor_result (List Nat × List Nat) :=
  match cbor_read_head s with
  | error e => error e
  | ok (h, rest) =>
    if h.major ≠ major then error CBOR_ERROR_BAD_TYPE
    else if h.indef = true then
      match cbor_read_chunks major rest.length rest with
      | error e => error e
      | ok (v, rest2) =>
        if text && !utf8_valid v then error CBOR_ERROR_INVALID_UTF8 else ok (v, rest2)
    else if rest.length < h.arg then error CBOR_ERROR_END_OF_STREAM
    else if text && !utf8_valid (rest.take h.arg) then error CBOR_ERROR_INVALID_UTF8
    else ok (rest.take h.arg, rest.drop h.arg)

/-- Modelled from the spec: `cbor_read_bytes` of the absent `cbor.c`
(spec §4.5): byte strings are major 2. -/
def cbor_read_bytes (s : List Nat) : cbor_result (List Nat × List Nat) :=
  cbor_read_string 2 false s

/-- Modelled from the spec: `cbor_read_text` of the absent `cbor.c`
(spec §4.5): text strings are major 3 and validated as UTF-8. -/
def cbor_read_text (s : List Nat) : cbor_result (List Nat × List Nat) :=
  cbor_read_string 3 true s

/-- Modelled from the spec: `cbor_write_bytes` of the absent `cbor.c`
(spec §4.5): a major 2 head with the length, then the bytes. -/
def cbor_write_bytes (avail : Nat) (v : List Nat) : cbor_result (List Nat) :=
  if (cbor_head_bytes 2 v.length ++ v).length ≤ avail then ok (cbor_head_bytes 2 v.length ++ v)
  else error CBOR_ERROR_BUFFER_TOO_SMALL

/-- Modelled from the spec: `cbor_write_textn` of the absent `cbor.c`
(spec §4.5): the writer validates that the caller's bytes are well-formed
UTF-8, then emits a major 3 head with the length and the bytes. -/
def cbor_write_textn (avail : Nat) (v : List Nat) : cbor_result (List Nat) :=
  if !utf8_valid v then error CBOR_ERROR_INVALID_UTF8
  else if (cbor_head_bytes 3 v.length ++ v).length ≤ avail then
    ok (cbor_head_bytes 3 v.length ++ v)
  else error CBOR_ERROR_BUFFER_TOO_SMALL

/-! ### Floats (spec §3, §4.4)

A float is its bit pattern, a `Nat`: binary16 below `2^16`, binary32 below
`2^32`, binary64 below `2^64`.  A format is given by its exponent bias and the
number of its mantissa bits: binary16 is (15, 10), binary32 is (127, 23),
binary64 is (1023, 52). -/

/-- The mantissa field of a binary floating-point pattern with `mb` mantissa
bits. -/
def fp_mant (mb x : Nat) : Nat :=
  x % 2 ^ mb

/-- The exponent field of a pattern with exponent bias `bias` (the field has
the values 0 to `2 * bias + 1`) and `mb` mantissa bits. -/
def fp_exp (bias mb x : Nat) : Nat :=
  x / 2 ^ mb % (2 * bias + 2)

/-- The sign bit of a pattern. -/
def fp_sign (bias mb x : Nat) : Nat :=
  x / (2 ^ mb * (2 * bias + 2)) % 2

/-- The pattern with sign bit `s`, exponent field `e` and mantissa field
`m`. -/
def fp_pack (bias mb s e m : Nat) : Nat :=
  (s * (2 * bias + 2) + e) * 2 ^ mb + m

/-- The number a floating-point pattern stands for: an infinity with its
sign, a NaN, or the finite number `(-1)^neg * mag * 2^(-1074)`; every finite
binary16, binary32 and binary64 number is a multiple of `2^(-1074)`. -/
inductive fp_num where
  | fin (neg : Bool) (mag : Nat)
  | inf (neg : Bool)
  | nan
  deriving DecidableEq

/-- The number that the pattern `x` of the format with exponent bias `bias`
and `mb` mantissa bits stands for (IEEE 754; for binary16 this is the
half-float conversion table of spec §4.4): exponent 0 is `±mantissa *
2^(1 - bias - mb)`, zero included; the largest exponent is `±∞` for mantissa 0
and NaN otherwise; any other exponent `e` is
`±(2^mb + mantissa) * 2^(e - bias - mb)`. -/
def fp_value (bias mb x : Nat) : fp_num :=
  if fp_exp bias mb x = 2 * bias + 1 then
    if fp_mant mb x = 0 then fp_num.inf (decide (fp_sign bias mb x = 1)) else fp_num.nan
  else if fp_exp bias mb x = 0 then
    fp_num.fin (decide (fp_sign bias mb x = 1)) (fp_mant mb x * 2 ^ (1075 - bias - mb))
  else
    fp_num.fin (decide (fp_sign bias mb x = 1))
      ((2 ^ mb + fp_mant mb x) * 2 ^ (1074 + fp_exp bias mb x - bias - mb))

/-- Modelled from the spec: the normalisation step of the conversion of a
subnormal number of the absent `cbor.c` (spec §4.4), the position of the
leading one bit of `m` among its low `n` bits: the largest `k < n` with
`2^k ≤ m`. -/
def fp_msb : Nat → Nat → Nat
  | 0, _ => 0
  | k + 1, m => if 2 ^ k ≤ m then k else fp_msb k m

/-- Modelled from the spec: the bit-level conversion of the absent `cbor.c`
from a narrower format to binary64 (spec §2 item 2, §4.4), which is exact:
zeros and infinities keep their sign, a NaN keeps its mantissa bits at the
top of the wider mantissa ("propagate quiet bit"), a normal number keeps its
mantissa and has its exponent rebiased, and a subnormal number is normalised
on its leading one bit. -/
def fp_widen (bias mb x : Nat) : Nat :=
  if fp_exp bias mb x = 2 * bias + 1 then
    fp_pack 1023 52 (fp_sign bias mb x) 2047 (fp_mant mb x * 2 ^ (52 - mb))
  else if fp_exp bias mb x = 0 then
    if fp_mant mb x = 0 then fp_pack 1023 52 (fp_sign bias mb x) 0 0
    else
      fp_pack 1023 52 (fp_sign bias mb x) (1024 + fp_msb mb (fp_mant mb x) - bias - mb)
        ((fp_mant mb x - 2 ^ fp_msb mb (fp_mant mb x)) * 2 ^ (52 - fp_msb mb (fp_mant mb x)))
  else
    fp_pack 1023 52 (fp_sign bias mb x) (fp_exp bias mb x + 1023 - bias)
      (fp_mant mb x * 2 ^ (52 - mb))

/-- Modelled from the spec: the first step of the reverse conversion of the
absent `cbor.c` (spec §4.4), the pattern of the narrower format nearest in
shape to the binary64 pattern `d`: same sign, the exponent rebiased, the mantissa cut to `mb` bits
(for the subnormal range: shifted right with its leading one bit). -/
def fp_narrow_candidate (bias mb d : Nat) : Nat :=
  if fp_exp 1023 52 d = 2047 then
    fp_pack bias mb (fp_sign 1023 52 d) (2 * bias + 1) (fp_mant 52 d / 2 ^ (52 - mb))
  else if fp_exp 1023 52 d = 0 then fp_pack bias mb (fp_sign 1023 52 d) 0 0
  else if fp_exp 1023 52 d + bias ≤ 1023 then
    fp_pack bias mb (fp_sign 1023 52 d) 0
      ((2 ^ 52 + fp_mant 52 d) / 2 ^ (52 - mb + (1024 - bias - fp_exp 1023 52 d)))
  else if fp_exp 1023 52 d + bias - 1023 ≤ 2 * bias then
    fp_pack bias mb (fp_sign 1023 52 d) (fp_exp 1023 52 d + bias - 1023)
      (fp_mant 52 d / 2 ^ (52 - mb))
  else fp_pack bias mb (fp_sign 1023 52 d) (2 * bias + 1) 0

/-- Modelled from the spec: the reverse conversion of the absent `cbor.c`
from binary64 to a narrower format (spec §4.4: "The reverse direction MUST
detect exact representability and refuse (return "not-half") otherwise"): the
narrowed pattern is accepted when widening it gives `d` back, bit for bit. -/
def fp_narrow (bias mb d : Nat) : Option Nat :=
  if fp_widen bias mb (fp_narrow_candidate bias mb d) = d then
    some (fp_narrow_candidate bias mb d)
  else none

/-- Modelled from the spec: the NaN test of the float writer of the absent
`cbor.c` (spec §4.4): the largest exponent with a mantissa that is not 0. -/
def fp_is_nan (bias mb x : Nat) : Bool :=
  decide (fp_exp bias mb x = 2 * bias + 1 ∧ fp_mant mb x ≠ 0)

/-- Modelled from the spec: `cbor_write_float64` of the absent `cbor.c`
(spec §3, §4.4), on the bit pattern `d` of the double: "a float64 is written
as float16 if it is an exact half, else float32 if it is an exact single,
else float64; NaN is written as the canonical quiet half NaN (0x7e00)".  The
initial bytes F9, FA, FB are major 7 with additional information 25, 26, 27,
followed by the pattern in 2, 4, 8 big-endian bytes. -/
def cbor_write_float64 (avail d : Nat) : cbor_result (List Nat) :=
  let b :=
    if fp_is_nan 1023 52 d then [0xf9, 0x7e, 0x00]
    else
      match fp_narrow 15 10 d with
      | some h => 0xf9 :: be_bytes 2 h
      | none =>
        match fp_narrow 127 23 d with
        | some f => 0xfa :: be_bytes 4 f
        | none => 0xfb :: be_bytes 8 d
  if b.length ≤ avail then ok b else error CBOR_ERROR_BUFFER_TOO_SMALL

/-- Modelled from the spec: `cbor_read_float64` of the absent `cbor.c`
(spec §4.4): "Reader accepts major 7 with ai ∈ {25 (f16), 26 (f32), 27
(f64)}; converts to the requested width"; the result is the bit pattern of
the double.  Another item is `CBOR_ERROR_BAD_TYPE`. -/
def cbor_read_float64 : List Nat → cbor_result (Nat × List Nat)
  | [] => error CBOR_ERROR_END_OF_STREAM
  | ib :: tl =>
    match cbor_read_head (ib :: tl) with
    | error e => error e
    | ok (h, rest) =>
      if h.major ≠ 7 then error CBOR_ERROR_BAD_TYPE
      else if ib % 32 = 25 then ok (fp_widen 15 10 h.arg, rest)
      else if ib % 32 = 26 then ok (fp_widen 127 23 h.arg, rest)
      else if ib % 32 = 27 then ok (h.arg, rest)
      else error CBOR_ERROR_BAD_TYPE

/-- The double with pattern `d` is an exact half: some binary16 pattern stands
for the same number. -/
def is_exact_half (d : Nat) : Prop :=
  ∃ h, h < 2 ^ 16 ∧ fp_value 15 10 h = fp_value 1023 52 d

/-- The double with pattern `d` is an exact single: some binary32 pattern
stands for the same number. -/
def is_exact_single (d : Nat) : Prop :=
  ∃ f, f < 2 ^ 32 ∧ fp_value 127 23 f = fp_value 1023 52 d

/-- The UTF-8 encoding of the code point `cp` (RFC 3629). -/
def utf8_encode (cp : Nat) : List Nat :=
  if cp < 0x80 then [cp]
  else if cp < 0x800 then [0xC0 + cp / 64, 0x80 + cp % 64]
  else if cp < 0x10000 then [0xE0 + cp / 4096, 0x80 + cp / 64 % 64, 0x80 + cp % 64]
  else [0xF0 + cp / 262144, 0x80 + cp / 4096 % 64, 0x80 + cp / 64 % 64, 0x80 + cp % 64]

/-- A Unicode scalar value: a code point up to U+10FFFF that is not a
surrogate. -/
def is_unicode_scalar (cp : Nat) : Prop :=
  cp < 0xD800 ∨ (0xDFFF < cp ∧ cp ≤ 0x10FFFF)

/-- The UTF-8 language of the spec (§8, property 7): a byte sequence is
well-formed UTF-8 when it is the concatenation of the encodings of Unicode
scalar values. -/
def utf8_wellformed (bs : List Nat) : Prop :=
  ∃ cps : List Nat, (∀ cp ∈ cps, is_unicode_scalar cp) ∧ bs = cps.flatMap utf8_encode

/-- A definite-length string item of the given major with content `c`, as it
stands in the input: head, then content. -/
def cbor_chunk (major : Nat) (c : List Nat) : List Nat :=
  cbor_head_bytes major c.length ++ c

/-- The encodings of a sequence of definite-length chunks, one after the
other. -/
def cbor_chunks (major : Nat) (cs : List (List Nat)) : List Nat :=
  cs.flatMap (cbor_chunk major)

/-- The spec's rule for the head of an integer (spec §4.2, §4.3) in words:
an argument below 24 sits in the initial byte; otherwise the argument is
carried in the smallest of 1, 2, 4 or 8 big-endian bytes that holds it,
announced by additional information 24, 25, 26 or 27. -/
def is_shortest_head (major u : Nat) (b : List Nat) : Prop :=
  (u < 24 ∧ b = [major * 32 + u]) ∨
  (24 ≤ u ∧ ∃ k, k ≤ 3 ∧ u < 256 ^ 2 ^ k ∧ (∀ j, j < k → 256 ^ 2 ^ j ≤ u) ∧
    b = (major * 32 + 24 + k) :: be_bytes (2 ^ k) u)

/-! ## The framing rule in the spec's words -/

/-- The spec's reading of a stuffed frame, block by block: a code byte `c`
is followed by `c - 1` literal bytes, and this repeats until the input is
exhausted.  The result is `true` when the input ends before the last code
byte has been followed by all of its literal bytes ("the final segment is
short"). -/
def final_segment_short : List Nat → Bool
  | [] => false
  | c :: rest =>
    if rest.length < c - 1 then true else final_segment_short (rest.drop (c - 1))
termination_by l => l.length
decreasing_by simp_wf; omega

/-- The frame the spec describes for a run of `254 * m` non-zero bytes: `m`
blocks, each the code byte 0xFF followed by the next 254 data bytes, and no
trailing code byte. -/
def ff_blocks : Nat → List Nat → List Nat
  | 0, _ => []
  | m + 1, l => 255 :: l.take 254 ++ ff_blocks m (l.drop 254)

/-- The output that the spec's sentence on decoding describes when it is read
literally: every block, the last one included, contributes its `code - 1`
literal bytes followed by one 0x00 unless its code is 255. -/
def dec_blocks_literal : List Nat → List Nat
  | [] => []
  | c :: rest =>
    rest.take (c - 1) ++ (if c ≠ 255 then [0] else [])
      ++ dec_blocks_literal (rest.drop (c - 1))
termination_by l => l.length
decreasing_by simp_wf; omega

/-- The block by block output in which the last block of the input
contributes its literal bytes only: every block contributes its `code - 1`
literal bytes, followed by one 0x00 unless its code is 255 or the input ends
with the block. -/
def dec_blocks : List Nat → List Nat
  | [] => []
  | c :: rest =>
    rest.take (c - 1) ++ (if c ≠ 255 ∧ rest.drop (c - 1) ≠ [] then [0] else [])
      ++ dec_blocks (rest.drop (c - 1))
termination_by l => l.length
decreasing_by simp_wf; omega

/-! ## The checksum in the spec's words -/

/-- One step of the reflected CRC computed one bit at a time with the
polynomial 0x82F63B78: the low bit is shifted out and, if it was set, the
polynomial is XORed in. -/
def crc32c_bit (c : Nat) : Nat :=
  if c % 2 = 1 then (c >>> 1) ^^^ 0x82F63B78 else c >>> 1

/-- The bit-at-a-time CRC over one byte: the byte is XORed into the low end of
the register, then eight bit steps follow. -/
def crc32c_byte (c b : Nat) : Nat :=
  crc32c_bit^[8] (c ^^^ b)

/-- The bit-at-a-time definition of the checksum: XOR 0xFFFFFFFF on entry, the
bytes in order, XOR 0xFFFFFFFF on exit. -/
def crc32c_bitwise (crc : Nat) (data : List Nat) : Nat :=
  (data.foldl crc32c_byte (crc ^^^ 0xffffffff)) ^^^ 0xffffffff

/-! ## Block view of the encoder (used by the proofs)

The encoder's output memory, read as a sequence of closed blocks followed by
the block under construction. -/

/-- The encoder's progress as lists: `done` is the bytes of the blocks already
closed, `data` the data bytes of the open block (its code byte is
`data.length + 1`), `lm` the flag `last_max`. -/
structure Blk where
  done : List Nat
  data : List Nat
  lm : Bool

/-- The effect of one encoder iteration on the block view. -/
def blk_step (a : Blk) (v : Nat) : Blk :=
  if v = 0 then
    { done := a.done ++ (a.data.length + 1) :: a.data, data := [], lm := false }
  else if a.data.length + 2 = 255 then
    { done := a.done ++ 255 :: (a.data ++ [v]), data := [], lm := true }
  else
    { done := a.done, data := a.data ++ [v], lm := false }

/-- The block view after the whole input. -/
def blk_loop (inp : List Nat) : Blk :=
  inp.foldl blk_step { done := [], data := [], lm := false }

/-- The frame a block view stands for when the input ends there. -/
def blk_out (a : Blk) : List Nat :=
  if a.lm then a.done else a.done ++ (a.data.length + 1) :: a.data

/-- The encoder state `s` holds the block view `a` in its memory. -/
def EncRel (s : EncState) (a : Blk) : Prop :=
  s.out = a.done.length ∧ s.nout = a.done.length ∧ seg s.mem 0 s.out = a.done ∧
  s.mem s.out = a.data.length + 1 ∧ seg s.mem (s.out + 1) a.data.length = a.data ∧
  a.data.length < 254 ∧ s.last_max = a.lm

/-- Decoding the closed blocks of `a` and then its open block gives the input
prefix `p` that produced `a`. -/
def BlkDec (a : Blk) (p : List Nat) : Prop :=
  ∃ (o : Bool) (q : List Nat),
    a.done.foldl cobs_dec_step cobs_dec_init
      = { out0 := o, code := 0, nout := q.length, out := q } ∧
    p = q ++ (if o then [0] else []) ++ a.data ∧
    (a.lm = true → a.data = [] ∧ o = false) ∧ a.data.length < 254

/-- No byte of the block view is zero. -/
def BlkNZ (a : Blk) : Prop :=
  (∀ x ∈ a.done, x ≠ 0) ∧ (∀ x ∈ a.data, x ≠ 0)

/-- Byte accounting of the block view after `i` input bytes: `f` counts the
blocks closed with code 255. -/
def BlkCount (a : Blk) (i : Nat) : Prop :=
  ∃ f : Nat, a.done.length + a.data.length = i + f ∧
    254 * f + a.data.length + (if a.lm = false ∧ a.data.length = 0 ∧ 0 < i then 1 else 0) ≤ i ∧
    (a.lm = true → a.data.length = 0 ∧ 1 ≤ f) ∧ a.data.length < 254

/-! ## The state update of the generator iterated (used by the proofs) -/

/-- The sum `1 + a + ... + a^(k-1)` for the multiplier `a = 6364136223846793005`
of the state update of `pcg32_random_r`: `k` updates take the state `s` to
`s + pcg32_geom k * ((a - 1) * s + inc)` modulo `2^64`. -/
def pcg32_geom : Nat → Nat
  | 0 => 0
  | k + 1 => 6364136223846793005 * pcg32_geom k + 1

/-! ## Theorems -/

theorem seg_length (m : Nat → Nat) (a n : Nat) : (seg m a n).length = n := by
  simp [seg]

theorem seg_zero (m : Nat → Nat) (a : Nat) : seg m a 0 = [] := by
  simp [seg]

theorem seg_succ (m : Nat → Nat) (a n : Nat) :
    seg m a (n + 1) = seg m a n ++ [m (a + n)] := by
  simp [seg, List.range_succ]

theorem seg_congr (m m2 : Nat → Nat) (a n : Nat)
    (h : ∀ i, a ≤ i → i < a + n → m i = m2 i) : seg m a n = seg m2 a n := by
  unfold seg
  apply List.map_congr_left
  intro i hi
  have hi2 : i < n := List.mem_range.mp hi
  exact h (a + i) (by omega) (by omega)

theorem seg_add (m : Nat → Nat) (a n k : Nat) :
    seg m a (n + k) = seg m a n ++ seg m (a + n) k := by
  induction k with
  | zero => simp [seg_zero]
  | succ k ih =>
    rw [← Nat.add_assoc, seg_succ, ih, seg_succ, List.append_assoc, Nat.add_assoc]

theorem seg_cons (m : Nat → Nat) (a n : Nat) :
    seg m a (n + 1) = m a :: seg m (a + 1) n := by
  rw [Nat.add_comm n 1, seg_add]
  simp [seg, List.range_succ]

theorem seg_store (m : Nat → Nat) (a n i v : Nat) (h : i < a ∨ a + n ≤ i) :
    seg (store m i v) a n = seg m a n := by
  apply seg_congr
  intro j h1 h2
  have : j ≠ i := by omega
  simp [store, this]

theorem store_same (m : Nat → Nat) (i v : Nat) : store m i v i = v := by
  simp [store]

theorem store_other (m : Nat → Nat) (i v j : Nat) (h : j ≠ i) : store m i v j = m j := by
  simp [store, h]

theorem encRel_init (m : Nat → Nat) :
    EncRel (cobs_enc_init m) { done := [], data := [], lm := false } := by
  simp [EncRel, cobs_enc_init, seg_zero, store_same]

theorem encRel_step (s : EncState) (a : Blk) (v : Nat) (h : EncRel s a) :
    EncRel (cobs_enc_step s v) (blk_step a v) := by
  obtain ⟨h1, h2, h3, h4, h5, h6, h7⟩ := h
  unfold cobs_enc_step blk_step
  by_cases hv : v = 0
  · simp only [hv, if_true]
    refine ⟨?_, ?_, ?_, ?_, ?_, ?_, ?_⟩
    · show s.out + s.mem s.out = _
      rw [h4, h1]; simp
    · show s.nout + s.mem s.out = _
      rw [h4, h2]; simp
    · show seg (store s.mem (s.out + s.mem s.out) 1) 0 (s.out + s.mem s.out) = _
      rw [seg_store _ _ _ _ _ (Or.inr (by omega)), seg_add, h3, h4, Nat.zero_add,
        Nat.add_comm a.data.length 1, Nat.add_comm 1 a.data.length, seg_cons, h4, h5]
    · show store s.mem (s.out + s.mem s.out) 1 (s.out + s.mem s.out) = _
      simp [store_same]
    · simp [seg_zero]
    · simp
    · rfl
  · simp only [hv, if_false]
    have hc : (s.mem s.out + 1) % 256 = a.data.length + 2 := by
      rw [h4]; omega
    have hm2 : store (store s.mem (s.out + s.mem s.out) v) s.out ((s.mem s.out + 1) % 256) s.out
        = a.data.length + 2 := by
      rw [store_same, hc]
    simp only [hm2]
    by_cases hf : a.data.length + 2 = 255
    · simp only [hf, if_true]
      have hl : a.data.length = 253 := by omega
      refine ⟨?_, ?_, ?_, ?_, ?_, ?_, ?_⟩
      · show s.out + 255 = _
        rw [h1]; simp; omega
      · show s.nout + 255 = _
        rw [h2]; simp; omega
      · show seg (store (store (store s.mem (s.out + s.mem s.out) v) s.out
            ((s.mem s.out + 1) % 256)) (s.out + 255) 1) 0 (s.out + 255) = _
        rw [seg_store _ _ _ _ _ (Or.inr (by omega)), seg_add, Nat.zero_add,
          seg_store _ 0 _ _ _ (Or.inr (by omega)),
          seg_store _ 0 _ _ _ (Or.inr (by omega)), h3]
        congr 1
        show seg _ s.out (254 + 1) = _
        rw [seg_cons, store_same, hc, hf]
        congr 1
        show seg _ (s.out + 1) (253 + 1) = _
        rw [seg_succ, seg_store _ _ _ _ _ (Or.inl (by omega)),
          seg_store _ _ _ _ _ (Or.inr (by omega)), ← hl, h5,
          store_other _ _ _ _ (by omega), h4]
        have : s.out + (a.data.length + 1) = s.out + 1 + a.data.length := by omega
        rw [this, store_same]
      · show store _ (s.out + 255) 1 (s.out + 255) = _
        simp [store_same]
      · simp [seg_zero]
      · simp
      · rfl
    · simp only [hf, if_false]
      refine ⟨h1, h2, ?_, ?_, ?_, ?_, ?_⟩
      · show seg (store (store s.mem (s.out + s.mem s.out) v) s.out _) 0 s.out = _
        rw [seg_store _ _ _ _ _ (Or.inr (by omega)),
          seg_store _ _ _ _ _ (Or.inr (by omega)), h3]
      · show store (store s.mem (s.out + s.mem s.out) v) s.out _ s.out = _
        rw [hm2]; simp
      · show seg (store (store s.mem (s.out + s.mem s.out) v) s.out _) (s.out + 1)
            (a.data ++ [v]).length = _
        rw [List.length_append, List.length_singleton, seg_succ,
          seg_store _ _ _ _ _ (Or.inl (by omega)),
          seg_store _ _ _ _ _ (Or.inr (by omega)), h5,
          store_other _ _ _ _ (by omega), h4]
        have : s.out + (a.data.length + 1) = s.out + 1 + a.data.length := by omega
        rw [this, store_same]
      · simp; omega
      · rfl

theorem encRel_loop (m : Nat → Nat) (inp : List Nat) :
    EncRel (cobs_enc_loop m inp) (blk_loop inp) := by
  unfold cobs_enc_loop blk_loop
  have key : ∀ (l : List Nat) (s : EncState) (a : Blk), EncRel s a →
      EncRel (l.foldl cobs_enc_step s) (l.foldl blk_step a) := by
    intro l
    induction l with
    | nil => intro s a h; exact h
    | cons v l ih => intro s a h; exact ih _ _ (encRel_step s a v h)
  exact key inp _ _ (encRel_init m)


theorem cobs_enc_fst (m : Nat → Nat) (inp : List Nat) :
    (cobs_enc m inp).1 = (blk_out (blk_loop inp)).length := by
  obtain ⟨h1, h2, h3, h4, h5, h6, h7⟩ := encRel_loop m inp
  unfold cobs_enc blk_out
  simp only [h7, h4, h2]
  cases (blk_loop inp).lm <;> simp

theorem cobs_enc_bytes_eq (m : Nat → Nat) (inp : List Nat) :
    cobs_enc_bytes m inp = blk_out (blk_loop inp) := by
  unfold cobs_enc_bytes
  rw [cobs_enc_fst]
  obtain ⟨h1, h2, h3, h4, h5, h6, h7⟩ := encRel_loop m inp
  have hm : (cobs_enc m inp).2 = (cobs_enc_loop m inp).mem := by
    unfold cobs_enc
    dsimp only
    split <;> rfl
  rw [hm]
  unfold blk_out
  cases hl : (blk_loop inp).lm
  · simp only [Bool.false_eq_true, if_false, List.length_append, List.length_cons]
    rw [← h1, seg_add, h3, Nat.zero_add, seg_cons, h4, h5]
  · simp only [if_true]
    rw [← h1, h3]

theorem dec_data (data : List Nat) :
    ∀ s : DecState, data.length ≤ s.code → s.code < 256 →
      data.foldl cobs_dec_step s
        = { out0 := s.out0, code := s.code - data.length, nout := s.nout + data.length,
            out := s.out ++ data } := by
  induction data with
  | nil => intro s _ _; simp
  | cons x xs ih =>
    intro s h1 h2
    have hc : s.code ≠ 0 := by simp at h1; omega
    have hm : (s.code + 255) % 256 = s.code - 1 := by omega
    rw [List.foldl_cons, ih]
    · simp only [cobs_dec_step, hc, if_false, hm, List.length_cons, List.append_assoc,
        List.singleton_append]
      congr 1 <;> omega
    · simp only [cobs_dec_step, hc, if_false, hm]
      simp at h1; omega
    · simp only [cobs_dec_step, hc, if_false, hm]
      omega

theorem dec_block (s : DecState) (c : Nat) (data : List Nat) (hs : s.code = 0)
    (hc : c ≤ 255) (hd : data.length + 1 = c) :
    (c :: data).foldl cobs_dec_step s
      = { out0 := decide (c ≠ 255), code := 0,
          nout := (if s.out0 then s.nout + 1 else s.nout) + data.length,
          out := (if s.out0 then s.out ++ [0] else s.out) ++ data } := by
  have hm : (c + 255) % 256 = data.length := by omega
  rw [List.foldl_cons, dec_data]
  · simp [cobs_dec_step, hs, hm]
  · simp [cobs_dec_step, hs, hm]
  · simp only [cobs_dec_step, hs, if_true, hm]
    omega

theorem blkDec_step (a : Blk) (p : List Nat) (v : Nat) (h : BlkDec a p) :
    BlkDec (blk_step a v) (p ++ [v]) := by
  obtain ⟨o, q, hq, hp, hl, hd⟩ := h
  unfold blk_step
  by_cases hv : v = 0
  · simp only [hv, if_true]
    refine ⟨true, (if o then q ++ [0] else q) ++ a.data, ?_, ?_, ?_, ?_⟩
    · rw [List.foldl_append, hq, dec_block _ _ _ rfl (by omega) rfl]
      have hne : a.data.length + 1 ≠ 255 := by omega
      cases o
      · simp [hne]
      · simp [hne]; omega
    · rw [hp]; cases o <;> simp
    · simp
    · simp
  · simp only [hv, if_false]
    by_cases hf : a.data.length + 2 = 255
    · simp only [hf, if_true]
      refine ⟨false, (if o then q ++ [0] else q) ++ (a.data ++ [v]), ?_, ?_, ?_, ?_⟩
      · rw [List.foldl_append, hq, dec_block _ _ _ rfl (by omega) (by simp; omega)]
        cases o
        · simp
        · simp; omega
      · rw [hp]; cases o <;> simp
      · simp
      · simp
    · simp only [hf, if_false]
      refine ⟨o, q, hq, ?_, ?_, ?_⟩
      · rw [hp]; simp
      · simp
      · simp; omega

theorem blkDec_fold (l : List Nat) :
    ∀ (a : Blk) (p : List Nat), BlkDec a p → BlkDec (l.foldl blk_step a) (p ++ l) := by
  induction l with
  | nil => intro a p h; simpa using h
  | cons v l ih =>
    intro a p h
    have := ih _ _ (blkDec_step a p v h)
    simpa using this

theorem blkDec_loop (inp : List Nat) : BlkDec (blk_loop inp) inp := by
  have h0 : BlkDec { done := [], data := [], lm := false } [] :=
    ⟨false, [], rfl, rfl, by simp, by simp⟩
  simpa [blk_loop] using blkDec_fold inp _ _ h0

theorem blkNZ_step (a : Blk) (v : Nat) (h : BlkNZ a) : BlkNZ (blk_step a v) := by
  obtain ⟨h1, h2⟩ := h
  unfold blk_step
  by_cases hv : v = 0
  · simp only [hv, if_true]
    refine ⟨?_, by simp⟩
    intro x hx
    simp only [List.mem_append, List.mem_cons] at hx
    rcases hx with hx | hx | hx
    · exact h1 x hx
    · omega
    · exact h2 x hx
  · simp only [hv, if_false]
    by_cases hf : a.data.length + 2 = 255
    · simp only [hf, if_true]
      refine ⟨?_, by simp⟩
      intro x hx
      simp only [List.mem_append, List.mem_cons, List.mem_singleton, List.not_mem_nil,
        or_false] at hx
      rcases hx with hx | hx | hx | hx
      · exact h1 x hx
      · omega
      · exact h2 x hx
      · omega
    · simp only [hf, if_false]
      refine ⟨h1, ?_⟩
      intro x hx
      simp only [List.mem_append, List.mem_singleton] at hx
      rcases hx with hx | hx
      · exact h2 x hx
      · omega

theorem blkNZ_loop (inp : List Nat) : BlkNZ (blk_loop inp) := by
  have key : ∀ (l : List Nat) (a : Blk), BlkNZ a → BlkNZ (l.foldl blk_step a) := by
    intro l
    induction l with
    | nil => intro a h; exact h
    | cons v l ih => intro a h; exact ih _ (blkNZ_step a v h)
  exact key inp _ ⟨by simp, by simp⟩

theorem blk_out_ne_zero (inp : List Nat) : ∀ x ∈ blk_out (blk_loop inp), x ≠ 0 := by
  obtain ⟨h1, h2⟩ := blkNZ_loop inp
  intro x hx
  unfold blk_out at hx
  split at hx
  · exact h1 x hx
  · simp only [List.mem_append, List.mem_cons] at hx
    rcases hx with hx | hx | hx
    · exact h1 x hx
    · omega
    · exact h2 x hx

theorem blkCount_step (a : Blk) (i v : Nat) (h : BlkCount a i) :
    BlkCount (blk_step a v) (i + 1) := by
  obtain ⟨f, h1, h2, h3, h4⟩ := h
  unfold blk_step
  by_cases hv : v = 0
  · simp only [hv, if_true]
    refine ⟨f, ?_, ?_, ?_, ?_⟩
    · simp; omega
    · simp; split at h2 <;> omega
    · simp
    · simp
  · simp only [hv, if_false]
    by_cases hf : a.data.length + 2 = 255
    · simp only [hf, if_true]
      refine ⟨f + 1, ?_, ?_, ?_, ?_⟩
      · simp; omega
      · simp; split at h2 <;> omega
      · simp
      · simp
    · simp only [hf, if_false]
      refine ⟨f, ?_, ?_, ?_, ?_⟩
      · simp; omega
      · simp; split at h2 <;> omega
      · simp
      · simp; omega

theorem blkCount_loop (inp : List Nat) : BlkCount (blk_loop inp) inp.length := by
  have key : ∀ (l : List Nat) (a : Blk) (i : Nat), BlkCount a i →
      BlkCount (l.foldl blk_step a) (i + l.length) := by
    intro l
    induction l with
    | nil => intro a i h; exact h
    | cons v l ih =>
      intro a i h
      have := ih _ _ (blkCount_step a i v h)
      simpa [Nat.add_assoc, Nat.add_comm 1] using this
  have h0 : BlkCount { done := [], data := [], lm := false } 0 := ⟨0, by simp⟩
  simpa [blk_loop] using key inp _ _ h0

theorem blk_out_le_size (inp : List Nat) (h : inp ≠ []) :
    (blk_out (blk_loop inp)).length ≤ cobs_enc_size inp.length := by
  obtain ⟨f, h1, h2, h3, h4⟩ := blkCount_loop inp
  have hpos : 0 < inp.length := List.length_pos.mpr h
  unfold blk_out cobs_enc_size
  cases hl : (blk_loop inp).lm
  · simp only [hl, Bool.false_eq_true, if_false, List.length_append, List.length_cons]
    simp only [hl, true_and] at h2
    split at h2 <;> omega
  · simp only [if_true]
    have := h3 hl
    omega

/-- For a non-empty input the length returned by `cobs_enc` is at most
`cobs_enc_size` of the input length. -/
theorem cobs_enc_le_size_of_ne_nil (m : Nat → Nat) (b : List Nat) (h : b ≠ []) :
    (cobs_enc m b).1 ≤ cobs_enc_size b.length := by
  rw [cobs_enc_fst]
  exact blk_out_le_size b h

theorem cobs_dec_blk_out (a : Blk) (p : List Nat) (h : BlkDec a p)
    (hz : ¬ (0 ∈ blk_out a)) : cobs_dec (blk_out a) = ((p.length : Int), p) := by
  obtain ⟨o, q, hq, hp, hl, hd⟩ := h
  unfold cobs_dec
  simp only [hz, if_false]
  unfold cobs_dec_loop blk_out
  subst hp
  cases hlm : a.lm
  · simp only [Bool.false_eq_true, if_false]
    rw [List.foldl_append, hq, dec_block _ _ _ rfl (by omega) rfl]
    cases o
    · simp
    · simp; omega
  · simp only [if_true]
    obtain ⟨hd0, ho⟩ := hl hlm
    rw [hq]
    simp [hd0, ho]

/-- C1: decoding the frame that `cobs_enc` produced for any byte sequence `b`
succeeds, writes exactly `b`, and returns the length of `b`. -/
theorem cobs_dec_enc_roundtrip (m : Nat → Nat) (b : List Nat) :
    cobs_dec (cobs_enc_bytes m b) = ((b.length : Int), b) := by
  rw [cobs_enc_bytes_eq]
  exact cobs_dec_blk_out _ _ (blkDec_loop b) (fun h => blk_out_ne_zero b 0 h rfl)

/-- C2: every output byte at a position below the length returned by
`cobs_enc` is non-zero. -/
theorem cobs_enc_no_zero (m : Nat → Nat) (b : List Nat) (i : Nat)
    (hi : i < (cobs_enc m b).1) : (cobs_enc m b).2 i ≠ 0 := by
  have hmem : (cobs_enc m b).2 i ∈ cobs_enc_bytes m b := by
    unfold cobs_enc_bytes seg
    exact List.mem_map.mpr ⟨i, List.mem_range.mpr hi, by simp⟩
  rw [cobs_enc_bytes_eq] at hmem
  exact blk_out_ne_zero b _ hmem

theorem cobs_enc_no_zero_witness :
    1 < (cobs_enc (fun _ => 0) [0, 0x11, 0, 0x22]).1 ∧
      (cobs_enc (fun _ => 0) [0, 0x11, 0, 0x22]).2 1 ≠ 0 :=
  ⟨by decide, cobs_enc_no_zero (fun _ => 0) [0, 0x11, 0, 0x22] 1 (by decide)⟩

/-- C3 (failing input): on the empty input `cobs_enc` stores the code byte
`out[0] = 1` and returns 1, while `cobs_enc_size 0` is 0, so the returned
length exceeds `cobs_enc_size` of the input length. -/
theorem cobs_enc_empty_exceeds_size (m : Nat → Nat) :
    (cobs_enc m []).1 = 1 ∧ (cobs_enc m []).2 0 = 1 ∧
      cobs_enc_size ([] : List Nat).length = 0 ∧
      ¬ ((cobs_enc m []).1 ≤ cobs_enc_size ([] : List Nat).length) := by
  exact ⟨rfl, rfl, rfl, Nat.not_succ_le_zero 0⟩

/-- C4: `cobs_dec` returns -1 exactly when the input contains a zero byte, and
then it has written nothing. -/
theorem cobs_dec_invalid_iff (inp : List Nat) :
    ((cobs_dec inp).1 = -1 ↔ 0 ∈ inp) ∧ (0 ∈ inp → (cobs_dec inp).2 = []) := by
  unfold cobs_dec
  by_cases h : 0 ∈ inp
  · simp [h]
  · simp only [h, if_false, iff_false, false_implies, and_true]
    split
    · simp
    · simp only []
      omega

/-- C6: the two worked examples of the byte-stuffing scheme, in both
directions, with the returned lengths. -/
theorem cobs_examples (m : Nat → Nat) :
    (cobs_enc m [0x00, 0x11, 0x00, 0x22]).1 = 5 ∧
    cobs_enc_bytes m [0x00, 0x11, 0x00, 0x22] = [0x01, 0x02, 0x11, 0x02, 0x22] ∧
    (cobs_enc m [0x11, 0x22, 0x00]).1 = 4 ∧
    cobs_enc_bytes m [0x11, 0x22, 0x00] = [0x03, 0x11, 0x22, 0x01] ∧
    cobs_dec [0x01, 0x02, 0x11, 0x02, 0x22] = (4, [0x00, 0x11, 0x00, 0x22]) ∧
    cobs_dec [0x03, 0x11, 0x22, 0x01] = (3, [0x11, 0x22, 0x00]) := by
  refine ⟨?_, ?_, ?_, ?_, by decide, by decide⟩
  · rw [cobs_enc_fst]; decide
  · rw [cobs_enc_bytes_eq]; decide
  · rw [cobs_enc_fst]; decide
  · rw [cobs_enc_bytes_eq]; decide

theorem dec_loop_short (n : Nat) :
    ∀ (inp : List Nat) (s : DecState), inp.length ≤ n → s.code = 0 →
      s.nout = s.out.length → (∀ x ∈ inp, x ≠ 0 ∧ x < 256) →
      (0 < (inp.foldl cobs_dec_step s).code ↔ final_segment_short inp = true) ∧
      (inp.foldl cobs_dec_step s).nout = (inp.foldl cobs_dec_step s).out.length := by
  induction n with
  | zero =>
    intro inp s hlen hs hn _
    have : inp = [] := List.length_eq_zero.mp (by omega)
    subst this
    simp [final_segment_short, hs, hn]
  | succ n ih =>
    intro inp s hlen hs hn hb
    cases inp with
    | nil => simp [final_segment_short, hs, hn]
    | cons c rest =>
      have hc := hb c (by simp)
      have hm : (c + 255) % 256 = c - 1 := by omega
      rw [final_segment_short]
      by_cases hr : rest.length < c - 1
      · simp only [hr, if_true]
        rw [List.foldl_cons, dec_data]
        · simp only [cobs_dec_step, hs, if_true, hm]
          refine ⟨by simp; omega, ?_⟩
          cases s.out0
          · simp [hn]
          · simp [hn]; omega
        · simp only [cobs_dec_step, hs, if_true, hm]; omega
        · simp only [cobs_dec_step, hs, if_true, hm]; omega
      · simp only [hr, if_false]
        have hsplit : c :: rest = (c :: rest.take (c - 1)) ++ rest.drop (c - 1) := by
          simp
        have htl : (rest.take (c - 1)).length + 1 = c := by
          rw [List.length_take]; omega
        rw [hsplit, List.foldl_append, dec_block _ _ _ hs (by omega) htl]
        apply ih
        · simp at hlen ⊢; omega
        · rfl
        · cases s.out0
          · simp [hn]
          · simp [hn]; omega
        · intro x hx
          exact hb x (List.mem_cons_of_mem _ (List.mem_of_mem_drop hx))

/-- C5: on an input without zero bytes `cobs_dec` returns -2 exactly when the
final segment is short (the input ends before the last code byte `c` has been
followed by its `c - 1` data bytes); otherwise, the empty input included, it
returns the non-negative number of bytes it wrote. -/
theorem cobs_dec_truncated_iff (inp : List Nat) (hb : ∀ x ∈ inp, x ≠ 0 ∧ x < 256) :
    ((cobs_dec inp).1 = -2 ↔ final_segment_short inp = true) ∧
    (final_segment_short inp = false →
      0 ≤ (cobs_dec inp).1 ∧ (cobs_dec inp).1 = ((cobs_dec inp).2.length : Int)) := by
  have hz : ¬ (0 ∈ inp) := fun h => (hb 0 h).1 rfl
  obtain ⟨h1, h2⟩ := dec_loop_short inp.length inp cobs_dec_init (Nat.le_refl _) rfl rfl hb
  unfold cobs_dec
  simp only [hz, if_false]
  unfold cobs_dec_loop
  by_cases hc : 0 < (inp.foldl cobs_dec_step cobs_dec_init).code
  · have hs := h1.mp hc
    simp [hc, hs]
  · have hs : final_segment_short inp = false := by
      cases h : final_segment_short inp
      · rfl
      · exact absurd (h1.mpr h) hc
    simp only [gt_iff_lt, hc, if_false, hs, h2]
    refine ⟨?_, fun _ => ?_⟩
    · constructor
      · intro h; omega
      · intro h; simp at h
    · simp

theorem cobs_dec_truncated_iff_witness :
    ((cobs_dec [0x03, 0x11]).1 = -2 ↔ final_segment_short [0x03, 0x11] = true) ∧
    (final_segment_short [0x03, 0x11] = false →
      0 ≤ (cobs_dec [0x03, 0x11]).1 ∧
        (cobs_dec [0x03, 0x11]).1 = ((cobs_dec [0x03, 0x11]).2.length : Int)) :=
  cobs_dec_truncated_iff [0x03, 0x11] (by decide)


theorem shiftRight_xor (a b k : Nat) : (a ^^^ b) >>> k = (a >>> k) ^^^ (b >>> k) := by
  apply Nat.eq_of_testBit_eq
  intro i
  simp [Nat.testBit_shiftRight, Nat.testBit_xor]

theorem crc32c_idx_xor (y d : Nat) :
    (((y ^^^ d) &&& 0xff) ^^^ (d % 256)) % 256 = ((y &&& 0xff) ^^^ 0) % 256 := by
  have e1 : (0xff : Nat) = 2 ^ 8 - 1 := by decide
  have e2 : (256 : Nat) = 2 ^ 8 := by decide
  rw [e1, e2]
  apply Nat.eq_of_testBit_eq
  intro i
  simp only [Nat.and_pow_two_sub_one_eq_mod, Nat.testBit_mod_two_pow, Nat.testBit_xor,
    Nat.xor_zero]
  cases decide (i < 8) <;> cases y.testBit i <;> cases d.testBit i <;> rfl

theorem crc32c_step_xor (y d : Nat) :
    crc32c_step (y ^^^ d) (d % 256) = crc32c_step y 0 ^^^ (d >>> 8) := by
  unfold crc32c_step
  simp only [crc32c_idx_xor, shiftRight_xor]
  rw [Nat.xor_assoc, Nat.xor_assoc, Nat.xor_comm (d >>> 8)]

theorem crc32c_tab_bit_lt (c : Nat) (h : c < 2 ^ 32) : crc32c_tab_bit c < 2 ^ 32 := by
  have h1 : c >>> 1 < 2 ^ 32 := by
    rw [Nat.shiftRight_eq_div_pow]
    exact Nat.lt_of_le_of_lt (Nat.div_le_self _ _) h
  unfold crc32c_tab_bit
  split
  · exact Nat.xor_lt_two_pow h1 (by decide)
  · exact h1

theorem crc32c_tab_lt (i : Nat) (h : i < 2 ^ 32) : crc32c_tab i < 2 ^ 32 := by
  unfold crc32c_tab
  repeat apply crc32c_tab_bit_lt
  exact h

theorem crc32c_step_lt (crc b : Nat) (h : crc < 2 ^ 32) : crc32c_step crc b < 2 ^ 32 := by
  unfold crc32c_step
  apply Nat.xor_lt_two_pow
  · rw [Nat.shiftRight_eq_div_pow]
    exact Nat.lt_of_le_of_lt (Nat.div_le_self _ _) h
  · apply crc32c_tab_lt
    have : ((crc &&& 0xff) ^^^ b) % 256 < 256 := Nat.mod_lt _ (by decide)
    omega

theorem crc32c_fold_lt (data : List Nat) :
    ∀ r : Nat, r < 2 ^ 32 → data.foldl crc32c_step r < 2 ^ 32 := by
  induction data with
  | nil => intro r h; exact h
  | cons b l ih => intro r h; exact ih _ (crc32c_step_lt r b h)

theorem crc32c_update_lt (crc : Nat) (data : List Nat) (h : crc < 2 ^ 32) :
    crc32c_update crc data < 2 ^ 32 := by
  unfold crc32c_update
  exact Nat.xor_lt_two_pow (crc32c_fold_lt data _ (Nat.xor_lt_two_pow h (by decide)))
    (by decide)

theorem crc32c_fold_le (x c : Nat) (h : c < 2 ^ 32) :
    (crc_le c).foldl crc32c_step (x ^^^ c) = [0, 0, 0, 0].foldl crc32c_step x := by
  have h16 : c >>> 16 = c >>> 8 >>> 8 := Nat.shiftRight_add c 8 8
  have h24 : c >>> 24 = c >>> 8 >>> 8 >>> 8 := by
    rw [← h16]; exact Nat.shiftRight_add c 16 8
  have h32 : c >>> 8 >>> 8 >>> 8 >>> 8 = 0 := by
    rw [← h24, ← Nat.shiftRight_add, Nat.shiftRight_eq_div_pow]
    exact Nat.div_eq_of_lt h
  unfold crc_le
  simp only [List.foldl_cons, List.foldl_nil]
  rw [h16, h24, crc32c_step_xor, crc32c_step_xor, crc32c_step_xor, crc32c_step_xor, h32,
    Nat.xor_zero]

/-- C7: the CRC-32C of the nine ASCII bytes "123456789", started from
`CRC32C_INIT`, is 0xE3069283; the table is the one generated from 0x82F63B78,
the 32-bit reflection of the polynomial 0x1EDC6F41. -/
theorem crc32c_check_value :
    crc32c_update CRC32C_INIT [0x31, 0x32, 0x33, 0x34, 0x35, 0x36, 0x37, 0x38, 0x39]
      = 0xE3069283 ∧
    reflect 32 CRC32C_POLY = 0x82F63B78 ∧
    crc32c_tab 0 = 0 ∧ crc32c_tab 1 = 0xF26B8303 ∧ crc32c_tab 255 = 0xAD7D5351 := by
  decide

/-- C8: for every message `m`, the CRC of `m` followed by the four bytes of
`crc32c_update 0 m` in little-endian order is the constant `CRC32C_OK_REM`
(0x48674BC7). -/
theorem crc32c_residue (m : List Nat) :
    crc32c_update CRC32C_INIT (m ++ crc_le (crc32c_update CRC32C_INIT m)) = CRC32C_OK_REM := by
  have hlt : crc32c_update CRC32C_INIT m < 2 ^ 32 := crc32c_update_lt _ m (by decide)
  have key := crc32c_fold_le 0xffffffff (crc32c_update CRC32C_INIT m) hlt
  have hreg : (0xffffffff : Nat) ^^^ crc32c_update CRC32C_INIT m
      = m.foldl crc32c_step (CRC32C_INIT ^^^ 0xffffffff) := by
    unfold crc32c_update
    rw [Nat.xor_comm, Nat.xor_cancel_right]
  rw [hreg] at key
  show ((m ++ crc_le (crc32c_update CRC32C_INIT m)).foldl crc32c_step
    (CRC32C_INIT ^^^ 0xffffffff)) ^^^ 0xffffffff = CRC32C_OK_REM
  rw [List.foldl_append, key]
  decide

/-- C9: the CRC can be computed incrementally: updating with `a` and then with
`b` equals one update with `a` followed by `b`. -/
theorem crc32c_update_append (crc : Nat) (a b : List Nat) :
    crc32c_update (crc32c_update crc a) b = crc32c_update crc (a ++ b) := by
  unfold crc32c_update
  rw [Nat.xor_cancel_right, List.foldl_append]

/-- C10: `pcg32_random_r` replaces `state` by
`(state * 6364136223846793005 + inc) mod 2^64`, for every generator state; the
new state is again a 64-bit word and `inc` is left as it was. -/
theorem pcg32_random_r_state (rng : pcg32_random_t) :
    (pcg32_random_r rng).1.state = (rng.state * 6364136223846793005 + rng.inc) % 2 ^ 64 ∧
    (pcg32_random_r rng).1.state < 2 ^ 64 ∧
    (pcg32_random_r rng).1.inc = rng.inc := by
  refine ⟨rfl, ?_, rfl⟩
  show (rng.state * 6364136223846793005 + rng.inc) % 2 ^ 64 < 2 ^ 64
  exact Nat.mod_lt _ (by decide)

theorem rotr_code_bits (x r i : Nat) (hx : x < 2 ^ 32) (hr : r < 32) :
    ((x >>> r) ||| ((x <<< (((2 ^ 32 - r) % 2 ^ 32) &&& 31)) % 2 ^ 32)).testBit i
      = (decide (i < 32) && x.testBit ((i + r) % 32)) := by
  have e31 : (31 : Nat) = 2 ^ 5 - 1 := by decide
  have hk : ((2 ^ 32 - r) % 2 ^ 32) &&& 31 = (32 - r) % 32 := by
    rw [e31, Nat.and_pow_two_sub_one_eq_mod]
    omega
  rw [hk, Nat.testBit_or, Nat.testBit_shiftRight, Nat.testBit_mod_two_pow,
    Nat.testBit_shiftLeft]
  by_cases hi : i < 32
  · by_cases hs : r + i < 32
    · have h1 : (i + r) % 32 = r + i := by omega
      rw [h1]
      by_cases hr0 : r = 0
      · subst hr0; simp [hi]
      · have h2 : ¬ (i ≥ (32 - r) % 32) := by omega
        simp [hi, h2]
    · have h1 : x.testBit (r + i) = false :=
        Nat.testBit_lt_two_pow (Nat.lt_of_lt_of_le hx (Nat.pow_le_pow_right (by decide) (by omega)))
      have h2 : i ≥ (32 - r) % 32 := by omega
      have h3 : i - (32 - r) % 32 = (i + r) % 32 := by omega
      simp [hi, h1, h2, h3]
  · have h1 : x.testBit (r + i) = false :=
      Nat.testBit_lt_two_pow (Nat.lt_of_lt_of_le hx (Nat.pow_le_pow_right (by decide) (by omega)))
    simp [hi, h1]

theorem rotr32_bits (x r i : Nat) (hx : x < 2 ^ 32) (hr : r < 32) :
    (rotr32 x r).testBit i = (decide (i < 32) && x.testBit ((i + r) % 32)) := by
  have hq : x / 2 ^ r < 2 ^ (32 - r) := by
    rw [Nat.div_lt_iff_lt_mul (Nat.two_pow_pos r), ← Nat.pow_add]
    have : 32 - r + r = 32 := by omega
    rw [this]; exact hx
  unfold rotr32
  rw [Nat.add_comm, Nat.mul_comm, Nat.testBit_mul_pow_two_add _ hq, Nat.testBit_mod_two_pow,
    ← Nat.shiftRight_eq_div_pow, Nat.testBit_shiftRight]
  by_cases hi : i < 32 - r
  · have h1 : (i + r) % 32 = r + i := by omega
    have h2 : i < 32 := by omega
    simp [hi, h1, h2]
  · by_cases h32 : i < 32
    · have h1 : (i + r) % 32 = i - (32 - r) := by omega
      have h2 : i - (32 - r) < r := by omega
      simp [hi, h1, h2, h32]
    · have h2 : ¬ (i - (32 - r) < r) := by omega
      simp [hi, h2, h32]

/-- C11: for every 64-bit generator state the value returned by
`pcg32_random_r` is the 32-bit rotate-right, by `rot = old_state >> 59`, of
`xsh = (((old_state >> 18) XOR old_state) >> 27)` truncated to 32 bits, both
taken from the state before the update: it equals `rotr32 xsh rot`, it is a
32-bit word whose bit `i` is bit `(i + rot) mod 32` of `xsh`, and for
`rot = 0` it is `xsh` itself. -/
theorem pcg32_random_r_output (rng : pcg32_random_t) (h : rng.state < 2 ^ 64) :
    (pcg32_random_r rng).2
      = rotr32 ((((rng.state >>> 18) ^^^ rng.state) >>> 27) % 2 ^ 32) (rng.state >>> 59) ∧
    (pcg32_random_r rng).2 < 2 ^ 32 ∧
    (∀ i, i < 32 → (pcg32_random_r rng).2.testBit i
      = ((((rng.state >>> 18) ^^^ rng.state) >>> 27) % 2 ^ 32).testBit
          ((i + (rng.state >>> 59)) % 32)) ∧
    (rng.state >>> 59 = 0 →
      (pcg32_random_r rng).2 = (((rng.state >>> 18) ^^^ rng.state) >>> 27) % 2 ^ 32) := by
  have hx : (((rng.state >>> 18) ^^^ rng.state) >>> 27) % 2 ^ 32 < 2 ^ 32 :=
    Nat.mod_lt _ (by decide)
  have hr : rng.state >>> 59 < 32 := by
    rw [Nat.shiftRight_eq_div_pow]
    omega
  have hrm : (rng.state >>> 59) % 2 ^ 32 = rng.state >>> 59 := by omega
  have hval : (pcg32_random_r rng).2
      = rotr32 ((((rng.state >>> 18) ^^^ rng.state) >>> 27) % 2 ^ 32) (rng.state >>> 59) := by
    show (_ >>> ((rng.state >>> 59) % 2 ^ 32)) ||| _ = _
    rw [hrm]
    apply Nat.eq_of_testBit_eq
    intro i
    rw [rotr_code_bits _ _ i hx hr, rotr32_bits _ _ i hx hr]
  have hbits : ∀ i, (pcg32_random_r rng).2.testBit i
      = (decide (i < 32) && ((((rng.state >>> 18) ^^^ rng.state) >>> 27) % 2 ^ 32).testBit
          ((i + (rng.state >>> 59)) % 32)) := by
    intro i
    rw [hval, rotr32_bits _ _ i hx hr]
  refine ⟨hval, ?_, ?_, ?_⟩
  · apply Nat.lt_pow_two_of_testBit
    intro i hi
    rw [hbits i]
    have : ¬ (i < 32) := by omega
    simp [this]
  · intro i hi
    rw [hbits i]
    simp [hi]
  · intro h0
    rw [hval, h0]
    simp [rotr32, Nat.mod_one]

theorem pcg32_random_r_output_witness :
    (pcg32_random_r PCG32_INITIALIZER).2
      = rotr32 ((((PCG32_INITIALIZER.state >>> 18) ^^^ PCG32_INITIALIZER.state) >>> 27) % 2 ^ 32)
          (PCG32_INITIALIZER.state >>> 59) ∧
    (pcg32_random_r PCG32_INITIALIZER).2 < 2 ^ 32 ∧
    (∀ i, i < 32 → (pcg32_random_r PCG32_INITIALIZER).2.testBit i
      = ((((PCG32_INITIALIZER.state >>> 18) ^^^ PCG32_INITIALIZER.state) >>> 27) % 2 ^ 32).testBit
          ((i + (PCG32_INITIALIZER.state >>> 59)) % 32)) ∧
    (PCG32_INITIALIZER.state >>> 59 = 0 →
      (pcg32_random_r PCG32_INITIALIZER).2
        = (((PCG32_INITIALIZER.state >>> 18) ^^^ PCG32_INITIALIZER.state) >>> 27) % 2 ^ 32) :=
  pcg32_random_r_output PCG32_INITIALIZER (by decide)

theorem or_one_mod_two_pow (a n : Nat) (hn : 0 < n) :
    (a ||| 1) % 2 ^ n = (a % 2 ^ n) ||| 1 := by
  apply Nat.eq_of_testBit_eq
  intro i
  simp only [Nat.testBit_mod_two_pow, Nat.testBit_or]
  by_cases hi : i = 0
  · subst hi; simp [hn]
  · have h1 : Nat.testBit 1 i = false := by
      cases h : Nat.testBit 1 i
      · rfl
      · exact absurd (Nat.testBit_one_eq_true_iff_self_eq_zero.mp h) hi
    simp [h1]

theorem or_one_odd (a : Nat) : (a ||| 1) % 2 = 1 := by
  simp

theorem pcg32_srandom_r_inc (rng : pcg32_random_t) (initstate initseq : Nat) :
    (pcg32_srandom_r rng initstate initseq).inc = ((initseq <<< 1) % 2 ^ 64) ||| 1 := rfl

theorem pcg32_srandom_r_eq (g1 g2 : pcg32_random_t) (initstate initseq : Nat) :
    pcg32_srandom_r g1 initstate initseq = pcg32_srandom_r g2 initstate initseq := rfl

theorem pcg32_boundedrand_loop_inc (bound threshold : Nat) (fuel : Nat) :
    ∀ (rng : pcg32_random_t) (r : pcg32_random_t × Nat),
      pcg32_boundedrand_loop bound threshold fuel rng = some r → r.1.inc = rng.inc := by
  induction fuel with
  | zero => intro rng r h; simp [pcg32_boundedrand_loop] at h
  | succ fuel ih =>
    intro rng r h
    rw [pcg32_boundedrand_loop] at h
    split at h
    · simp only [Option.some.injEq] at h
      rw [← h]; rfl
    · exact (ih (pcg32_random_r rng).1 r h).trans rfl

theorem pcg32_boundedrand_loop_lt (bound threshold : Nat) (hb : 1 ≤ bound) (fuel : Nat) :
    ∀ (rng : pcg32_random_t) (r : pcg32_random_t × Nat),
      pcg32_boundedrand_loop bound threshold fuel rng = some r → r.2 < bound := by
  induction fuel with
  | zero => intro rng r h; simp [pcg32_boundedrand_loop] at h
  | succ fuel ih =>
    intro rng r h
    rw [pcg32_boundedrand_loop] at h
    split at h
    · simp only [Option.some.injEq] at h
      rw [← h]
      exact Nat.mod_lt _ (by omega)
    · exact ih _ _ h

theorem pcg32_randbytes_inc (fuel n : Nat) :
    ∀ (rng : pcg32_random_t) (r : pcg32_random_t × List Nat),
      pcg32_randbytes fuel n rng = some r → r.1.inc = rng.inc := by
  induction n with
  | zero =>
    intro rng r h
    simp only [pcg32_randbytes, Option.some.injEq] at h
    rw [← h]
  | succ n ih =>
    intro rng r h
    rw [pcg32_randbytes] at h
    split at h
    · simp at h
    · rename_i rng1 v h1
      split at h
      · simp at h
      · rename_i rng2 bs h2
        simp only [Option.some.injEq] at h
        rw [← h]
        have e1 := pcg32_boundedrand_loop_inc _ _ _ _ _ h1
        have e2 := ih _ _ h2
        simp only at e1 e2 ⊢
        rw [e2, e1]

theorem pcg32_draws_length (k : Nat) :
    ∀ rng : pcg32_random_t, (pcg32_draws k rng).1.length = k := by
  induction k with
  | zero => intro rng; rfl
  | succ k ih => intro rng; simp [pcg32_draws, ih]

theorem pcg32_boundedrand_r_256 (fuel : Nat) (rng : pcg32_random_t) :
    pcg32_boundedrand_r (fuel + 1) rng 256
      = some ((pcg32_random_r rng).1, (pcg32_random_r rng).2 % 256) := by
  have ht : pcg32_threshold 256 = 0 := by decide
  unfold pcg32_boundedrand_r
  rw [ht, pcg32_boundedrand_loop]
  simp

theorem pcg32_draws_inc (k : Nat) :
    ∀ rng : pcg32_random_t, (pcg32_draws k rng).2.inc = rng.inc := by
  induction k with
  | zero => intro rng; rfl
  | succ k ih =>
    intro rng
    exact (ih (pcg32_random_r rng).1).trans rfl

/-- C12: whatever the generator held before, `pcg32_srandom_r` leaves
`inc = ((initseq << 1) | 1) mod 2^64` and
`state = ((inc + initstate) * 6364136223846793005 + inc) mod 2^64`. -/
theorem pcg32_srandom_r_result (rng : pcg32_random_t) (initstate initseq : Nat) :
    (pcg32_srandom_r rng initstate initseq).inc = ((initseq <<< 1) ||| 1) % 2 ^ 64 ∧
    (pcg32_srandom_r rng initstate initseq).state
      = (((pcg32_srandom_r rng initstate initseq).inc + initstate) * 6364136223846793005
          + (pcg32_srandom_r rng initstate initseq).inc) % 2 ^ 64 := by
  refine ⟨?_, ?_⟩
  · rw [pcg32_srandom_r_inc, or_one_mod_two_pow _ _ (by decide)]
  · rw [pcg32_srandom_r_inc]
    have hlt : ((initseq <<< 1) % 2 ^ 64) ||| 1 < 2 ^ 64 :=
      Nat.or_lt_two_pow (Nat.mod_lt _ (by decide)) (by decide)
    show ((((0 * 6364136223846793005 + (((initseq <<< 1) % 2 ^ 64) ||| 1)) % 2 ^ 64
        + initstate) % 2 ^ 64) * 6364136223846793005
        + (((initseq <<< 1) % 2 ^ 64) ||| 1)) % 2 ^ 64 = _
    generalize ((initseq <<< 1) % 2 ^ 64) ||| 1 = c at hlt ⊢
    omega

/-- C13: the increment is always odd: it is odd after `pcg32_srandom_r` for
every seed, the `inc` of `PCG32_INITIALIZER` is odd, and `pcg32_random_r` (one
call or any number of successive calls), `pcg32_boundedrand_r` and
`pcg32_randbytes` leave `inc` as it was. -/
theorem pcg32_inc_odd :
    (∀ (rng : pcg32_random_t) (initstate initseq : Nat),
      (pcg32_srandom_r rng initstate initseq).inc % 2 = 1) ∧
    PCG32_INITIALIZER.inc % 2 = 1 ∧
    (∀ rng : pcg32_random_t, (pcg32_random_r rng).1.inc = rng.inc) ∧
    (∀ (k : Nat) (rng : pcg32_random_t), (pcg32_draws k rng).2.inc = rng.inc) ∧
    (∀ (fuel : Nat) (rng : pcg32_random_t) (bound : Nat) (r : pcg32_random_t × Nat),
      pcg32_boundedrand_r fuel rng bound = some r → r.1.inc = rng.inc) ∧
    (∀ (fuel n : Nat) (rng : pcg32_random_t) (r : pcg32_random_t × List Nat),
      pcg32_randbytes fuel n rng = some r → r.1.inc = rng.inc) := by
  refine ⟨?_, by decide, fun _ => rfl, pcg32_draws_inc, ?_, ?_⟩
  · intro rng initstate initseq
    rw [pcg32_srandom_r_inc]
    exact or_one_odd _
  · intro fuel rng bound r h
    exact pcg32_boundedrand_loop_inc _ _ _ _ _ h
  · intro fuel n rng r h
    exact pcg32_randbytes_inc fuel n rng r h

/-- C14: for every generator state and every `bound ≥ 1`, whenever
`pcg32_boundedrand_r` returns, the returned value is below `bound`. -/
theorem pcg32_boundedrand_r_lt (fuel : Nat) (rng : pcg32_random_t) (bound : Nat)
    (r : pcg32_random_t × Nat) (hb : 1 ≤ bound)
    (hr : pcg32_boundedrand_r fuel rng bound = some r) : r.2 < bound :=
  pcg32_boundedrand_loop_lt _ _ hb _ _ _ hr

theorem pcg32_boundedrand_r_lt_witness :
    ∃ r, pcg32_boundedrand_r 1 PCG32_INITIALIZER 6 = some r ∧ r.2 < 6 :=
  ⟨_, rfl, pcg32_boundedrand_r_lt 1 PCG32_INITIALIZER 6 _ (by decide) rfl⟩

/-- C16: after `pcg32_srandom_r(rng, 42, 54)` the first six values returned by
`pcg32_random_r` are those of the reference PCG-XSH-RR-64/32 stream. -/
theorem pcg32_reference_stream (rng : pcg32_random_t) :
    (pcg32_draws 6 (pcg32_srandom_r rng 42 54)).1
      = [0xa15c02b7, 0x7b47f409, 0xba1d3330, 0x83d2f293, 0xbfa4784b, 0xcbed606e] := by
  rw [pcg32_srandom_r_eq rng PCG32_INITIALIZER]
  decide

/-- C17: the output sequence is determined by the seed alone: two generators
that held arbitrary contents before `pcg32_srandom_r(initstate, initseq)`
return the same first `k` values from `pcg32_random_r` and end in the same
state. -/
theorem pcg32_seed_determines (g1 g2 : pcg32_random_t) (initstate initseq k : Nat) :
    (pcg32_draws k (pcg32_srandom_r g1 initstate initseq)).1
      = (pcg32_draws k (pcg32_srandom_r g2 initstate initseq)).1 ∧
    (pcg32_draws k (pcg32_srandom_r g1 initstate initseq)).2
      = (pcg32_draws k (pcg32_srandom_r g2 initstate initseq)).2 := by
  rw [pcg32_srandom_r_eq g1 g2]
  exact ⟨rfl, rfl⟩

/-- C18: for every generator state and every `n`, `pcg32_randbytes` returns
(one iteration of each inner rejection loop is enough), writes exactly `n`
bytes, byte `i` being the low 8 bits of the `i`-th successive
`pcg32_random_r` output, and leaves the generator where `n` calls of
`pcg32_random_r` leave it. -/
theorem pcg32_randbytes_spec (fuel n : Nat) (rng : pcg32_random_t) :
    pcg32_randbytes (fuel + 1) n rng
      = some ((pcg32_draws n rng).2, (pcg32_draws n rng).1.map (fun r => r % 256)) ∧
    ((pcg32_draws n rng).1.map (fun r => r % 256)).length = n := by
  refine ⟨?_, by simp [pcg32_draws_length]⟩
  induction n generalizing rng with
  | zero => rfl
  | succ n ih =>
    rw [pcg32_randbytes, pcg32_boundedrand_r_256]
    simp only [ih, pcg32_draws, List.map_cons, Nat.mod_mod]

theorem card_mod_window (b v c : Nat) (hv : v < b) :
    ((Finset.Ico c (c + b)).filter (fun r => r % b = v)).card = 1 := by
  have hp : Function.Periodic (fun r => r % b = v) b := by
    intro r
    simp [Nat.add_mod_right]
  rw [Nat.filter_Ico_card_eq_of_periodic c b _ hp, Nat.count_eq_card_filter_range]
  have hs : (Finset.range b).filter (fun r => r % b = v) = {v} := by
    ext r
    simp only [Finset.mem_filter, Finset.mem_range, Finset.mem_singleton]
    constructor
    · rintro ⟨h1, h2⟩
      rw [Nat.mod_eq_of_lt h1] at h2
      exact h2
    · intro h
      subst h
      exact ⟨hv, Nat.mod_eq_of_lt hv⟩
  rw [hs, Finset.card_singleton]

theorem card_mod_block (b v : Nat) (hv : v < b) (q : Nat) :
    ∀ a : Nat, ((Finset.Ico a (a + b * q)).filter (fun r => r % b = v)).card = q := by
  induction q with
  | zero => intro a; simp
  | succ q ih =>
    intro a
    have hsplit : Finset.Ico a (a + b * (q + 1))
        = Finset.Ico a (a + b * q) ∪ Finset.Ico (a + b * q) (a + b * q + b) := by
      rw [Finset.Ico_union_Ico_eq_Ico (Nat.le_add_right _ _) (Nat.le_add_right _ _)]
      congr 1
      rw [Nat.mul_succ, Nat.add_assoc]
    rw [hsplit, Finset.filter_union, Finset.card_union_of_disjoint
      (Finset.disjoint_filter_filter (Finset.Ico_disjoint_Ico_consecutive _ _ _)),
      ih a, card_mod_window b v _ hv]

theorem pcg32_threshold_eq (bound : Nat) (h1 : 1 ≤ bound) (h2 : bound < 2 ^ 32) :
    pcg32_threshold bound = 2 ^ 32 % bound := by
  unfold pcg32_threshold
  have e : (2 ^ 32 - bound) % 2 ^ 32 = 2 ^ 32 - bound := Nat.mod_eq_of_lt (by omega)
  rw [e, ← Nat.mod_eq_sub_mod (Nat.le_of_lt h2)]

theorem pcg32_boundedrand_loop_first (bound threshold : Nat) (fuel : Nat) :
    ∀ (rng : pcg32_random_t) (res : pcg32_random_t × Nat),
      pcg32_boundedrand_loop bound threshold fuel rng = some res →
      ∃ j, j < fuel ∧ (∀ x ∈ (pcg32_draws j rng).1, x < threshold) ∧
        threshold ≤ (pcg32_random_r (pcg32_draws j rng).2).2 ∧
        res = ((pcg32_random_r (pcg32_draws j rng).2).1,
          (pcg32_random_r (pcg32_draws j rng).2).2 % bound) := by
  induction fuel with
  | zero => intro rng res h; simp [pcg32_boundedrand_loop] at h
  | succ fuel ih =>
    intro rng res h
    unfold pcg32_boundedrand_loop at h
    by_cases h2 : threshold ≤ (pcg32_random_r rng).2
    · simp only [ge_iff_le, h2, if_true, Option.some.injEq] at h
      exact ⟨0, by omega, by simp [pcg32_draws], h2, h.symm⟩
    · simp only [ge_iff_le, h2, if_false] at h
      obtain ⟨j, hj, hall, hacc, hres⟩ := ih _ _ h
      refine ⟨j + 1, by omega, ?_, hacc, hres⟩
      intro x hx
      simp only [pcg32_draws, List.mem_cons] at hx
      rcases hx with hx | hx
      · omega
      · exact hall x hx

/-- C15: the rejection threshold removes modulo bias exactly.  For every
32-bit `bound ≥ 1` the threshold computed by `pcg32_boundedrand_r` is
`2^32 mod bound`; the loop accepts a draw `r` exactly when `threshold ≤ r` and
then returns `r mod bound`, so the value a call returns is `r mod bound` for
the first draw `r` with `threshold ≤ r`; and among the accepted 32-bit draws
(`threshold ≤ r < 2^32`) each value `v` in `[0, bound)` is the result
`r mod bound` of exactly `floor(2^32 / bound)` draws. -/
theorem pcg32_threshold_unbiased (bound : Nat) (h1 : 1 ≤ bound) (h2 : bound < 2 ^ 32) :
    pcg32_threshold bound = 2 ^ 32 % bound ∧
    (∀ (fuel : Nat) (rng : pcg32_random_t),
      pcg32_boundedrand_r (fuel + 1) rng bound
        = if pcg32_threshold bound ≤ (pcg32_random_r rng).2 then
            some ((pcg32_random_r rng).1, (pcg32_random_r rng).2 % bound)
          else pcg32_boundedrand_r fuel (pcg32_random_r rng).1 bound) ∧
    (∀ (fuel : Nat) (rng : pcg32_random_t) (res : pcg32_random_t × Nat),
      pcg32_boundedrand_r fuel rng bound = some res →
      ∃ j, j < fuel ∧ (∀ x ∈ (pcg32_draws j rng).1, x < pcg32_threshold bound) ∧
        pcg32_threshold bound ≤ (pcg32_random_r (pcg32_draws j rng).2).2 ∧
        res = ((pcg32_random_r (pcg32_draws j rng).2).1,
          (pcg32_random_r (pcg32_draws j rng).2).2 % bound)) ∧
    (∀ v, v < bound →
      ((Finset.range (2 ^ 32)).filter
        (fun r => pcg32_threshold bound ≤ r ∧ r % bound = v)).card = 2 ^ 32 / bound) := by
  refine ⟨pcg32_threshold_eq bound h1 h2, ?_, ?_, ?_⟩
  · intro fuel rng
    unfold pcg32_boundedrand_r
    rw [pcg32_boundedrand_loop]
  · intro fuel rng res h
    exact pcg32_boundedrand_loop_first bound _ fuel rng res h
  · intro v hv
    rw [pcg32_threshold_eq bound h1 h2]
    have hs : (Finset.range (2 ^ 32)).filter (fun r => 2 ^ 32 % bound ≤ r ∧ r % bound = v)
        = (Finset.Ico (2 ^ 32 % bound) (2 ^ 32 % bound + bound * (2 ^ 32 / bound))).filter
            (fun r => r % bound = v) := by
      rw [Nat.mod_add_div]
      ext r
      simp only [Finset.mem_filter, Finset.mem_range, Finset.mem_Ico]
      constructor
      · rintro ⟨h3, h4, h5⟩
        exact ⟨⟨h4, h3⟩, h5⟩
      · rintro ⟨⟨h3, h4⟩, h5⟩
        exact ⟨h4, h3, h5⟩
    rw [hs, card_mod_block bound v hv]

theorem pcg32_threshold_unbiased_witness :
    pcg32_threshold 6 = 2 ^ 32 % 6 ∧
    (∀ (fuel : Nat) (rng : pcg32_random_t),
      pcg32_boundedrand_r (fuel + 1) rng 6
        = if pcg32_threshold 6 ≤ (pcg32_random_r rng).2 then
            some ((pcg32_random_r rng).1, (pcg32_random_r rng).2 % 6)
          else pcg32_boundedrand_r fuel (pcg32_random_r rng).1 6) ∧
    (∀ (fuel : Nat) (rng : pcg32_random_t) (res : pcg32_random_t × Nat),
      pcg32_boundedrand_r fuel rng 6 = some res →
      ∃ j, j < fuel ∧ (∀ x ∈ (pcg32_draws j rng).1, x < pcg32_threshold 6) ∧
        pcg32_threshold 6 ≤ (pcg32_random_r (pcg32_draws j rng).2).2 ∧
        res = ((pcg32_random_r (pcg32_draws j rng).2).1,
          (pcg32_random_r (pcg32_draws j rng).2).2 % 6)) ∧
    (∀ v, v < 6 →
      ((Finset.range (2 ^ 32)).filter
        (fun r => pcg32_threshold 6 ≤ r ∧ r % 6 = v)).card = 2 ^ 32 / 6) :=
  pcg32_threshold_unbiased 6 (by decide) (by decide)

theorem take_succ_snoc (l : List Nat) (k : Nat) (hk : k < l.length) :
    ∃ x, l.take (k + 1) = l.take k ++ [x] := by
  refine ⟨l[k], ?_⟩
  rw [List.take_succ, List.getElem?_eq_getElem hk]
  rfl

theorem dec_step_written (s : DecState) (x : Nat) (h : s.nout = s.out.length) :
    (cobs_dec_step s x).nout = (cobs_dec_step s x).out.length ∧
    ((cobs_dec_step s x).out.length = s.out.length ∨
      (cobs_dec_step s x).out.length = s.out.length + 1) ∧
    (s.code = 0 → s.out0 = false → (cobs_dec_step s x).out.length = s.out.length) := by
  unfold cobs_dec_step
  by_cases hc : s.code = 0
  · simp only [hc, if_true]
    cases s.out0
    · simp [h]
    · simp [h]
  · simp [hc, h]

theorem dec_fold_written (l : List Nat) :
    ∀ s : DecState, s.nout = s.out.length →
      (l.foldl cobs_dec_step s).nout = (l.foldl cobs_dec_step s).out.length ∧
      (l.foldl cobs_dec_step s).out.length ≤ s.out.length + l.length := by
  induction l with
  | nil => intro s h; exact ⟨h, Nat.le_refl _⟩
  | cons x l ih =>
    intro s h
    obtain ⟨h1, h2, _⟩ := dec_step_written s x h
    obtain ⟨h3, h4⟩ := ih _ h1
    refine ⟨h3, ?_⟩
    simp only [List.foldl_cons, List.length_cons]
    omega

theorem dec_loop_written (l : List Nat) :
    (cobs_dec_loop l).nout = (cobs_dec_loop l).out.length ∧
    (l ≠ [] → (cobs_dec_loop l).out.length < l.length) := by
  unfold cobs_dec_loop
  refine ⟨(dec_fold_written l cobs_dec_init rfl).1, ?_⟩
  intro hne
  cases l with
  | nil => exact absurd rfl hne
  | cons x l =>
    obtain ⟨h1, _, h3⟩ := dec_step_written cobs_dec_init x rfl
    have h0 := h3 rfl rfl
    obtain ⟨_, h4⟩ := dec_fold_written l _ h1
    simp only [List.foldl_cons, List.length_cons]
    have : cobs_dec_init.out.length = 0 := rfl
    omega

/-- C19: decoding in place is safe.  When `cobs_dec` has consumed `k + 1`
input bytes it has written fewer than `k + 1` bytes; the iteration that
consumes input byte `k` stores at most one byte, and when it stores one, the
index it stores to is below `k`, the number of bytes read before that
iteration; and a successful decode of `n ≥ 1` bytes returns at most `n - 1`. -/
theorem cobs_dec_in_place (inp : List Nat) (k : Nat) (hk : k < inp.length) :
    (cobs_dec_loop (inp.take (k + 1))).nout = (cobs_dec_loop (inp.take (k + 1))).out.length ∧
    (cobs_dec_loop (inp.take (k + 1))).out.length < k + 1 ∧
    ((cobs_dec_loop (inp.take (k + 1))).out.length = (cobs_dec_loop (inp.take k)).out.length ∨
      ((cobs_dec_loop (inp.take (k + 1))).out.length
          = (cobs_dec_loop (inp.take k)).out.length + 1 ∧
        (cobs_dec_loop (inp.take k)).out.length < k)) ∧
    (0 ≤ (cobs_dec inp).1 → (cobs_dec inp).1 ≤ (inp.length : Int) - 1) := by
  have hlen1 : (inp.take (k + 1)).length = k + 1 := by
    rw [List.length_take]; omega
  have hlen0 : (inp.take k).length = k := by
    rw [List.length_take]; omega
  have hne1 : inp.take (k + 1) ≠ [] := by
    intro h; rw [h] at hlen1; simp at hlen1
  obtain ⟨a1, a2⟩ := dec_loop_written (inp.take (k + 1))
  have a3 := a2 hne1
  rw [hlen1] at a3
  refine ⟨a1, a3, ?_, ?_⟩
  · obtain ⟨x, hx⟩ := take_succ_snoc inp k hk
    obtain ⟨b1, b2⟩ := dec_loop_written (inp.take k)
    obtain ⟨c1, c2, c3⟩ := dec_step_written (cobs_dec_loop (inp.take k)) x b1
    have hstep : cobs_dec_loop (inp.take (k + 1))
        = cobs_dec_step (cobs_dec_loop (inp.take k)) x := by
      unfold cobs_dec_loop
      rw [hx, List.foldl_append]
      rfl
    rw [hstep]
    rcases c2 with c2 | c2
    · exact Or.inl c2
    · by_cases hk0 : k = 0
      · subst hk0
        exact Or.inl (c3 rfl rfl)
      · have hne0 : inp.take k ≠ [] := by
          intro h; rw [h] at hlen0; simp at hlen0; omega
        have := b2 hne0
        rw [hlen0] at this
        exact Or.inr ⟨c2, this⟩
  · intro hret
    have hne : inp ≠ [] := by
      intro h; rw [h] at hk; simp at hk
    obtain ⟨d1, d2⟩ := dec_loop_written inp
    have d3 := d2 hne
    by_cases hz : 0 ∈ inp
    · simp [cobs_dec, hz] at hret
    · by_cases hcode : 0 < (cobs_dec_loop inp).code
      · simp [cobs_dec, hz, hcode] at hret
      · have hval : (cobs_dec inp).1 = ((cobs_dec_loop inp).nout : Int) := by
          simp [cobs_dec, hz, hcode]
        rw [hval]
        omega

theorem cobs_dec_in_place_witness :
    (cobs_dec_loop ([0x03, 0x11, 0x22, 0x01].take (3 + 1))).nout
      = (cobs_dec_loop ([0x03, 0x11, 0x22, 0x01].take (3 + 1))).out.length ∧
    (cobs_dec_loop ([0x03, 0x11, 0x22, 0x01].take (3 + 1))).out.length < 3 + 1 ∧
    ((cobs_dec_loop ([0x03, 0x11, 0x22, 0x01].take (3 + 1))).out.length
        = (cobs_dec_loop ([0x03, 0x11, 0x22, 0x01].take 3)).out.length ∨
      ((cobs_dec_loop ([0x03, 0x11, 0x22, 0x01].take (3 + 1))).out.length
          = (cobs_dec_loop ([0x03, 0x11, 0x22, 0x01].take 3)).out.length + 1 ∧
        (cobs_dec_loop ([0x03, 0x11, 0x22, 0x01].take 3)).out.length < 3)) ∧
    (0 ≤ (cobs_dec [0x03, 0x11, 0x22, 0x01]).1 →
      (cobs_dec [0x03, 0x11, 0x22, 0x01]).1
        ≤ (([0x03, 0x11, 0x22, 0x01] : List Nat).length : Int) - 1) :=
  cobs_dec_in_place [0x03, 0x11, 0x22, 0x01] 3 (by decide)

theorem cobs_enc_step_frame (s : EncState) (v j : Nat)
    (hj : ¬ (j ∈ cobs_enc_step_stores s v)) : (cobs_enc_step s v).mem j = s.mem j := by
  unfold cobs_enc_step_stores at hj
  unfold cobs_enc_step
  by_cases hv : v = 0
  · simp only [hv, if_true, List.mem_singleton] at hj ⊢
    exact store_other _ _ _ _ hj
  · simp only [hv, if_false] at hj ⊢
    split
    · rename_i h255
      simp only [h255, if_true, List.mem_cons, List.mem_singleton, List.not_mem_nil,
        or_false, not_or] at hj
      obtain ⟨h1, h2, h3⟩ := hj
      show store (store (store s.mem _ v) s.out _) _ 1 j = s.mem j
      rw [store_other _ _ _ _ (by rw [h255]; exact h3), store_other _ _ _ _ h2,
        store_other _ _ _ _ h1]
    · rename_i h255
      simp only [h255, if_false, List.mem_cons, List.mem_singleton, List.not_mem_nil,
        or_false, not_or] at hj
      obtain ⟨h1, h2⟩ := hj
      show store (store s.mem _ v) s.out _ j = s.mem j
      rw [store_other _ _ _ _ h2, store_other _ _ _ _ h1]

theorem cobs_enc_trace_state (m : Nat → Nat) (inp : List Nat) :
    (cobs_enc_trace m inp).1 = cobs_enc_loop m inp := by
  unfold cobs_enc_trace cobs_enc_loop
  have key : ∀ (l : List Nat) (st : EncState × List Nat),
      (l.foldl (fun st v => (cobs_enc_step st.1 v, st.2 ++ cobs_enc_step_stores st.1 v)) st).1
        = l.foldl cobs_enc_step st.1 := by
    intro l
    induction l with
    | nil => intro st; rfl
    | cons v l ih => intro st; simp only [List.foldl_cons]; rw [ih]
  exact key inp _

theorem step_stores_le (s : EncState) (a : Blk) (v : Nat) (h : EncRel s a) :
    (∀ j ∈ cobs_enc_step_stores s v,
      j ≤ (blk_step a v).done.length + (blk_step a v).data.length) ∧
    a.done.length + a.data.length
      ≤ (blk_step a v).done.length + (blk_step a v).data.length := by
  obtain ⟨h1, h2, h3, h4, h5, h6, h7⟩ := h
  unfold cobs_enc_step_stores blk_step
  by_cases hv : v = 0
  · simp only [hv, if_true, List.mem_singleton, List.length_append, List.length_cons,
      List.length_nil]
    refine ⟨?_, by omega⟩
    intro j hj
    rw [hj, h4, h1]
    omega
  · simp only [hv, if_false]
    have hc : (s.mem s.out + 1) % 256 = a.data.length + 2 := by
      rw [h4]; omega
    have hm2 : store (store s.mem (s.out + s.mem s.out) v) s.out ((s.mem s.out + 1) % 256) s.out
        = a.data.length + 2 := by
      rw [store_same, hc]
    simp only [hm2]
    by_cases hf : a.data.length + 2 = 255
    · simp only [hf, if_true, List.mem_cons, List.mem_singleton, List.not_mem_nil, or_false,
        List.length_append, List.length_cons, List.length_nil]
      refine ⟨?_, by omega⟩
      intro j hj
      rw [h4, h1] at hj
      omega
    · simp only [hf, if_false, List.mem_cons, List.mem_singleton, List.not_mem_nil, or_false,
        List.length_append, List.length_cons, List.length_nil]
      refine ⟨?_, by omega⟩
      intro j hj
      rw [h4, h1] at hj
      omega

theorem trace_stores_le (l : List Nat) :
    ∀ (st : EncState × List Nat) (a : Blk), EncRel st.1 a →
      (∀ j ∈ st.2, j ≤ a.done.length + a.data.length) →
      ∀ j ∈ (l.foldl (fun st v => (cobs_enc_step st.1 v,
          st.2 ++ cobs_enc_step_stores st.1 v)) st).2,
        j ≤ (l.foldl blk_step a).done.length + (l.foldl blk_step a).data.length := by
  induction l with
  | nil => intro st a _ h; exact h
  | cons v l ih =>
    intro st a hrel h
    obtain ⟨g1, g2⟩ := step_stores_le st.1 a v hrel
    simp only [List.foldl_cons]
    apply ih _ _ (encRel_step st.1 a v hrel)
    intro j hj
    simp only [List.mem_append] at hj
    rcases hj with hj | hj
    · exact Nat.le_trans (h j hj) g2
    · exact g1 j hj

/-- C20: encoding in place does not overwrite unread input.  Before
`cobs_enc` reads input byte `k` of an input of `n` bytes (`k < n`), every
output index it has stored to is at most `k + floor(k/254)`, hence below the
position `cobs_enc_size(n) - n + k` that byte `k` has when the input is
stored at the end of a buffer of `cobs_enc_size(n)` bytes. -/
theorem cobs_enc_in_place (m : Nat → Nat) (inp : List Nat) (k j : Nat) (hk : k < inp.length)
    (hj : j ∈ (cobs_enc_trace m (inp.take k)).2) :
    j ≤ k + k / 254 ∧ j < cobs_enc_size inp.length - inp.length + k ∧
      cobs_enc_size inp.length - inp.length = (inp.length + 253) / 254 := by
  have hlen : (inp.take k).length = k := by
    rw [List.length_take]; omega
  have hle := trace_stores_le (inp.take k) (cobs_enc_init m, [0]) _ (encRel_init m)
    (by intro j hj; simp at hj; omega) j hj
  obtain ⟨f, h1, h2, _, _⟩ := blkCount_loop (inp.take k)
  rw [hlen] at h1 h2
  unfold blk_loop at h1
  unfold cobs_enc_size
  have hf : 254 * f ≤ k := by omega
  refine ⟨by omega, by omega, by omega⟩

theorem cobs_enc_in_place_witness :
    2 ∈ (cobs_enc_trace (fun _ => 0) ([0x11, 0x22, 0x00].take 2)).2 ∧
    (2 ≤ 2 + 2 / 254 ∧
      2 < cobs_enc_size ([0x11, 0x22, 0x00] : List Nat).length
            - ([0x11, 0x22, 0x00] : List Nat).length + 2 ∧
      cobs_enc_size ([0x11, 0x22, 0x00] : List Nat).length
          - ([0x11, 0x22, 0x00] : List Nat).length
        = (([0x11, 0x22, 0x00] : List Nat).length + 253) / 254) :=
  ⟨by decide, cobs_enc_in_place (fun _ => 0) [0x11, 0x22, 0x00] 2 2 (by decide) (by decide)⟩

theorem blk_step_done_append (d data : List Nat) (lm : Bool) (v : Nat) :
    blk_step { done := d, data := data, lm := lm } v
      = { done := d ++ (blk_step { done := [], data := data, lm := lm } v).done,
          data := (blk_step { done := [], data := data, lm := lm } v).data,
          lm := (blk_step { done := [], data := data, lm := lm } v).lm } := by
  unfold blk_step
  by_cases hv : v = 0
  · simp [hv]
  · by_cases hf : data.length + 2 = 255
    · simp [hv, hf]
    · simp [hv, hf]

theorem blk_fold_done_append (l : List Nat) :
    ∀ (d data : List Nat) (lm : Bool),
      l.foldl blk_step { done := d, data := data, lm := lm }
        = { done := d ++ (l.foldl blk_step { done := [], data := data, lm := lm }).done,
            data := (l.foldl blk_step { done := [], data := data, lm := lm }).data,
            lm := (l.foldl blk_step { done := [], data := data, lm := lm }).lm } := by
  induction l with
  | nil => intro d data lm; simp
  | cons v l ih =>
    intro d data lm
    simp only [List.foldl_cons]
    rw [blk_step_done_append d data lm v, ih,
      ih (blk_step { done := [], data := data, lm := lm } v).done]
    simp [List.append_assoc]

theorem blk_step_lm_irrelevant (d data : List Nat) (lm1 lm2 : Bool) (v : Nat) :
    blk_step { done := d, data := data, lm := lm1 } v
      = blk_step { done := d, data := data, lm := lm2 } v := rfl

theorem blk_run_open (l : List Nat) :
    ∀ (d data : List Nat) (lm : Bool), (∀ x ∈ l, x ≠ 0) → data.length + l.length < 254 →
      (l.foldl blk_step { done := d, data := data, lm := lm }).done = d ∧
      (l.foldl blk_step { done := d, data := data, lm := lm }).data = data ++ l := by
  induction l with
  | nil => intro d data lm _ _; simp
  | cons v l ih =>
    intro d data lm hnz hlen
    have hv : v ≠ 0 := hnz v (by simp)
    simp only [List.length_cons] at hlen
    have hf : ¬ (data.length + 2 = 255) := by omega
    have hstep : blk_step { done := d, data := data, lm := lm } v
        = { done := d, data := data ++ [v], lm := false } := by
      simp [blk_step, hv, hf]
    simp only [List.foldl_cons, hstep]
    have := ih d (data ++ [v]) false (fun x hx => hnz x (List.mem_cons_of_mem _ hx))
      (by simp; omega)
    simpa using this

theorem blk_run_close (l : List Nat) (d : List Nat) (lm : Bool) (hnz : ∀ x ∈ l, x ≠ 0)
    (hlen : l.length = 254) :
    l.foldl blk_step { done := d, data := [], lm := lm }
      = { done := d ++ 255 :: l, data := [], lm := true } := by
  obtain ⟨v, hv⟩ := take_succ_snoc l 253 (by omega)
  have hl : l = l.take 253 ++ [v] := by
    rw [← hv, List.take_of_length_le (by omega)]
  have hvmem : v ∈ l := by rw [hl]; simp
  have hv0 : v ≠ 0 := hnz v hvmem
  have htl : (l.take 253).length = 253 := by
    rw [List.length_take]; omega
  obtain ⟨h1, h2⟩ := blk_run_open (l.take 253) d [] lm
    (fun x hx => hnz x (List.mem_of_mem_take hx)) (by rw [htl]; decide)
  have hfold : l.foldl blk_step { done := d, data := [], lm := lm }
      = blk_step ((l.take 253).foldl blk_step { done := d, data := [], lm := lm }) v := by
    conv => lhs; rw [hl]
    rw [List.foldl_append]
    rfl
  rw [hfold]
  generalize (l.take 253).foldl blk_step { done := d, data := [], lm := lm } = st at h1 h2
  rw [List.nil_append] at h2
  unfold blk_step
  simp only [hv0, if_false, h1, h2, htl, if_true]
  rw [← hl]

theorem ff_blocks_length (m : Nat) :
    ∀ l : List Nat, l.length = 254 * m → (ff_blocks m l).length = 255 * m := by
  induction m with
  | zero => intro l _; rfl
  | succ m ih =>
    intro l hl
    have h1 : (l.take 254).length = 254 := by rw [List.length_take]; omega
    have h2 : (l.drop 254).length = 254 * m := by rw [List.length_drop]; omega
    simp only [ff_blocks, List.length_cons, List.length_append, h1, ih _ h2]
    omega

theorem blk_run_blocks (m : Nat) :
    ∀ (l d : List Nat) (lm : Bool), l.length = 254 * m → (∀ x ∈ l, x ≠ 0) →
      l.foldl blk_step { done := d, data := [], lm := lm }
        = { done := d ++ ff_blocks m l, data := [], lm := if m = 0 then lm else true } := by
  induction m with
  | zero =>
    intro l d lm hl _
    have : l = [] := List.length_eq_zero.mp (by omega)
    subst this
    simp [ff_blocks]
  | succ m ih =>
    intro l d lm hl hnz
    have h1 : (l.take 254).length = 254 := by rw [List.length_take]; omega
    have h2 : (l.drop 254).length = 254 * m := by rw [List.length_drop]; omega
    have hsplit : l = l.take 254 ++ l.drop 254 := (List.take_append_drop 254 l).symm
    rw [hsplit, List.foldl_append,
      blk_run_close _ d lm (fun x hx => hnz x (List.mem_of_mem_take hx)) h1,
      ih _ _ true h2 (fun x hx => hnz x (List.mem_of_mem_drop hx)), ← hsplit]
    simp [ff_blocks, List.append_assoc]

theorem blk_loop_append_blocks (m : Nat) (inp rest : List Nat) (hm : 1 ≤ m)
    (hl : inp.length = 254 * m) (hnz : ∀ x ∈ inp, x ≠ 0) (hr : rest ≠ []) :
    blk_out (blk_loop (inp ++ rest)) = ff_blocks m inp ++ blk_out (blk_loop rest) := by
  have hm0 : ¬ (m = 0) := by omega
  unfold blk_loop
  rw [List.foldl_append, blk_run_blocks m inp [] false hl hnz]
  simp only [hm0, if_false, List.nil_append]
  cases rest with
  | nil => exact absurd rfl hr
  | cons v rest =>
    simp only [List.foldl_cons]
    rw [blk_step_lm_irrelevant _ _ true false v, blk_step_done_append,
      blk_fold_done_append]
    generalize blk_step { done := [], data := [], lm := false } v = a
    have hfold := blk_fold_done_append rest a.done a.data a.lm
    have ha : ({ done := a.done, data := a.data, lm := a.lm } : Blk) = a := rfl
    rw [ha] at hfold
    unfold blk_out
    rw [hfold]
    simp only []
    split <;> simp [List.append_assoc]

/-- C30: a block is closed when its code reaches 255 without consuming a zero.
For an input of exactly `254 * m` non-zero bytes, `m ≥ 1`, `cobs_enc` emits
`m` blocks, each the code byte 0xFF followed by 254 data bytes, with no
trailing code byte, and returns `255 * m`; when more input follows the run,
the frame continues with the encoding of that input, begun in a fresh
block. -/
theorem cobs_enc_full_blocks (mem : Nat → Nat) (m : Nat) (inp : List Nat) (hm : 1 ≤ m)
    (hl : inp.length = 254 * m) (hnz : ∀ x ∈ inp, x ≠ 0) :
    cobs_enc_bytes mem inp = ff_blocks m inp ∧
    (cobs_enc mem inp).1 = 255 * m ∧
    (∀ rest : List Nat, rest ≠ [] →
      cobs_enc_bytes mem (inp ++ rest) = ff_blocks m inp ++ cobs_enc_bytes mem rest) := by
  have hm0 : ¬ (m = 0) := by omega
  have hloop : blk_loop inp = { done := ff_blocks m inp, data := [], lm := true } := by
    unfold blk_loop
    rw [blk_run_blocks m inp [] false hl hnz]
    simp [hm0]
  have hout : blk_out (blk_loop inp) = ff_blocks m inp := by
    rw [hloop]; rfl
  refine ⟨?_, ?_, ?_⟩
  · rw [cobs_enc_bytes_eq, hout]
  · rw [cobs_enc_fst, hout, ff_blocks_length m inp hl]
  · intro rest hr
    rw [cobs_enc_bytes_eq, cobs_enc_bytes_eq, blk_loop_append_blocks m inp rest hm hl hnz hr]

theorem cobs_enc_full_blocks_witness :
    cobs_enc_bytes (fun _ => 0) (List.replicate 254 1) = ff_blocks 1 (List.replicate 254 1) ∧
    (cobs_enc (fun _ => 0) (List.replicate 254 1)).1 = 255 * 1 ∧
    (∀ rest : List Nat, rest ≠ [] →
      cobs_enc_bytes (fun _ => 0) (List.replicate 254 1 ++ rest)
        = ff_blocks 1 (List.replicate 254 1) ++ cobs_enc_bytes (fun _ => 0) rest) :=
  cobs_enc_full_blocks (fun _ => 0) 1 (List.replicate 254 1) (by decide)
    (List.length_replicate 254 1)
    (fun x hx => by rw [List.eq_of_mem_replicate hx]; decide)


theorem be_bytes_length (n u : Nat) : (be_bytes n u).length = n := by
  induction n with
  | zero => rfl
  | succ n ih => simp [be_bytes, ih]

theorem be_value_be_bytes (n u : Nat) : be_value (be_bytes n u) = u % 256 ^ n := by
  induction n with
  | zero => simp [be_bytes, be_value, Nat.mod_one]
  | succ n ih =>
    simp only [be_bytes, be_value, be_bytes_length, ih]
    rw [Nat.mod_pow_succ, Nat.mul_comm, Nat.add_comm]

theorem be_bytes_lt (n u : Nat) : ∀ b ∈ be_bytes n u, b < 256 := by
  induction n with
  | zero => intro b hb; simp [be_bytes] at hb
  | succ n ih =>
    intro b hb
    simp only [be_bytes, List.mem_cons] at hb
    rcases hb with hb | hb
    · rw [hb]; exact Nat.mod_lt _ (by decide)
    · exact ih b hb

theorem be_value_lt (l : List Nat) (h : ∀ b ∈ l, b < 256) : be_value l < 256 ^ l.length := by
  induction l with
  | nil => simp [be_value]
  | cons b r ih =>
    have hb : b < 256 := h b (by simp)
    have hr := ih (fun x hx => h x (List.mem_cons_of_mem _ hx))
    simp only [be_value, List.length_cons, Nat.pow_succ]
    have : b * 256 ^ r.length ≤ 255 * 256 ^ r.length := Nat.mul_le_mul_right _ (by omega)
    omega

theorem cbor_read_head_wide (major k u : Nat) (rest : List Nat) (hk : k ≤ 3)
    (hu : u < 256 ^ 2 ^ k) :
    cbor_read_head ((major * 32 + 24 + k) :: (be_bytes (2 ^ k) u ++ rest))
      = ok ({ major := major, arg := u, indef := false }, rest) := by
  have h1 : (major * 32 + 24 + k) / 32 = major := by omega
  have h2 : (major * 32 + 24 + k) % 32 = 24 + k := by omega
  have h3 : ¬ (24 + k < 24) := by omega
  have h4 : 24 + k < 28 := by omega
  have h5 : 24 + k - 24 = k := by omega
  have hlen : ¬ ((be_bytes (2 ^ k) u ++ rest).length < 2 ^ k) := by
    simp [be_bytes_length]
  have htake : (be_bytes (2 ^ k) u ++ rest).take (2 ^ k) = be_bytes (2 ^ k) u := by
    rw [List.take_left' (be_bytes_length _ _)]
  have hdrop : (be_bytes (2 ^ k) u ++ rest).drop (2 ^ k) = rest := by
    rw [List.drop_left' (be_bytes_length _ _)]
  simp only [cbor_read_head, h1, h2, h3, h4, h5, if_true, if_false, hlen, htake, hdrop,
    be_value_be_bytes, Nat.mod_eq_of_lt hu]

theorem cbor_read_head_bytes (major u : Nat) (rest : List Nat) (hu : u < 2 ^ 64) :
    cbor_read_head (cbor_head_bytes major u ++ rest)
      = ok ({ major := major, arg := u, indef := false }, rest) := by
  unfold cbor_head_bytes
  by_cases h0 : u < 24
  · have h1 : (major * 32 + u) / 32 = major := by omega
    have h2 : (major * 32 + u) % 32 = u := by omega
    simp [h0, cbor_read_head, h1, h2]
  · simp only [h0, if_false]
    by_cases h8 : u < 256
    · simp only [h8, if_true, List.cons_append]
      exact cbor_read_head_wide major 0 u rest (by decide) (by simpa using h8)
    · simp only [h8, if_false]
      by_cases h16 : u < 65536
      · simp only [h16, if_true, List.cons_append]
        exact cbor_read_head_wide major 1 u rest (by decide) (by simpa using h16)
      · simp only [h16, if_false]
        by_cases h32 : u < 4294967296
        · simp only [h32, if_true, List.cons_append]
          exact cbor_read_head_wide major 2 u rest (by decide) (by simpa using h32)
        · simp only [h32, if_false, List.cons_append]
          exact cbor_read_head_wide major 3 u rest (by decide) (by simpa using hu)

theorem cbor_head_bytes_length_le (major u : Nat) : (cbor_head_bytes major u).length ≤ 9 := by
  unfold cbor_head_bytes
  split
  · simp
  · split
    · simp [be_bytes_length]
    · split
      · simp [be_bytes_length]
      · split <;> simp [be_bytes_length]

theorem cbor_pack_q (avail : Nat) (v : Int) :
    cbor_pack avail "q" [cbor_arg_t.int64 v] = cbor_write_int64 avail v := by
  show cbor_pack_list avail ['q'] [cbor_arg_t.int64 v] = _
  rw [cbor_pack_list]
  cases cbor_write_int64 avail v <;> simp [cbor_pack_list]

theorem cbor_pack_Q (avail v : Nat) :
    cbor_pack avail "Q" [cbor_arg_t.uint64 v] = cbor_write_uint64 avail v := by
  show cbor_pack_list avail ['Q'] [cbor_arg_t.uint64 v] = _
  rw [cbor_pack_list]
  cases cbor_write_uint64 avail v <;> simp [cbor_pack_list]

theorem cbor_unpack_q (s : List Nat) :
    cbor_unpack "q" s
      = match cbor_read_int64 s with
        | error e => error e
        | ok (v, rest) => ok ([cbor_arg_t.int64 v], rest) := by
  show cbor_unpack_list ['q'] s = _
  rw [cbor_unpack_list]
  cases cbor_read_int64 s <;> simp [cbor_unpack_list]

theorem cbor_unpack_Q (s : List Nat) :
    cbor_unpack "Q" s
      = match cbor_read_uint64 s with
        | error e => error e
        | ok (v, rest) => ok ([cbor_arg_t.uint64 v], rest) := by
  show cbor_unpack_list ['Q'] s = _
  rw [cbor_unpack_list]
  cases cbor_read_uint64 s <;> simp [cbor_unpack_list]

theorem cbor_read_int64_of_head (s rest : List Nat) (major u : Nat) (hm : major ≤ 1)
    (h : cbor_read_head s = ok ({ major := major, arg := u, indef := false }, rest)) :
    cbor_read_int64 s
      = if u ≤ 2 ^ 63 - 1 then ok ((if major = 0 then (u : Int) else -1 - (u : Int)), rest)
        else error CBOR_ERROR_RANGE := by
  unfold cbor_read_int64
  rw [h]
  by_cases h0 : major = 0
  · simp [h0]
  · have h1 : major = 1 := by omega
    simp [h1]

theorem cbor_read_uint64_of_head (s rest : List Nat) (major u : Nat)
    (h : cbor_read_head s = ok ({ major := major, arg := u, indef := false }, rest)) :
    cbor_read_uint64 s = if major = 0 then ok (u, rest) else error CBOR_ERROR_BAD_TYPE := by
  unfold cbor_read_uint64
  rw [h]

theorem cbor_head_bytes_shortest (major u : Nat) (hu : u < 2 ^ 64) :
    is_shortest_head major u (cbor_head_bytes major u) := by
  unfold is_shortest_head cbor_head_bytes
  by_cases h0 : u < 24
  · exact Or.inl ⟨h0, by simp [h0]⟩
  · refine Or.inr ⟨by omega, ?_⟩
    simp only [h0, if_false]
    by_cases h8 : u < 256
    · refine ⟨0, by decide, by simpa using h8, by intro j hj; omega, by simp [h8]⟩
    · by_cases h16 : u < 65536
      · refine ⟨1, by decide, by simpa using h16, ?_, by simp [h8, h16]⟩
        intro j hj
        have : j = 0 := by omega
        subst this
        simp; omega
      · by_cases h32 : u < 4294967296
        · refine ⟨2, by decide, by simpa using h32, ?_, by simp [h8, h16, h32]⟩
          intro j hj
          have : j = 0 ∨ j = 1 := by omega
          rcases this with h | h <;> subst h <;> simp <;> omega
        · refine ⟨3, by decide, by simpa using hu, ?_, by simp [h8, h16, h32]⟩
          intro j hj
          have : j = 0 ∨ j = 1 ∨ j = 2 := by omega
          rcases this with h | h | h <;> subst h <;> simp <;> omega

theorem cbor_head_bytes_length_wide (major u k : Nat) (hk : k ≤ 3) (hu : u < 256 ^ 2 ^ k) :
    (cbor_head_bytes major u).length ≤ 1 + 2 ^ k := by
  have hk4 : k = 0 ∨ k = 1 ∨ k = 2 ∨ k = 3 := by omega
  unfold cbor_head_bytes
  rcases hk4 with h | h | h | h <;> subst h <;> simp at hu <;>
    (repeat' split) <;> simp [be_bytes_length]

theorem cbor_read_head_min (s rest : List Nat) (h : cbor_head_t) (major : Nat)
    (hb : ∀ b ∈ s, b < 256) (hr : cbor_read_head s = ok (h, rest)) (hi : h.indef = false) :
    (cbor_head_bytes major h.arg).length + rest.length ≤ s.length := by
  cases s with
  | nil => simp [cbor_read_head] at hr
  | cons ib tl =>
    unfold cbor_read_head at hr
    simp only at hr
    by_cases h24 : ib % 32 < 24
    · simp only [h24, if_true, ok.injEq, Prod.mk.injEq] at hr
      obtain ⟨hh, ht⟩ := hr
      subst hh; subst ht
      simp [cbor_head_bytes, h24]
      omega
    · simp only [h24, if_false] at hr
      by_cases h28 : ib % 32 < 28
      · simp only [h28, if_true] at hr
        by_cases hlen : tl.length < 2 ^ (ib % 32 - 24)
        · simp [hlen] at hr
        · simp only [hlen, if_false, ok.injEq, Prod.mk.injEq] at hr
          obtain ⟨hh, ht⟩ := hr
          subst hh; subst ht
          have hv := be_value_lt (tl.take (2 ^ (ib % 32 - 24)))
            (fun b hb2 => hb b (List.mem_cons_of_mem _ (List.mem_of_mem_take hb2)))
          have htl : (tl.take (2 ^ (ib % 32 - 24))).length = 2 ^ (ib % 32 - 24) := by
            rw [List.length_take]; omega
          rw [htl] at hv
          have := cbor_head_bytes_length_wide major _ (ib % 32 - 24) (by omega) hv
          simp only [List.length_drop, List.length_cons]
          omega
      · simp only [h28, if_false] at hr
        by_cases h31 : ib % 32 < 31
        · simp [h31] at hr
        · simp only [h31, if_false] at hr
          split at hr
          · simp at hr
          · simp only [ok.injEq, Prod.mk.injEq] at hr
            obtain ⟨hh, _⟩ := hr
            subst hh
            simp at hi

theorem int64_arg_nonneg (v : Int) (h0 : 0 ≤ v) (h2 : v < 2 ^ 63) :
    v.toNat ≤ 2 ^ 63 - 1 ∧ ((v.toNat : Nat) : Int) = v := by
  constructor <;> omega

theorem int64_arg_neg (v : Int) (h0 : ¬ (0 ≤ v)) (h1 : -2 ^ 63 ≤ v) :
    (-1 - v).toNat ≤ 2 ^ 63 - 1 ∧ -1 - (((-1 - v).toNat : Nat) : Int) = v := by
  constructor <;> omega

theorem cbor_write_int64_ok (avail : Nat) (v : Int) (ha : 9 ≤ avail) :
    cbor_write_int64 avail v
      = ok (if 0 ≤ v then cbor_head_bytes 0 v.toNat else cbor_head_bytes 1 (-1 - v).toNat) := by
  unfold cbor_write_int64
  have h : (if 0 ≤ v then cbor_head_bytes 0 v.toNat
      else cbor_head_bytes 1 (-1 - v).toNat).length ≤ avail := by
    split
    · exact Nat.le_trans (cbor_head_bytes_length_le _ _) ha
    · exact Nat.le_trans (cbor_head_bytes_length_le _ _) ha
  simp only [h, if_true]

theorem cbor_write_uint64_ok (avail u : Nat) (ha : 9 ≤ avail) :
    cbor_write_uint64 avail u = ok (cbor_head_bytes 0 u) := by
  unfold cbor_write_uint64
  simp only [Nat.le_trans (cbor_head_bytes_length_le 0 u) ha, if_true]

theorem cbor_read_int64_written (v : Int) (rest : List Nat) (h1 : -2 ^ 63 ≤ v)
    (h2 : v < 2 ^ 63) :
    cbor_read_int64 ((if 0 ≤ v then cbor_head_bytes 0 v.toNat
        else cbor_head_bytes 1 (-1 - v).toNat) ++ rest) = ok (v, rest) := by
  by_cases h0 : 0 ≤ v
  · obtain ⟨a1, a2⟩ := int64_arg_nonneg v h0 h2
    simp only [h0, if_true]
    rw [cbor_read_int64_of_head _ rest 0 v.toNat (by decide)
      (cbor_read_head_bytes 0 _ rest (by omega))]
    simp only [a1, if_true, a2]
  · obtain ⟨a1, a2⟩ := int64_arg_neg v h0 h1
    simp only [h0, if_false]
    rw [cbor_read_int64_of_head _ rest 1 (-1 - v).toNat (by decide)
      (cbor_read_head_bytes 1 _ rest (by omega))]
    simp only [a1, if_true, a2]
    simp

/-- C21: integer round trip.  For every int64 value `v`, writing `v` with
`cbor_pack` format "q" into a stream with room for a head succeeds, and
reading the written bytes with `cbor_unpack` format "q" succeeds, returns `v`
and consumes all of them; likewise for every uint64 value `u` with format
"Q". -/
theorem cbor_int_roundtrip (avail : Nat) (v : Int) (u : Nat) (ha : 9 ≤ avail)
    (hv1 : -2 ^ 63 ≤ v) (hv2 : v < 2 ^ 63) (hu : u < 2 ^ 64) :
    (∃ b, cbor_pack avail "q" [cbor_arg_t.int64 v] = ok b ∧
      cbor_unpack "q" b = ok ([cbor_arg_t.int64 v], [])) ∧
    (∃ b, cbor_pack avail "Q" [cbor_arg_t.uint64 u] = ok b ∧
      cbor_unpack "Q" b = ok ([cbor_arg_t.uint64 u], [])) := by
  constructor
  · refine ⟨_, by rw [cbor_pack_q, cbor_write_int64_ok avail v ha], ?_⟩
    have h := cbor_read_int64_written v [] hv1 hv2
    rw [List.append_nil] at h
    rw [cbor_unpack_q, h]
  · refine ⟨_, by rw [cbor_pack_Q, cbor_write_uint64_ok avail u ha], ?_⟩
    have h := cbor_read_uint64_of_head _ [] 0 u (cbor_read_head_bytes 0 u [] hu)
    rw [List.append_nil] at h
    rw [cbor_unpack_Q, h]
    simp

theorem cbor_int_roundtrip_witness :
    (∃ b, cbor_pack 20 "q" [cbor_arg_t.int64 (-9223372036854775808)] = ok b ∧
      cbor_unpack "q" b = ok ([cbor_arg_t.int64 (-9223372036854775808)], [])) ∧
    (∃ b, cbor_pack 20 "Q" [cbor_arg_t.uint64 18446744073709551615] = ok b ∧
      cbor_unpack "Q" b = ok ([cbor_arg_t.uint64 18446744073709551615], [])) :=
  cbor_int_roundtrip 20 (-9223372036854775808) 18446744073709551615 (by decide) (by decide)
    (by decide) (by decide)

theorem cbor_read_head_indef (s rest : List Nat) (h : cbor_head_t)
    (hr : cbor_read_head s = ok (h, rest)) (hm : h.major ≤ 1) : h.indef = false := by
  cases s with
  | nil => simp [cbor_read_head] at hr
  | cons ib tl =>
    unfold cbor_read_head at hr
    simp only at hr
    split at hr
    · simp only [ok.injEq, Prod.mk.injEq] at hr
      rw [← hr.1]
    · split at hr
      · split at hr
        · simp at hr
        · simp only [ok.injEq, Prod.mk.injEq] at hr
          rw [← hr.1]
      · split at hr
        · simp at hr
        · split at hr
          · simp at hr
          · rename_i hmaj
            simp only [ok.injEq, Prod.mk.injEq] at hr
            rw [← hr.1] at hm
            simp only at hm
            omega

theorem cbor_read_int64_inv (s rest : List Nat) (v : Int)
    (hr : cbor_read_int64 s = ok (v, rest)) :
    ∃ h : cbor_head_t, cbor_read_head s = ok (h, rest) ∧ h.indef = false ∧
      ((h.major = 0 ∧ v = (h.arg : Int)) ∨ (h.major = 1 ∧ v = -1 - (h.arg : Int))) := by
  unfold cbor_read_int64 at hr
  cases hh : cbor_read_head s with
  | error e => rw [hh] at hr; simp at hr
  | ok p =>
    obtain ⟨h, rest2⟩ := p
    rw [hh] at hr
    simp only at hr
    by_cases h0 : h.major = 0
    · simp only [h0, if_true] at hr
      split at hr
      · simp only [ok.injEq, Prod.mk.injEq] at hr
        obtain ⟨e1, e2⟩ := hr
        subst e2
        exact ⟨h, rfl, cbor_read_head_indef s rest2 h hh (by omega), Or.inl ⟨h0, e1.symm⟩⟩
      · simp at hr
    · simp only [h0, if_false] at hr
      by_cases h1 : h.major = 1
      · simp only [h1, if_true] at hr
        split at hr
        · simp only [ok.injEq, Prod.mk.injEq] at hr
          obtain ⟨e1, e2⟩ := hr
          subst e2
          exact ⟨h, rfl, cbor_read_head_indef s rest2 h hh (by omega), Or.inr ⟨h1, e1.symm⟩⟩
        · simp at hr
      · simp [h1] at hr

theorem cbor_read_uint64_inv (s rest : List Nat) (u : Nat)
    (hr : cbor_read_uint64 s = ok (u, rest)) :
    ∃ h : cbor_head_t, cbor_read_head s = ok (h, rest) ∧ h.indef = false ∧
      h.major = 0 ∧ h.arg = u := by
  unfold cbor_read_uint64 at hr
  cases hh : cbor_read_head s with
  | error e => rw [hh] at hr; simp at hr
  | ok p =>
    obtain ⟨h, rest2⟩ := p
    rw [hh] at hr
    simp only at hr
    by_cases h0 : h.major = 0
    · simp only [h0, if_true, ok.injEq, Prod.mk.injEq] at hr
      obtain ⟨e1, e2⟩ := hr
      subst e2
      exact ⟨h, rfl, cbor_read_head_indef s rest2 h hh (by omega), h0, e1⟩
    · simp [h0] at hr

theorem cbor_unpack_q_inv (s : List Nat) (v : Int)
    (h : cbor_unpack "q" s = ok ([cbor_arg_t.int64 v], [])) :
    cbor_read_int64 s = ok (v, []) := by
  rw [cbor_unpack_q] at h
  cases hr : cbor_read_int64 s with
  | error e => rw [hr] at h; simp at h
  | ok p =>
    obtain ⟨w, rest⟩ := p
    rw [hr] at h
    simp only [ok.injEq, Prod.mk.injEq, List.cons.injEq, cbor_arg_t.int64.injEq, and_true] at h
    rw [h.1, h.2]

theorem cbor_unpack_Q_inv (s : List Nat) (u : Nat)
    (h : cbor_unpack "Q" s = ok ([cbor_arg_t.uint64 u], [])) :
    cbor_read_uint64 s = ok (u, []) := by
  rw [cbor_unpack_Q] at h
  cases hr : cbor_read_uint64 s with
  | error e => rw [hr] at h; simp at h
  | ok p =>
    obtain ⟨w, rest⟩ := p
    rw [hr] at h
    simp only [ok.injEq, Prod.mk.injEq, List.cons.injEq, cbor_arg_t.uint64.injEq, and_true] at h
    rw [h.1, h.2]

/-- C22: the integer writer emits the shortest head.  For every int64 `v`,
`cbor_pack` "q" writes major 0 with argument `v` when `v ≥ 0` and major 1 with
argument `-1 - v` when `v < 0`, the argument sitting in the initial byte when
it is below 24 and otherwise in the smallest of 1, 2, 4 or 8 big-endian bytes
that holds it (ai 24 to 27); no byte sequence that `cbor_unpack` "q" reads
back as `v` is shorter.  `cbor_pack` "Q" does the same with major 0 for every
uint64 `u`. -/
theorem cbor_pack_shortest_head (avail : Nat) (v : Int) (u : Nat) (ha : 9 ≤ avail)
    (hv1 : -2 ^ 63 ≤ v) (hv2 : v < 2 ^ 63) (hu : u < 2 ^ 64) :
    (∃ b, cbor_pack avail "q" [cbor_arg_t.int64 v] = ok b ∧
      (0 ≤ v → is_shortest_head 0 v.toNat b) ∧
      (v < 0 → is_shortest_head 1 (-1 - v).toNat b) ∧
      (∀ s : List Nat, (∀ x ∈ s, x < 256) →
        cbor_unpack "q" s = ok ([cbor_arg_t.int64 v], []) → b.length ≤ s.length)) ∧
    (∃ b, cbor_pack avail "Q" [cbor_arg_t.uint64 u] = ok b ∧
      is_shortest_head 0 u b ∧
      (∀ s : List Nat, (∀ x ∈ s, x < 256) →
        cbor_unpack "Q" s = ok ([cbor_arg_t.uint64 u], []) → b.length ≤ s.length)) := by
  constructor
  · refine ⟨_, by rw [cbor_pack_q, cbor_write_int64_ok avail v ha], ?_, ?_, ?_⟩
    · intro h0
      simp only [h0, if_true]
      exact cbor_head_bytes_shortest 0 _ (by omega)
    · intro h0
      have h0n : ¬ (0 ≤ v) := by omega
      simp only [h0n, if_false]
      exact cbor_head_bytes_shortest 1 _ (by omega)
    · intro s hs hun
      obtain ⟨h, hh, hi, hcase⟩ := cbor_read_int64_inv s [] v (cbor_unpack_q_inv s v hun)
      rcases hcase with ⟨_, hv⟩ | ⟨_, hv⟩
      · have h0 : 0 ≤ v := by omega
        have harg : v.toNat = h.arg := by omega
        simp only [h0, if_true, harg]
        simpa using cbor_read_head_min s [] h 0 hs hh hi
      · have h0 : ¬ (0 ≤ v) := by omega
        have harg : (-1 - v).toNat = h.arg := by omega
        simp only [h0, if_false, harg]
        simpa using cbor_read_head_min s [] h 1 hs hh hi
  · refine ⟨_, by rw [cbor_pack_Q, cbor_write_uint64_ok avail u ha],
      cbor_head_bytes_shortest 0 u hu, ?_⟩
    intro s hs hun
    obtain ⟨h, hh, hi, _, harg⟩ := cbor_read_uint64_inv s [] u (cbor_unpack_Q_inv s u hun)
    rw [← harg]
    simpa using cbor_read_head_min s [] h 0 hs hh hi

theorem cbor_pack_shortest_head_witness :
    (∃ b, cbor_pack 20 "q" [cbor_arg_t.int64 (-257)] = ok b ∧
      (0 ≤ (-257 : Int) → is_shortest_head 0 (-257 : Int).toNat b) ∧
      ((-257 : Int) < 0 → is_shortest_head 1 (-1 - (-257 : Int)).toNat b) ∧
      (∀ s : List Nat, (∀ x ∈ s, x < 256) →
        cbor_unpack "q" s = ok ([cbor_arg_t.int64 (-257)], []) → b.length ≤ s.length)) ∧
    (∃ b, cbor_pack 20 "Q" [cbor_arg_t.uint64 65536] = ok b ∧
      is_shortest_head 0 65536 b ∧
      (∀ s : List Nat, (∀ x ∈ s, x < 256) →
        cbor_unpack "Q" s = ok ([cbor_arg_t.uint64 65536], []) → b.length ≤ s.length)) :=
  cbor_pack_shortest_head 20 (-257) 65536 (by decide) (by decide) (by decide) (by decide)

theorem pow_two_pow_le (k u : Nat) (hk : k ≤ 3) (hu : u < 256 ^ 2 ^ k) : u < 2 ^ 64 := by
  have hk4 : k = 0 ∨ k = 1 ∨ k = 2 ∨ k = 3 := by omega
  rcases hk4 with h | h | h | h <;> subst h <;> simp at hu <;> omega

/-- C23: non-shortest integer encodings are accepted.  A head of major 0 or 1
that carries the argument `u` in `2^k` big-endian bytes (ai `24 + k`), however
many leading zero bytes that takes, reads with `cbor_unpack` "q" and "Q"
exactly as the shortest head for `u` does; in particular 1800, 190001,
1a00000002, 1b0000000000000003 read as 0, 1, 2, 3 and 3800 reads as -1. -/
theorem cbor_read_nonshortest (major k u : Nat) (rest : List Nat) (hm : major ≤ 1)
    (hk : k ≤ 3) (hu : u < 256 ^ 2 ^ k) :
    cbor_unpack "q" ((major * 32 + 24 + k) :: (be_bytes (2 ^ k) u ++ rest))
      = cbor_unpack "q" (cbor_head_bytes major u ++ rest) ∧
    cbor_unpack "Q" ((major * 32 + 24 + k) :: (be_bytes (2 ^ k) u ++ rest))
      = cbor_unpack "Q" (cbor_head_bytes major u ++ rest) ∧
    cbor_unpack "q" [0x18, 0x00] = ok ([cbor_arg_t.int64 0], []) ∧
    cbor_unpack "q" [0x19, 0x00, 0x01] = ok ([cbor_arg_t.int64 1], []) ∧
    cbor_unpack "q" [0x1a, 0x00, 0x00, 0x00, 0x02] = ok ([cbor_arg_t.int64 2], []) ∧
    cbor_unpack "q" [0x1b, 0x00, 0x00, 0x00, 0x00, 0x00, 0x00, 0x00, 0x03]
      = ok ([cbor_arg_t.int64 3], []) ∧
    cbor_unpack "q" [0x38, 0x00] = ok ([cbor_arg_t.int64 (-1)], []) ∧
    cbor_unpack "Q" [0x1b, 0x00, 0x00, 0x00, 0x00, 0x00, 0x00, 0x00, 0x03]
      = ok ([cbor_arg_t.uint64 3], []) := by
  have hw := cbor_read_head_wide major k u rest hk hu
  have hs := cbor_read_head_bytes major u rest (pow_two_pow_le k u hk hu)
  refine ⟨?_, ?_, by decide, by decide, by decide, by decide, by decide, by decide⟩
  · rw [cbor_unpack_q, cbor_unpack_q, cbor_read_int64_of_head _ rest major u hm hw,
      cbor_read_int64_of_head _ rest major u hm hs]
  · rw [cbor_unpack_Q, cbor_unpack_Q, cbor_read_uint64_of_head _ rest major u hw,
      cbor_read_uint64_of_head _ rest major u hs]

theorem cbor_read_nonshortest_witness :
    cbor_unpack "q" ((1 * 32 + 24 + 2) :: (be_bytes (2 ^ 2) 2 ++ []))
      = cbor_unpack "q" (cbor_head_bytes 1 2 ++ []) ∧
    cbor_unpack "Q" ((1 * 32 + 24 + 2) :: (be_bytes (2 ^ 2) 2 ++ []))
      = cbor_unpack "Q" (cbor_head_bytes 1 2 ++ []) ∧
    cbor_unpack "q" [0x18, 0x00] = ok ([cbor_arg_t.int64 0], []) ∧
    cbor_unpack "q" [0x19, 0x00, 0x01] = ok ([cbor_arg_t.int64 1], []) ∧
    cbor_unpack "q" [0x1a, 0x00, 0x00, 0x00, 0x02] = ok ([cbor_arg_t.int64 2], []) ∧
    cbor_unpack "q" [0x1b, 0x00, 0x00, 0x00, 0x00, 0x00, 0x00, 0x00, 0x03]
      = ok ([cbor_arg_t.int64 3], []) ∧
    cbor_unpack "q" [0x38, 0x00] = ok ([cbor_arg_t.int64 (-1)], []) ∧
    cbor_unpack "Q" [0x1b, 0x00, 0x00, 0x00, 0x00, 0x00, 0x00, 0x00, 0x03]
      = ok ([cbor_arg_t.uint64 3], []) :=
  cbor_read_nonshortest 1 2 2 [] (by decide) (by decide) (by decide)

/-- C24: reading an integer with `cbor_unpack` "q" or "Q" from an initial byte
of major type 0 or 1 whose additional information is 28, 29, 30 or 31 fails
with `CBOR_ERROR_INVALID_AI`, whatever follows the byte. -/
theorem cbor_read_int_invalid_ai (major ai : Nat) (rest : List Nat) (hm : major ≤ 1)
    (h1 : 28 ≤ ai) (h2 : ai ≤ 31) :
    cbor_unpack "q" ((major * 32 + ai) :: rest) = error CBOR_ERROR_INVALID_AI ∧
    cbor_unpack "Q" ((major * 32 + ai) :: rest) = error CBOR_ERROR_INVALID_AI := by
  have e1 : (major * 32 + ai) / 32 = major := by omega
  have e2 : (major * 32 + ai) % 32 = ai := by omega
  have hh : cbor_read_head ((major * 32 + ai) :: rest) = error CBOR_ERROR_INVALID_AI := by
    unfold cbor_read_head
    simp only [e1, e2]
    have a1 : ¬ (ai < 24) := by omega
    have a2 : ¬ (ai < 28) := by omega
    simp only [a1, a2, if_false]
    by_cases a3 : ai < 31
    · simp [a3]
    · have a4 : major = 0 ∨ major = 1 ∨ major = 6 := by omega
      simp [a3, a4]
  constructor
  · rw [cbor_unpack_q]
    unfold cbor_read_int64
    rw [hh]
  · rw [cbor_unpack_Q]
    unfold cbor_read_uint64
    rw [hh]

theorem cbor_read_int_invalid_ai_witness :
    cbor_unpack "q" ((1 * 32 + 31) :: []) = error CBOR_ERROR_INVALID_AI ∧
    cbor_unpack "Q" ((1 * 32 + 31) :: []) = error CBOR_ERROR_INVALID_AI :=
  cbor_read_int_invalid_ai 1 31 [] (by decide) (by decide) (by decide)

/-- C25: `cbor_read_int64` accepts major 0 with argument `u ≤ 2^63 - 1` as `+u`
and major 1 with argument `u ≤ 2^63 - 1` as `-1 - u`, and fails with
`CBOR_ERROR_RANGE` for every argument `u ≥ 2^63` of either major type, as the
four rows 1B8000000000000000, 1BFFFFFFFFFFFFFFFF, 3B8000000000000000,
3BFFFFFFFFFFFFFFFF show; reading 1BFFFFFFFFFFFFFFFF as uint64 returns
`2^64 - 1`. -/
theorem cbor_read_int64_range (major u : Nat) (rest : List Nat) (hm : major ≤ 1)
    (hu : u < 2 ^ 64) :
    (u ≤ 2 ^ 63 - 1 →
      cbor_read_int64 (cbor_head_bytes major u ++ rest)
        = ok ((if major = 0 then (u : Int) else -1 - (u : Int)), rest)) ∧
    (2 ^ 63 ≤ u →
      cbor_read_int64 (cbor_head_bytes major u ++ rest) = error CBOR_ERROR_RANGE) ∧
    cbor_unpack "q" [0x1B, 0x80, 0x00, 0x00, 0x00, 0x00, 0x00, 0x00, 0x00]
      = error CBOR_ERROR_RANGE ∧
    cbor_unpack "q" [0x1B, 0xFF, 0xFF, 0xFF, 0xFF, 0xFF, 0xFF, 0xFF, 0xFF]
      = error CBOR_ERROR_RANGE ∧
    cbor_unpack "q" [0x3B, 0x80, 0x00, 0x00, 0x00, 0x00, 0x00, 0x00, 0x00]
      = error CBOR_ERROR_RANGE ∧
    cbor_unpack "q" [0x3B, 0xFF, 0xFF, 0xFF, 0xFF, 0xFF, 0xFF, 0xFF, 0xFF]
      = error CBOR_ERROR_RANGE ∧
    cbor_unpack "Q" [0x1B, 0xFF, 0xFF, 0xFF, 0xFF, 0xFF, 0xFF, 0xFF, 0xFF]
      = ok ([cbor_arg_t.uint64 (2 ^ 64 - 1)], []) := by
  have hs := cbor_read_int64_of_head _ rest major u hm (cbor_read_head_bytes major u rest hu)
  refine ⟨?_, ?_, by decide, by decide, by decide, by decide, by decide⟩
  · intro h
    rw [hs]
    simp only [h, if_true]
  · intro h
    rw [hs]
    have : ¬ (u ≤ 2 ^ 63 - 1) := by omega
    simp only [this, if_false]

theorem cbor_read_int64_range_witness :
    ((2 ^ 63 - 1 : Nat) ≤ 2 ^ 63 - 1 →
      cbor_read_int64 (cbor_head_bytes 1 (2 ^ 63 - 1) ++ [])
        = ok ((if (1 : Nat) = 0 then ((2 ^ 63 - 1 : Nat) : Int)
            else -1 - ((2 ^ 63 - 1 : Nat) : Int)), [])) ∧
    (2 ^ 63 ≤ (2 ^ 63 - 1 : Nat) →
      cbor_read_int64 (cbor_head_bytes 1 (2 ^ 63 - 1) ++ []) = error CBOR_ERROR_RANGE) ∧
    cbor_unpack "q" [0x1B, 0x80, 0x00, 0x00, 0x00, 0x00, 0x00, 0x00, 0x00]
      = error CBOR_ERROR_RANGE ∧
    cbor_unpack "q" [0x1B, 0xFF, 0xFF, 0xFF, 0xFF, 0xFF, 0xFF, 0xFF, 0xFF]
      = error CBOR_ERROR_RANGE ∧
    cbor_unpack "q" [0x3B, 0x80, 0x00, 0x00, 0x00, 0x00, 0x00, 0x00, 0x00]
      = error CBOR_ERROR_RANGE ∧
    cbor_unpack "q" [0x3B, 0xFF, 0xFF, 0xFF, 0xFF, 0xFF, 0xFF, 0xFF, 0xFF]
      = error CBOR_ERROR_RANGE ∧
    cbor_unpack "Q" [0x1B, 0xFF, 0xFF, 0xFF, 0xFF, 0xFF, 0xFF, 0xFF, 0xFF]
      = ok ([cbor_arg_t.uint64 (2 ^ 64 - 1)], []) :=
  cbor_read_int64_range 1 (2 ^ 63 - 1) [] (by decide) (by decide)


theorem utf8_valid_one (b0 : Nat) (r : List Nat) (h : b0 < 0x80) :
    utf8_valid (b0 :: r) = utf8_valid r := by
  rw [utf8_valid.eq_def]
  simp [h]

theorem utf8_valid_two (b0 b1 : Nat) (r : List Nat) (h1 : 0xC0 ≤ b0) (h2 : b0 < 0xE0) :
    utf8_valid (b0 :: b1 :: r)
      = (utf8_is_cont b1 && decide (0x80 ≤ (b0 - 0xC0) * 64 + (b1 - 0x80)) && utf8_valid r) := by
  have h0 : ¬ (b0 < 0x80) := by omega
  rw [utf8_valid.eq_def]
  simp only [h0, if_false, h1, h2, and_self, if_true]

theorem utf8_valid_three (b0 b1 b2 : Nat) (r : List Nat) (h1 : 0xE0 ≤ b0) (h2 : b0 < 0xF0) :
    utf8_valid (b0 :: b1 :: b2 :: r)
      = (utf8_is_cont b1 && utf8_is_cont b2 &&
          decide (0x800 ≤ (b0 - 0xE0) * 4096 + (b1 - 0x80) * 64 + (b2 - 0x80)) &&
          decide ((b0 - 0xE0) * 4096 + (b1 - 0x80) * 64 + (b2 - 0x80) < 0xD800 ∨
            0xDFFF < (b0 - 0xE0) * 4096 + (b1 - 0x80) * 64 + (b2 - 0x80)) &&
          utf8_valid r) := by
  have h0 : ¬ (b0 < 0x80) := by omega
  have h3 : ¬ (0xC0 ≤ b0 ∧ b0 < 0xE0) := by omega
  rw [utf8_valid.eq_def]
  simp only [h0, if_false, h3, h1, h2, and_self, if_true]

theorem utf8_valid_four (b0 b1 b2 b3 : Nat) (r : List Nat) (h1 : 0xF0 ≤ b0)
    (h2 : b0 < 0xF8) :
    utf8_valid (b0 :: b1 :: b2 :: b3 :: r)
      = (utf8_is_cont b1 && utf8_is_cont b2 && utf8_is_cont b3 &&
          decide (0x10000 ≤ (b0 - 0xF0) * 262144 + (b1 - 0x80) * 4096
            + (b2 - 0x80) * 64 + (b3 - 0x80)) &&
          decide ((b0 - 0xF0) * 262144 + (b1 - 0x80) * 4096
            + (b2 - 0x80) * 64 + (b3 - 0x80) ≤ 0x10FFFF) &&
          utf8_valid r) := by
  have h0 : ¬ (b0 < 0x80) := by omega
  have h3 : ¬ (0xC0 ≤ b0 ∧ b0 < 0xE0) := by omega
  have h4 : ¬ (0xE0 ≤ b0 ∧ b0 < 0xF0) := by omega
  rw [utf8_valid]
  simp only [h0, if_false, h3, h4, h1, h2, and_self, if_true]

theorem utf8_valid_cut1 (b0 : Nat) (h : 0x80 ≤ b0) : utf8_valid [b0] = false := by
  have h0 : ¬ (b0 < 0x80) := by omega
  rw [utf8_valid]
  simp [h0]

theorem utf8_valid_cut2 (b0 b1 : Nat) (h : 0xE0 ≤ b0) : utf8_valid [b0, b1] = false := by
  have h0 : ¬ (b0 < 0x80) := by omega
  have h3 : ¬ (0xC0 ≤ b0 ∧ b0 < 0xE0) := by omega
  rw [utf8_valid]
  simp [h0, h3]

theorem utf8_valid_cut3 (b0 b1 b2 : Nat) (h : 0xF0 ≤ b0) : utf8_valid [b0, b1, b2] = false := by
  have h0 : ¬ (b0 < 0x80) := by omega
  have h3 : ¬ (0xC0 ≤ b0 ∧ b0 < 0xE0) := by omega
  have h4 : ¬ (0xE0 ≤ b0 ∧ b0 < 0xF0) := by omega
  rw [utf8_valid]
  simp [h0, h3, h4]

theorem utf8_valid_encode_append (cp : Nat) (r : List Nat) (h : is_unicode_scalar cp) :
    utf8_valid (utf8_encode cp ++ r) = utf8_valid r := by
  unfold is_unicode_scalar at h
  unfold utf8_encode
  by_cases h1 : cp < 0x80
  · simp only [h1, if_true, List.singleton_append]
    exact utf8_valid_one cp r h1
  · simp only [h1, if_false]
    by_cases h2 : cp < 0x800
    · simp only [h2, if_true, List.cons_append, List.nil_append]
      rw [utf8_valid_two _ _ _ (by omega) (by omega)]
      have c1 : utf8_is_cont (0x80 + cp % 64) = true := by
        unfold utf8_is_cont; simp; omega
      have c2 : 0x80 ≤ (0xC0 + cp / 64 - 0xC0) * 64 + (0x80 + cp % 64 - 0x80) := by omega
      simp only [c1, c2, decide_True, Bool.true_and]
    · simp only [h2, if_false]
      by_cases h3 : cp < 0x10000
      · simp only [h3, if_true, List.cons_append, List.nil_append]
        rw [utf8_valid_three _ _ _ _ (by omega) (by omega)]
        have c1 : utf8_is_cont (0x80 + cp / 64 % 64) = true := by
          unfold utf8_is_cont; simp; omega
        have c2 : utf8_is_cont (0x80 + cp % 64) = true := by
          unfold utf8_is_cont; simp; omega
        have e : (0xE0 + cp / 4096 - 0xE0) * 4096 + (0x80 + cp / 64 % 64 - 0x80) * 64
            + (0x80 + cp % 64 - 0x80) = cp := by omega
        have c3 : 0x800 ≤ cp := by omega
        have c4 : cp < 0xD800 ∨ 0xDFFF < cp := by omega
        simp only [c1, c2, e, c3, c4, decide_True, Bool.true_and]
      · simp only [h3, if_false, List.cons_append, List.nil_append]
        rw [utf8_valid_four _ _ _ _ _ (by omega) (by omega)]
        have c1 : utf8_is_cont (0x80 + cp / 4096 % 64) = true := by
          unfold utf8_is_cont; simp; omega
        have c2 : utf8_is_cont (0x80 + cp / 64 % 64) = true := by
          unfold utf8_is_cont; simp; omega
        have c3 : utf8_is_cont (0x80 + cp % 64) = true := by
          unfold utf8_is_cont; simp; omega
        have e : (0xF0 + cp / 262144 - 0xF0) * 262144 + (0x80 + cp / 4096 % 64 - 0x80) * 4096
            + (0x80 + cp / 64 % 64 - 0x80) * 64 + (0x80 + cp % 64 - 0x80) = cp := by omega
        have c4 : 0x10000 ≤ cp := by omega
        have c5 : cp ≤ 0x10FFFF := by omega
        simp only [c1, c2, c3, e, c4, c5, decide_True, Bool.true_and]

theorem utf8_valid_flatMap_append (cps r : List Nat) (h : ∀ cp ∈ cps, is_unicode_scalar cp) :
    utf8_valid (cps.flatMap utf8_encode ++ r) = utf8_valid r := by
  induction cps with
  | nil => simp
  | cons cp cps ih =>
    rw [List.flatMap_cons, List.append_assoc, utf8_valid_encode_append cp _ (h cp (by simp))]
    exact ih (fun x hx => h x (List.mem_cons_of_mem _ hx))

theorem utf8_valid_of_wellformed (bs : List Nat) (h : utf8_wellformed bs) :
    utf8_valid bs = true := by
  obtain ⟨cps, hs, rfl⟩ := h
  have := utf8_valid_flatMap_append cps [] hs
  rw [List.append_nil] at this
  rw [this]
  rfl

theorem utf8_valid_bad2 (b0 b1 : Nat) (h0 : ¬ (b0 < 0x80)) (h3 : ¬ (0xC0 ≤ b0 ∧ b0 < 0xE0)) :
    utf8_valid [b0, b1] = false := by
  rw [utf8_valid]
  simp [h0, h3]

theorem utf8_valid_bad3 (b0 b1 b2 : Nat) (h0 : ¬ (b0 < 0x80))
    (h3 : ¬ (0xC0 ≤ b0 ∧ b0 < 0xE0)) (h4 : ¬ (0xE0 ≤ b0 ∧ b0 < 0xF0)) :
    utf8_valid [b0, b1, b2] = false := by
  rw [utf8_valid]
  simp [h0, h3, h4]

theorem utf8_valid_bad4 (b0 b1 b2 b3 : Nat) (r : List Nat) (h0 : ¬ (b0 < 0x80))
    (h3 : ¬ (0xC0 ≤ b0 ∧ b0 < 0xE0)) (h4 : ¬ (0xE0 ≤ b0 ∧ b0 < 0xF0))
    (h5 : ¬ (0xF0 ≤ b0 ∧ b0 < 0xF8)) :
    utf8_valid (b0 :: b1 :: b2 :: b3 :: r) = false := by
  rw [utf8_valid.eq_def]
  simp only [h0, if_false, h3, h4, h5]

theorem utf8_wellformed_cons (cp : Nat) (e r : List Nat) (hs : is_unicode_scalar cp)
    (he : utf8_encode cp = e) (hr : utf8_wellformed r) : utf8_wellformed (e ++ r) := by
  obtain ⟨cps, h1, h2⟩ := hr
  refine ⟨cp :: cps, ?_, ?_⟩
  · intro x hx
    rcases List.mem_cons.mp hx with h | h
    · rw [h]; exact hs
    · exact h1 x h
  · rw [List.flatMap_cons, he, h2]

theorem utf8_wellformed_of_valid (bs : List Nat) (h : utf8_valid bs = true) :
    utf8_wellformed bs := by
  induction bs using utf8_valid.induct with
  | case1 => exact ⟨[], by simp, rfl⟩
  | case2 b r hb ih =>
    rw [utf8_valid_one b r hb] at h
    have := utf8_wellformed_cons b [b] r (Or.inl (by omega)) (by simp [utf8_encode, hb]) (ih h)
    simpa using this
  | case3 b hb =>
    rw [utf8_valid_cut1 b (by omega)] at h
    exact absurd h (by decide)
  | case4 b hb b1 r hl ih =>
    rw [utf8_valid_two b b1 r hl.1 hl.2] at h
    simp only [Bool.and_eq_true, decide_eq_true_eq, utf8_is_cont] at h
    obtain ⟨⟨hc1, hcp⟩, hr⟩ := h
    have he : utf8_encode ((b - 0xC0) * 64 + (b1 - 0x80)) = [b, b1] := by
      unfold utf8_encode
      have a1 : ¬ ((b - 0xC0) * 64 + (b1 - 0x80) < 0x80) := by omega
      have a2 : (b - 0xC0) * 64 + (b1 - 0x80) < 0x800 := by omega
      simp only [a1, a2, if_false, if_true]
      have e0 : 0xC0 + ((b - 0xC0) * 64 + (b1 - 0x80)) / 64 = b := by omega
      have e1 : 0x80 + ((b - 0xC0) * 64 + (b1 - 0x80)) % 64 = b1 := by omega
      rw [e0, e1]
    have := utf8_wellformed_cons _ [b, b1] r (Or.inl (by omega)) he (ih hr)
    simpa using this
  | case5 b hb b1 hl =>
    rw [utf8_valid_bad2 b b1 hb hl] at h
    exact absurd h (by decide)
  | case6 b hb b1 hl2 b2 r hl ih =>
    rw [utf8_valid_three b b1 b2 r hl.1 hl.2] at h
    simp only [Bool.and_eq_true, decide_eq_true_eq, utf8_is_cont] at h
    obtain ⟨⟨⟨⟨hc1, hc2⟩, hmin⟩, hsur⟩, hr⟩ := h
    have he : utf8_encode ((b - 0xE0) * 4096 + (b1 - 0x80) * 64 + (b2 - 0x80))
        = [b, b1, b2] := by
      unfold utf8_encode
      have a1 : ¬ ((b - 0xE0) * 4096 + (b1 - 0x80) * 64 + (b2 - 0x80) < 0x80) := by omega
      have a2 : ¬ ((b - 0xE0) * 4096 + (b1 - 0x80) * 64 + (b2 - 0x80) < 0x800) := by omega
      have a3 : (b - 0xE0) * 4096 + (b1 - 0x80) * 64 + (b2 - 0x80) < 0x10000 := by omega
      simp only [a1, a2, a3, if_false, if_true]
      have e0 : 0xE0 + ((b - 0xE0) * 4096 + (b1 - 0x80) * 64 + (b2 - 0x80)) / 4096 = b := by
        omega
      have e1 : 0x80 + ((b - 0xE0) * 4096 + (b1 - 0x80) * 64 + (b2 - 0x80)) / 64 % 64 = b1 := by
        omega
      have e2 : 0x80 + ((b - 0xE0) * 4096 + (b1 - 0x80) * 64 + (b2 - 0x80)) % 64 = b2 := by
        omega
      rw [e0, e1, e2]
    have hsc : is_unicode_scalar ((b - 0xE0) * 4096 + (b1 - 0x80) * 64 + (b2 - 0x80)) := by
      unfold is_unicode_scalar; omega
    have := utf8_wellformed_cons _ [b, b1, b2] r hsc he (ih hr)
    simpa using this
  | case7 b hb b1 hl2 b2 hl3 =>
    rw [utf8_valid_bad3 b b1 b2 hb hl2 hl3] at h
    exact absurd h (by decide)
  | case8 b hb b1 hl2 b2 hl3 b3 r hl ih =>
    rw [utf8_valid_four b b1 b2 b3 r hl.1 hl.2] at h
    simp only [Bool.and_eq_true, decide_eq_true_eq, utf8_is_cont] at h
    obtain ⟨⟨⟨⟨⟨hc1, hc2⟩, hc3⟩, hmin⟩, hmax⟩, hr⟩ := h
    have he : utf8_encode ((b - 0xF0) * 262144 + (b1 - 0x80) * 4096 + (b2 - 0x80) * 64
        + (b3 - 0x80)) = [b, b1, b2, b3] := by
      unfold utf8_encode
      have a1 : ¬ ((b - 0xF0) * 262144 + (b1 - 0x80) * 4096 + (b2 - 0x80) * 64
          + (b3 - 0x80) < 0x80) := by omega
      have a2 : ¬ ((b - 0xF0) * 262144 + (b1 - 0x80) * 4096 + (b2 - 0x80) * 64
          + (b3 - 0x80) < 0x800) := by omega
      have a3 : ¬ ((b - 0xF0) * 262144 + (b1 - 0x80) * 4096 + (b2 - 0x80) * 64
          + (b3 - 0x80) < 0x10000) := by omega
      simp only [a1, a2, a3, if_false]
      have e0 : 0xF0 + ((b - 0xF0) * 262144 + (b1 - 0x80) * 4096 + (b2 - 0x80) * 64
          + (b3 - 0x80)) / 262144 = b := by omega
      have e1 : 0x80 + ((b - 0xF0) * 262144 + (b1 - 0x80) * 4096 + (b2 - 0x80) * 64
          + (b3 - 0x80)) / 4096 % 64 = b1 := by omega
      have e2 : 0x80 + ((b - 0xF0) * 262144 + (b1 - 0x80) * 4096 + (b2 - 0x80) * 64
          + (b3 - 0x80)) / 64 % 64 = b2 := by omega
      have e3 : 0x80 + ((b - 0xF0) * 262144 + (b1 - 0x80) * 4096 + (b2 - 0x80) * 64
          + (b3 - 0x80)) % 64 = b3 := by omega
      rw [e0, e1, e2, e3]
    have hsc : is_unicode_scalar ((b - 0xF0) * 262144 + (b1 - 0x80) * 4096 + (b2 - 0x80) * 64
        + (b3 - 0x80)) := by
      unfold is_unicode_scalar; omega
    have := utf8_wellformed_cons _ [b, b1, b2, b3] r hsc he (ih hr)
    simpa using this
  | case9 b hb b1 hl2 b2 hl3 b3 r hl4 =>
    rw [utf8_valid_bad4 b b1 b2 b3 r hb hl2 hl3 hl4] at h
    exact absurd h (by decide)

theorem utf8_valid_iff_wellformed (bs : List Nat) :
    utf8_valid bs = true ↔ utf8_wellformed bs :=
  ⟨utf8_wellformed_of_valid bs, utf8_valid_of_wellformed bs⟩

theorem utf8_valid_append (a r : List Nat) (h : utf8_valid a = true) :
    utf8_valid (a ++ r) = utf8_valid r := by
  obtain ⟨cps, hs, rfl⟩ := utf8_wellformed_of_valid a h
  exact utf8_valid_flatMap_append cps r hs

theorem utf8_valid_take_encode (cp k : Nat) (hk0 : 0 < k)
    (hk : k < (utf8_encode cp).length) : utf8_valid ((utf8_encode cp).take k) = false := by
  unfold utf8_encode at hk ⊢
  by_cases h1 : cp < 0x80
  · simp only [h1, if_true, List.length_singleton] at hk
    omega
  · simp only [h1, if_false] at hk ⊢
    by_cases h2 : cp < 0x800
    · simp only [h2, if_true, List.length_cons, List.length_nil] at hk ⊢
      have : k = 1 := by omega
      subst this
      exact utf8_valid_cut1 _ (by omega)
    · simp only [h2, if_false] at hk ⊢
      by_cases h3 : cp < 0x10000
      · simp only [h3, if_true, List.length_cons, List.length_nil] at hk ⊢
        have : k = 1 ∨ k = 2 := by omega
        rcases this with h | h <;> subst h
        · exact utf8_valid_cut1 _ (by omega)
        · exact utf8_valid_cut2 _ _ (by omega)
      · simp only [h3, if_false, List.length_cons, List.length_nil] at hk ⊢
        have : k = 1 ∨ k = 2 ∨ k = 3 := by omega
        rcases this with h | h | h <;> subst h
        · exact utf8_valid_cut1 _ (by omega)
        · exact utf8_valid_cut2 _ _ (by omega)
        · exact utf8_valid_cut3 _ _ _ (by omega)

theorem cbor_read_head_chunk (major : Nat) (c tail : List Nat) (hc : c.length < 2 ^ 64) :
    cbor_read_head (cbor_chunk major c ++ tail)
      = ok ({ major := major, arg := c.length, indef := false }, c ++ tail) := by
  unfold cbor_chunk
  rw [List.append_assoc]
  exact cbor_read_head_bytes major c.length (c ++ tail) hc

theorem cbor_read_chunks_chunk (major : Nat) (fuel : Nat) (c tail : List Nat)
    (hc : c.length < 2 ^ 64) :
    cbor_read_chunks major (fuel + 1) (cbor_chunk major c ++ tail)
      = match cbor_read_chunks major fuel tail with
        | error e => error e
        | ok (cs, rest2) => ok (c ++ cs, rest2) := by
  rw [cbor_read_chunks, cbor_read_head_chunk major c tail hc]
  have h1 : ¬ ((c ++ tail).length < c.length) := by simp
  have h2 : (c ++ tail).take c.length = c := List.take_left' rfl
  have h3 : (c ++ tail).drop c.length = tail := List.drop_left' rfl
  simp only [h1, h2, h3, if_false, Bool.false_eq_true, and_false, ne_eq, not_true_eq_false]

theorem cbor_read_chunks_pre (major : Nat) (pre : List (List Nat)) (tail : List Nat)
    (hpre : ∀ c ∈ pre, c.length < 2 ^ 64) (fuel : Nat) :
    cbor_read_chunks major (fuel + pre.length) (cbor_chunks major pre ++ tail)
      = match cbor_read_chunks major fuel tail with
        | error e => error e
        | ok (cs, rest2) => ok (pre.flatten ++ cs, rest2) := by
  induction pre with
  | nil =>
    simp only [cbor_chunks, List.flatMap_nil, List.nil_append, List.length_nil, Nat.add_zero,
      List.flatten_nil]
    cases cbor_read_chunks major fuel tail <;> rfl
  | cons c pre ih =>
    have hc := hpre c (by simp)
    have ih2 := ih (fun x hx => hpre x (List.mem_cons_of_mem _ hx))
    have e1 : cbor_chunks major (c :: pre) ++ tail
        = cbor_chunk major c ++ (cbor_chunks major pre ++ tail) := by
      simp [cbor_chunks, List.append_assoc]
    have e2 : fuel + (c :: pre).length = (fuel + pre.length) + 1 := by
      simp [Nat.add_assoc]
    rw [e1, e2, cbor_read_chunks_chunk major _ c _ hc, ih2]
    cases cbor_read_chunks major fuel tail with
    | error e => rfl
    | ok r => simp [List.append_assoc]

theorem cbor_read_chunks_pre_error (major : Nat) (pre : List (List Nat))
    (tail : List Nat) (e : cbor_error_t) (hpre : ∀ c ∈ pre, c.length < 2 ^ 64) (fuel : Nat)
    (h : cbor_read_chunks major fuel tail = error e) :
    cbor_read_chunks major (fuel + pre.length) (cbor_chunks major pre ++ tail)
      = error e := by
  rw [cbor_read_chunks_pre major pre tail hpre fuel, h]

theorem cbor_chunks_length_ge (major : Nat) (pre : List (List Nat)) :
    pre.length ≤ (cbor_chunks major pre).length := by
  induction pre with
  | nil => simp [cbor_chunks]
  | cons c pre ih =>
    have h1 : 1 ≤ (cbor_head_bytes major c.length).length := by
      unfold cbor_head_bytes
      (repeat' split) <;> simp
    have e : cbor_chunks major (c :: pre) = cbor_chunk major c ++ cbor_chunks major pre := by
      simp [cbor_chunks]
    rw [e]
    simp only [cbor_chunk, List.length_append, List.length_cons]
    omega

theorem cbor_read_string_indef (major : Nat) (text : Bool) (x : List Nat)
    (hm : major = 2 ∨ major = 3) :
    cbor_read_string major text ((major * 32 + 31) :: x)
      = match cbor_read_chunks major x.length x with
        | error e => error e
        | ok (v, rest2) =>
          if text && !utf8_valid v then error CBOR_ERROR_INVALID_UTF8 else ok (v, rest2) := by
  have e1 : (major * 32 + 31) / 32 = major := by omega
  have e2 : (major * 32 + 31) % 32 = 31 := by omega
  have e3 : ¬ (major = 0 ∨ major = 1 ∨ major = 6) := by omega
  unfold cbor_read_string cbor_read_head
  simp [e1, e2, e3]

theorem cbor_read_string_pre_error (major : Nat) (text : Bool) (pre : List (List Nat))
    (tail : List Nat) (e : cbor_error_t) (hm : major = 2 ∨ major = 3)
    (hpre : ∀ c ∈ pre, c.length < 2 ^ 64)
    (h : ∀ fuel, tail.length ≤ fuel → cbor_read_chunks major fuel tail = error e) :
    cbor_read_string major text ((major * 32 + 31) :: (cbor_chunks major pre ++ tail))
      = error e := by
  rw [cbor_read_string_indef major text _ hm]
  have hlen := cbor_chunks_length_ge major pre
  have e1 : (cbor_chunks major pre ++ tail).length
      = ((cbor_chunks major pre).length - pre.length + tail.length) + pre.length := by
    simp only [List.length_append]; omega
  rw [e1, cbor_read_chunks_pre_error major pre tail e hpre _ (h _ (by omega))]

theorem cbor_read_chunks_break (major fuel : Nat) (rest : List Nat) :
    cbor_read_chunks major (fuel + 1) (0xff :: rest) = ok ([], rest) := by
  rw [cbor_read_chunks]
  simp [cbor_read_head]

/-- The reader modelled on spec §4.5 on a well-formed indefinite-length
string: the chunks `cs`, then the break.  A byte string is the concatenation
of the chunks; a text string is accepted exactly when the concatenation is
valid UTF-8. -/
theorem cbor_read_string_chunks (major : Nat) (text : Bool) (cs : List (List Nat))
    (rest : List Nat) (hm : major = 2 ∨ major = 3) (hcs : ∀ c ∈ cs, c.length < 2 ^ 64) :
    cbor_read_string major text ((major * 32 + 31) :: (cbor_chunks major cs ++ 0xff :: rest))
      = if text && !utf8_valid cs.flatten then error CBOR_ERROR_INVALID_UTF8
        else ok (cs.flatten, rest) := by
  rw [cbor_read_string_indef major text _ hm]
  have hlen := cbor_chunks_length_ge major cs
  have e1 : (cbor_chunks major cs ++ 0xff :: rest).length
      = (((cbor_chunks major cs).length - cs.length + rest.length) + 1) + cs.length := by
    simp only [List.length_append, List.length_cons]; omega
  rw [e1, cbor_read_chunks_pre major cs _ hcs, cbor_read_chunks_break]
  simp

theorem cbor_read_chunks_nil (major : Nat) (fuel : Nat) :
    cbor_read_chunks major fuel [] = error CBOR_ERROR_END_OF_STREAM := by
  cases fuel with
  | zero => rfl
  | succ fuel => simp [cbor_read_chunks, cbor_read_head]

theorem cbor_read_chunks_mismatch (major m2 u : Nat) (more : List Nat)
    (hne : m2 ≠ major) (hu : u < 2 ^ 64) (fuel : Nat)
    (hf : (cbor_head_bytes m2 u ++ more).length ≤ fuel) :
    cbor_read_chunks major fuel (cbor_head_bytes m2 u ++ more)
      = error CBOR_ERROR_INDEF_MISMATCH := by
  have h1 : 1 ≤ (cbor_head_bytes m2 u).length := by
    unfold cbor_head_bytes
    (repeat' split) <;> simp
  cases fuel with
  | zero => simp only [List.length_append] at hf; omega
  | succ fuel =>
    rw [cbor_read_chunks, cbor_read_head_bytes m2 u more hu]
    simp [hne]

theorem cbor_read_chunks_nesting (major : Nat) (more : List Nat)
    (hm : major = 2 ∨ major = 3) (fuel : Nat) (hf : ((major * 32 + 31) :: more).length ≤ fuel) :
    cbor_read_chunks major fuel ((major * 32 + 31) :: more)
      = error CBOR_ERROR_INDEF_NESTING := by
  have e1 : (major * 32 + 31) / 32 = major := by omega
  have e2 : (major * 32 + 31) % 32 = 31 := by omega
  have e3 : ¬ (major = 0 ∨ major = 1 ∨ major = 6) := by omega
  have e4 : ¬ (major = 7) := by omega
  cases fuel with
  | zero => simp at hf
  | succ fuel =>
    rw [cbor_read_chunks]
    simp [cbor_read_head, e1, e2, e3, e4]

theorem cbor_read_chunks_cut (major n : Nat) (part : List Nat)
    (hn : n < 2 ^ 64) (hp : part.length < n) (fuel : Nat) :
    cbor_read_chunks major fuel (cbor_head_bytes major n ++ part)
      = error CBOR_ERROR_END_OF_STREAM := by
  cases fuel with
  | zero => rfl
  | succ fuel =>
    rw [cbor_read_chunks, cbor_read_head_bytes major n part hn]
    simp [hp]

theorem cbor_read_chunks_head_cut (major m2 k : Nat) (hpart : List Nat)
    (hk : k ≤ 3) (hp : hpart.length < 2 ^ k) (fuel : Nat) :
    cbor_read_chunks major fuel ((m2 * 32 + 24 + k) :: hpart)
      = error CBOR_ERROR_END_OF_STREAM := by
  have e1 : (m2 * 32 + 24 + k) / 32 = m2 := by omega
  have e2 : (m2 * 32 + 24 + k) % 32 = 24 + k := by omega
  have e3 : ¬ (24 + k < 24) := by omega
  have e4 : 24 + k < 28 := by omega
  have e5 : 24 + k - 24 = k := by omega
  cases fuel with
  | zero => rfl
  | succ fuel =>
    rw [cbor_read_chunks]
    simp only [cbor_read_head, e1, e2, e3, e4, e5, hp, if_true, if_false]

theorem utf8_valid_flatten (pre : List (List Nat)) (h : ∀ c ∈ pre, utf8_valid c = true)
    (r : List Nat) : utf8_valid (pre.flatten ++ r) = utf8_valid r := by
  induction pre with
  | nil => simp
  | cons c pre ih =>
    rw [List.flatten_cons, List.append_assoc, utf8_valid_append c _ (h c (by simp))]
    exact ih (fun x hx => h x (List.mem_cons_of_mem _ hx))

/-- C27: reading an indefinite-length byte or text string fails with
`CBOR_ERROR_INDEF_MISMATCH` when, after any number of chunks, a chunk head has
a different major type; with `CBOR_ERROR_INDEF_NESTING` when a chunk is itself
indefinite-length; and with `CBOR_ERROR_END_OF_STREAM` when the input ends
before the break byte 0xFF: after a whole chunk, inside the content of a
chunk, or inside the head of a chunk.  The chunks before may hold any bytes.
The rows of `test_bytes` and `test_text` for these errors follow. -/
theorem cbor_read_indef_string_errors (pre : List (List Nat)) (mb mt u n k : Nat)
    (more part hpart : List Nat) (hpre : ∀ c ∈ pre, c.length < 2 ^ 64)
    (hmb : mb ≠ 2) (hmt : mt ≠ 3) (hu : u < 2 ^ 64) (hn : n < 2 ^ 64)
    (hp : part.length < n) (hk : k ≤ 3) (hh : hpart.length < 2 ^ k) :
    cbor_read_bytes (0x5f :: (cbor_chunks 2 pre ++ (cbor_head_bytes mb u ++ more)))
      = error CBOR_ERROR_INDEF_MISMATCH ∧
    cbor_read_text (0x7f :: (cbor_chunks 3 pre ++ (cbor_head_bytes mt u ++ more)))
      = error CBOR_ERROR_INDEF_MISMATCH ∧
    cbor_read_bytes (0x5f :: (cbor_chunks 2 pre ++ 0x5f :: more))
      = error CBOR_ERROR_INDEF_NESTING ∧
    cbor_read_text (0x7f :: (cbor_chunks 3 pre ++ 0x7f :: more))
      = error CBOR_ERROR_INDEF_NESTING ∧
    cbor_read_bytes (0x5f :: (cbor_chunks 2 pre ++ [])) = error CBOR_ERROR_END_OF_STREAM ∧
    cbor_read_text (0x7f :: (cbor_chunks 3 pre ++ [])) = error CBOR_ERROR_END_OF_STREAM ∧
    cbor_read_bytes (0x5f :: (cbor_chunks 2 pre ++ (cbor_head_bytes 2 n ++ part)))
      = error CBOR_ERROR_END_OF_STREAM ∧
    cbor_read_text (0x7f :: (cbor_chunks 3 pre ++ (cbor_head_bytes 3 n ++ part)))
      = error CBOR_ERROR_END_OF_STREAM ∧
    cbor_read_bytes (0x5f :: (cbor_chunks 2 pre ++ (2 * 32 + 24 + k) :: hpart))
      = error CBOR_ERROR_END_OF_STREAM ∧
    cbor_read_text (0x7f :: (cbor_chunks 3 pre ++ (3 * 32 + 24 + k) :: hpart))
      = error CBOR_ERROR_END_OF_STREAM ∧
    cbor_read_bytes [0x5f, 0x66, 0x61, 0x62, 0x63, 0x64, 0x65, 0x66, 0x42, 0x78, 0x7a, 0xff]
      = error CBOR_ERROR_INDEF_MISMATCH ∧
    cbor_read_bytes [0x5f, 0x5f, 0x46, 0x61, 0x62, 0x63, 0x64, 0x65, 0x66, 0xff, 0xff]
      = error CBOR_ERROR_INDEF_NESTING ∧
    cbor_read_bytes [0x5f, 0x46, 0x61, 0x62, 0x63, 0x64, 0x65, 0x66, 0x42, 0x78, 0x7a]
      = error CBOR_ERROR_END_OF_STREAM ∧
    cbor_read_bytes [0x5f, 0x59, 0x01] = error CBOR_ERROR_END_OF_STREAM ∧
    cbor_read_text [0x7f, 0x46, 0x61, 0x62, 0x63, 0x64, 0x65, 0x66, 0x62, 0x78, 0x7a, 0x62,
        0xc2, 0xa9, 0xff] = error CBOR_ERROR_INDEF_MISMATCH ∧
    cbor_read_text [0x7f, 0x7f, 0x66, 0x61, 0x62, 0x63, 0x64, 0x65, 0x66, 0xff, 0xff]
      = error CBOR_ERROR_INDEF_NESTING ∧
    cbor_read_text [0x7f, 0x66, 0x61, 0x62, 0x63, 0x64, 0x65, 0x66, 0x62, 0x78, 0x7a, 0x62,
        0xc2, 0xa9] = error CBOR_ERROR_END_OF_STREAM := by
  refine ⟨?_, ?_, ?_, ?_, ?_, ?_, ?_, ?_, ?_, ?_, by decide, by decide, by decide, by decide,
    by decide, by decide, by decide⟩
  · exact cbor_read_string_pre_error 2 false pre _ _ (Or.inl rfl) hpre
      (fun fuel hf => cbor_read_chunks_mismatch 2 mb u more hmb hu fuel hf)
  · exact cbor_read_string_pre_error 3 true pre _ _ (Or.inr rfl) hpre
      (fun fuel hf => cbor_read_chunks_mismatch 3 mt u more hmt hu fuel hf)
  · exact cbor_read_string_pre_error 2 false pre _ _ (Or.inl rfl) hpre
      (fun fuel hf => cbor_read_chunks_nesting 2 more (Or.inl rfl) fuel hf)
  · exact cbor_read_string_pre_error 3 true pre _ _ (Or.inr rfl) hpre
      (fun fuel hf => cbor_read_chunks_nesting 3 more (Or.inr rfl) fuel hf)
  · exact cbor_read_string_pre_error 2 false pre _ _ (Or.inl rfl) hpre
      (fun fuel _ => cbor_read_chunks_nil 2 fuel)
  · exact cbor_read_string_pre_error 3 true pre _ _ (Or.inr rfl) hpre
      (fun fuel _ => cbor_read_chunks_nil 3 fuel)
  · exact cbor_read_string_pre_error 2 false pre _ _ (Or.inl rfl) hpre
      (fun fuel _ => cbor_read_chunks_cut 2 n part hn hp fuel)
  · exact cbor_read_string_pre_error 3 true pre _ _ (Or.inr rfl) hpre
      (fun fuel _ => cbor_read_chunks_cut 3 n part hn hp fuel)
  · exact cbor_read_string_pre_error 2 false pre _ _ (Or.inl rfl) hpre
      (fun fuel _ => cbor_read_chunks_head_cut 2 2 k hpart hk hh fuel)
  · exact cbor_read_string_pre_error 3 true pre _ _ (Or.inr rfl) hpre
      (fun fuel _ => cbor_read_chunks_head_cut 3 3 k hpart hk hh fuel)

theorem cbor_read_indef_string_errors_witness :
    cbor_read_bytes (0x5f :: (cbor_chunks 2 [[0xff], [0x61, 0x62]]
        ++ (cbor_head_bytes 3 2 ++ [0x78, 0x7a, 0xff])))
      = error CBOR_ERROR_INDEF_MISMATCH ∧
    cbor_read_text (0x7f :: (cbor_chunks 3 [[0xff], [0x61, 0x62]]
        ++ (cbor_head_bytes 3 2 ++ [0x78])))
      = error CBOR_ERROR_END_OF_STREAM ∧
    cbor_read_bytes (0x5f :: (cbor_chunks 2 [[0xff], [0x61, 0x62]] ++ (2 * 32 + 24 + 1) :: [0x01]))
      = error CBOR_ERROR_END_OF_STREAM :=
  ⟨(cbor_read_indef_string_errors [[0xff], [0x61, 0x62]] 3 2 2 2 1
      [0x78, 0x7a, 0xff] [0x78] [0x01] (by decide) (by decide) (by decide) (by decide)
      (by decide) (by decide) (by decide) (by decide)).1,
    (cbor_read_indef_string_errors [[0xff], [0x61, 0x62]] 3 2 2 2 1
      [0x78, 0x7a, 0xff] [0x78] [0x01] (by decide) (by decide) (by decide) (by decide)
      (by decide) (by decide) (by decide) (by decide)).2.2.2.2.2.2.2.1,
    (cbor_read_indef_string_errors [[0xff], [0x61, 0x62]] 3 2 2 2 1
      [0x78, 0x7a, 0xff] [0x78] [0x01] (by decide) (by decide) (by decide) (by decide)
      (by decide) (by decide) (by decide) (by decide)).2.2.2.2.2.2.2.2.1⟩

/-- C28: any byte sequence that is not well-formed UTF-8 is rejected with
`CBOR_ERROR_INVALID_UTF8` when it is written as a text string, when it is
read as a definite-length text string, and when it is read as the
concatenation of the chunks of an indefinite-length text string; for example
reading 61c2, a one-byte text holding a lone lead byte. -/
theorem cbor_text_rejects_malformed (avail : Nat) (bs rest : List Nat) (cs : List (List Nat))
    (hmal : ¬ utf8_wellformed bs) (hlen : bs.length < 2 ^ 64)
    (hcs : ∀ c ∈ cs, c.length < 2 ^ 64) (hflat : cs.flatten = bs) :
    cbor_write_textn avail bs = error CBOR_ERROR_INVALID_UTF8 ∧
    cbor_read_text (cbor_chunk 3 bs ++ rest) = error CBOR_ERROR_INVALID_UTF8 ∧
    cbor_read_text (0x7f :: (cbor_chunks 3 cs ++ 0xff :: rest))
      = error CBOR_ERROR_INVALID_UTF8 ∧
    cbor_read_text [0x61, 0xc2] = error CBOR_ERROR_INVALID_UTF8 := by
  have hv : utf8_valid bs = false := by
    cases h : utf8_valid bs
    · rfl
    · exact absurd (utf8_wellformed_of_valid bs h) hmal
  refine ⟨?_, ?_, ?_, by decide⟩
  · unfold cbor_write_textn
    simp [hv]
  · unfold cbor_read_text cbor_read_string
    rw [cbor_read_head_chunk 3 bs rest hlen]
    have h1 : ¬ ((bs ++ rest).length < bs.length) := by simp
    have h2 : (bs ++ rest).take bs.length = bs := List.take_left' rfl
    simp only [h1, h2, hv, if_false, Bool.false_eq_true, ne_eq, not_true_eq_false,
      Bool.not_false, Bool.and_self, if_true]
  · show cbor_read_string 3 true ((3 * 32 + 31) :: _) = _
    rw [cbor_read_string_chunks 3 true cs rest (Or.inr rfl) hcs, hflat, hv]
    rfl

theorem cbor_text_rejects_malformed_witness :
    cbor_write_textn 20 [0xc2] = error CBOR_ERROR_INVALID_UTF8 ∧
    cbor_read_text (cbor_chunk 3 [0xc2] ++ []) = error CBOR_ERROR_INVALID_UTF8 ∧
    cbor_read_text (0x7f :: (cbor_chunks 3 [[], [0xc2]] ++ 0xff :: []))
      = error CBOR_ERROR_INVALID_UTF8 ∧
    cbor_read_text [0x61, 0xc2] = error CBOR_ERROR_INVALID_UTF8 :=
  cbor_text_rejects_malformed 20 [0xc2] [] [[], [0xc2]]
    (fun h => absurd (utf8_valid_of_wellformed _ h) (by decide)) (by decide) (by decide)
    (by decide)

/-- C35: encoding always grows the data by at least one byte: for every input
of length `n`, `cobs_enc` returns at least `n + 1`. -/
theorem cobs_enc_grows (m : Nat → Nat) (b : List Nat) :
    b.length + 1 ≤ (cobs_enc m b).1 := by
  rw [cobs_enc_fst]
  obtain ⟨f, h1, _, h3, _⟩ := blkCount_loop b
  unfold blk_out
  cases hl : (blk_loop b).lm
  · simp only [Bool.false_eq_true, if_false, List.length_append, List.length_cons]
    omega
  · simp only [if_true]
    have := h3 hl
    omega

/-- C36: `cobs_dec` is not injective on the inputs it accepts.  The empty
input and the single byte 01 are distinct zero-free inputs on which it
succeeds with the same output and the same returned length 0; so are a
complete 0xFF block and the same block followed by a 01 byte, for every
content of the block. -/
theorem cobs_dec_not_injective :
    ([] : List Nat) ≠ [0x01] ∧ cobs_dec [] = (0, []) ∧ cobs_dec [0x01] = (0, []) ∧
    (∀ data : List Nat, data.length = 254 → (∀ x ∈ data, x ≠ 0) →
      255 :: data ≠ 255 :: data ++ [0x01] ∧
      cobs_dec (255 :: data) = (254, data) ∧
      cobs_dec (255 :: data ++ [0x01]) = (254, data)) := by
  refine ⟨by decide, by decide, by decide, ?_⟩
  intro data hlen hnz
  have hz : ¬ (0 ∈ data) := fun h => hnz 0 h rfl
  have hb := dec_block cobs_dec_init 255 data rfl (by omega) (by omega)
  refine ⟨?_, ?_, ?_⟩
  · intro h
    have := congrArg List.length h
    simp at this
  · unfold cobs_dec cobs_dec_loop
    have hz2 : ¬ (0 ∈ 255 :: data) := by simp [hz]
    simp only [hz2, if_false]
    rw [hb]
    simp [cobs_dec_init, hlen]
  · unfold cobs_dec cobs_dec_loop
    have hz2 : ¬ (0 ∈ 255 :: data ++ [0x01]) := by simp [hz]
    simp only [hz2, if_false]
    rw [List.foldl_append, hb]
    simp [cobs_dec_init, cobs_dec_step, hlen]

theorem pcg32_threshold_pow2 (k : Nat) (hk : k ≤ 31) : pcg32_threshold (2 ^ k) = 0 := by
  interval_cases k <;> decide

/-- C38: for every bound that is a power of two, `2^k` with `k ≤ 31`, the
rejection threshold of `pcg32_boundedrand_r` is 0, so the call consumes exactly
one draw `r` of `pcg32_random_r` and returns `r mod bound`. -/
theorem pcg32_boundedrand_r_pow2 (k fuel : Nat) (rng : pcg32_random_t) (hk : k ≤ 31) :
    pcg32_threshold (2 ^ k) = 0 ∧
    pcg32_boundedrand_r (fuel + 1) rng (2 ^ k)
      = some ((pcg32_random_r rng).1, (pcg32_random_r rng).2 % 2 ^ k) := by
  have ht := pcg32_threshold_pow2 k hk
  refine ⟨ht, ?_⟩
  unfold pcg32_boundedrand_r pcg32_boundedrand_loop
  rw [ht]
  simp

theorem pcg32_boundedrand_r_pow2_witness :
    pcg32_threshold (2 ^ 31) = 0 ∧
    pcg32_boundedrand_r (0 + 1) PCG32_INITIALIZER (2 ^ 31)
      = some ((pcg32_random_r PCG32_INITIALIZER).1,
          (pcg32_random_r PCG32_INITIALIZER).2 % 2 ^ 31) :=
  pcg32_boundedrand_r_pow2 31 0 PCG32_INITIALIZER (by decide)

theorem pcg32_seq_shift (initseq : Nat) :
    (((initseq + 2 ^ 63) % 2 ^ 64) <<< 1) % 2 ^ 64 = (initseq <<< 1) % 2 ^ 64 ∧
    ((initseq % 2 ^ 63) <<< 1) % 2 ^ 64 = (initseq <<< 1) % 2 ^ 64 := by
  simp only [Nat.shiftLeft_eq]
  omega

theorem or_one_eq (a : Nat) : (2 * a) ||| 1 = 2 * a + 1 := by
  apply Nat.eq_of_testBit_eq
  intro i
  rw [Nat.testBit_lor]
  cases i with
  | zero => simp [Nat.testBit_zero]; omega
  | succ i =>
    rw [Nat.testBit_succ, Nat.testBit_succ, Nat.testBit_succ]
    have e1 : 2 * a / 2 = a := by omega
    have e2 : (2 * a + 1) / 2 = a := by omega
    have e3 : 1 / 2 = 0 := by decide
    rw [e1, e2, e3]
    simp

/-- C39: `pcg32_srandom_r` ignores the most significant bit of `initseq`:
seeding with `initseq` and with `initseq + 2^63` (mod `2^64`) leaves identical
`(state, inc)`; the result depends on `initseq` modulo `2^63` only, so only
`2^63` distinct streams are selectable, and the `2^63` values of `initseq`
below `2^63` select distinct ones. -/
theorem pcg32_srandom_r_msb (rng : pcg32_random_t) (initstate initseq : Nat) :
    pcg32_srandom_r rng initstate ((initseq + 2 ^ 63) % 2 ^ 64)
      = pcg32_srandom_r rng initstate initseq ∧
    pcg32_srandom_r rng initstate (initseq % 2 ^ 63)
      = pcg32_srandom_r rng initstate initseq ∧
    (∀ i1 i2 : Nat, i1 < 2 ^ 63 → i2 < 2 ^ 63 →
      (pcg32_srandom_r rng initstate i1).inc = (pcg32_srandom_r rng initstate i2).inc →
      i1 = i2) := by
  obtain ⟨h1, h2⟩ := pcg32_seq_shift initseq
  refine ⟨?_, ?_, ?_⟩
  · unfold pcg32_srandom_r
    rw [h1]
  · unfold pcg32_srandom_r
    rw [h2]
  · intro i1 i2 hi1 hi2 h
    rw [pcg32_srandom_r_inc, pcg32_srandom_r_inc] at h
    simp only [Nat.shiftLeft_eq] at h
    have e1 : i1 * 2 ^ 1 % 2 ^ 64 = 2 * i1 := by omega
    have e2 : i2 * 2 ^ 1 % 2 ^ 64 = 2 * i2 := by omega
    rw [e1, e2, or_one_eq, or_one_eq] at h
    omega

theorem dec_loop_blocks (n : Nat) :
    ∀ (inp : List Nat) (s : DecState), inp.length ≤ n → s.code = 0 →
      (∀ x ∈ inp, x ≠ 0 ∧ x < 256) → final_segment_short inp = false →
      (inp.foldl cobs_dec_step s).out
        = (if s.out0 = true ∧ inp ≠ [] then s.out ++ [0] else s.out) ++ dec_blocks inp := by
  induction n with
  | zero =>
    intro inp s hlen _ _ _
    have : inp = [] := List.length_eq_zero.mp (by omega)
    subst this
    simp [dec_blocks]
  | succ n ih =>
    intro inp s hlen hs hb hf
    cases inp with
    | nil => simp [dec_blocks]
    | cons c rest =>
      have hc := hb c (by simp)
      rw [final_segment_short] at hf
      by_cases hr : rest.length < c - 1
      · simp [hr] at hf
      · simp only [hr, if_false] at hf
        have hsplit : c :: rest = (c :: rest.take (c - 1)) ++ rest.drop (c - 1) := by
          simp
        have htl : (rest.take (c - 1)).length + 1 = c := by
          rw [List.length_take]; omega
        rw [dec_blocks]
        conv => lhs; rw [hsplit]
        rw [List.foldl_append, dec_block _ _ _ hs (by omega) htl]
        rw [ih (rest.drop (c - 1)) _ (by simp at hlen ⊢; omega) rfl
          (fun x hx => hb x (List.mem_cons_of_mem _ (List.mem_of_mem_drop hx))) hf]
        by_cases h255 : c = 255
        · cases s.out0 <;> simp [h255]
        · by_cases hd : rest.drop (c - 1) = []
          · cases s.out0 <;> simp [h255, hd]
          · have hd2 : ¬ (rest.length ≤ c - 1) := by
              intro h; exact hd (List.drop_eq_nil_of_le h)
            cases s.out0 <;> simp [h255, hd, hd2]

/-- C31 (as amended): for every zero-free input that `cobs_dec` accepts, the
output is produced block by block: each block contributes its `code - 1`
literal bytes, followed by one 0x00 unless its code is 255 or it is the last
block of the input; the returned length is the length of that output. -/
theorem cobs_dec_blocks (inp : List Nat) (hb : ∀ x ∈ inp, x ≠ 0 ∧ x < 256)
    (hacc : 0 ≤ (cobs_dec inp).1) :
    (cobs_dec inp).2 = dec_blocks inp ∧
    (cobs_dec inp).1 = ((dec_blocks inp).length : Int) := by
  have hz : ¬ (0 ∈ inp) := fun h => (hb 0 h).1 rfl
  obtain ⟨h1, h2⟩ := dec_loop_short inp.length inp cobs_dec_init (Nat.le_refl _) rfl rfl hb
  have hc : ¬ (0 < (inp.foldl cobs_dec_step cobs_dec_init).code) := by
    intro hc
    unfold cobs_dec cobs_dec_loop at hacc
    simp [hz, hc] at hacc
  have hs : final_segment_short inp = false := by
    cases h : final_segment_short inp
    · rfl
    · exact absurd (h1.mpr h) hc
  have hout := dec_loop_blocks inp.length inp cobs_dec_init (Nat.le_refl _) rfl hb hs
  have hout2 : (inp.foldl cobs_dec_step cobs_dec_init).out = dec_blocks inp := by
    rw [hout]
    simp [cobs_dec_init]
  unfold cobs_dec cobs_dec_loop
  simp only [hz, if_false, gt_iff_lt, hc, h2, hout2, and_self]

theorem cobs_dec_blocks_witness :
    (cobs_dec [0x03, 0x11, 0x22, 0x01]).2 = dec_blocks [0x03, 0x11, 0x22, 0x01] ∧
    (cobs_dec [0x03, 0x11, 0x22, 0x01]).1
      = ((dec_blocks [0x03, 0x11, 0x22, 0x01]).length : Int) :=
  cobs_dec_blocks [0x03, 0x11, 0x22, 0x01] (by decide) (by decide)

/-- C31 as stated fails on the frame 03 11 22 01: `cobs_dec` accepts it and
writes 11 22 00, while blocks that each contribute a 0x00 (none has code 255)
would give 11 22 00 00. -/
theorem cobs_dec_blocks_literal_fails :
    (∀ x ∈ [0x03, 0x11, 0x22, 0x01], x ≠ 0 ∧ x < 256) ∧
    cobs_dec [0x03, 0x11, 0x22, 0x01] = (3, [0x11, 0x22, 0x00]) ∧
    dec_blocks_literal [0x03, 0x11, 0x22, 0x01] = [0x11, 0x22, 0x00, 0x00] ∧
    (cobs_dec [0x03, 0x11, 0x22, 0x01]).2 ≠ dec_blocks_literal [0x03, 0x11, 0x22, 0x01] := by
  have hl : dec_blocks_literal [0x03, 0x11, 0x22, 0x01] = [0x11, 0x22, 0x00, 0x00] := by
    simp [dec_blocks_literal]
  refine ⟨by decide, by decide, hl, ?_⟩
  rw [hl]
  decide

theorem crc32c_tab_bit_eq (c : Nat) : crc32c_tab_bit c = crc32c_bit c := by
  have h : reflect 32 CRC32C_POLY = 0x82F63B78 := by decide
  unfold crc32c_tab_bit crc32c_bit
  rw [h]

theorem crc32c_tab_eq_bits (i : Nat) : crc32c_tab i = crc32c_bit^[8] i := by
  unfold crc32c_tab
  simp only [crc32c_tab_bit_eq, Function.iterate_succ, Function.iterate_zero,
    Function.comp_apply, id_eq]

theorem xor_even_mod_two (x h : Nat) (hh : h % 2 = 0) : (x ^^^ h) % 2 = x % 2 := by
  have e : ∀ y : Nat, y % 2 = if y.testBit 0 then 1 else 0 := by
    intro y
    rw [Nat.testBit_zero]
    by_cases hy : y % 2 = 1
    · simp [hy]
    · have : y % 2 = 0 := by omega
      simp [this]
  have hb : h.testBit 0 = false := by
    rw [Nat.testBit_zero]; simp [hh]
  rw [e (x ^^^ h), e x, Nat.testBit_xor, hb]
  simp

theorem crc32c_bit_xor (x h : Nat) (hh : h % 2 = 0) :
    crc32c_bit (x ^^^ h) = crc32c_bit x ^^^ (h >>> 1) := by
  unfold crc32c_bit
  rw [xor_even_mod_two x h hh, shiftRight_xor]
  by_cases hx : x % 2 = 1
  · simp only [hx, if_true]
    rw [Nat.xor_assoc, Nat.xor_comm (h >>> 1), ← Nat.xor_assoc]
  · simp only [hx, if_false]

theorem crc32c_bits_xor (k : Nat) :
    ∀ x h : Nat, crc32c_bit^[k] (x ^^^ (h <<< k)) = crc32c_bit^[k] x ^^^ h := by
  induction k with
  | zero => intro x h; simp
  | succ k ih =>
    intro x h
    have hm : h <<< (k + 1) = 2 * (h <<< k) := by
      rw [Nat.shiftLeft_eq, Nat.shiftLeft_eq, Nat.pow_succ]
      ring
    have he : (h <<< (k + 1)) % 2 = 0 := by
      rw [hm]; omega
    have hs : (h <<< (k + 1)) >>> 1 = h <<< k := by
      rw [hm, Nat.shiftRight_eq_div_pow]
      omega
    rw [Function.iterate_succ_apply, crc32c_bit_xor _ _ he, hs, ih,
      Function.iterate_succ_apply]

theorem crc32c_split (crc b : Nat) (hb : b < 256) :
    crc ^^^ b = (((crc &&& 0xff) ^^^ b) % 256) ^^^ ((crc >>> 8) <<< 8) := by
  have e1 : (0xff : Nat) = 2 ^ 8 - 1 := by decide
  have e2 : (256 : Nat) = 2 ^ 8 := by decide
  rw [e1, e2]
  apply Nat.eq_of_testBit_eq
  intro i
  simp only [Nat.and_pow_two_sub_one_eq_mod, Nat.testBit_mod_two_pow, Nat.testBit_xor,
    Nat.testBit_shiftLeft, Nat.testBit_shiftRight]
  by_cases hi : i < 8
  · have : ¬ (i ≥ 8) := by omega
    simp [hi, this]
  · have hge : i ≥ 8 := by omega
    have hbi : b.testBit i = false := by
      apply Nat.testBit_eq_false_of_lt
      calc b < 2 ^ 8 := hb
        _ ≤ 2 ^ i := Nat.pow_le_pow_right (by decide) hge
    have e3 : 8 + (i - 8) = i := by omega
    simp [hi, hge, hbi, e3]

theorem crc32c_step_eq_byte (crc b : Nat) (hb : b < 256) :
    crc32c_step crc b = crc32c_byte crc b := by
  unfold crc32c_step crc32c_byte
  simp only []
  conv => rhs; rw [crc32c_split crc b hb]
  rw [crc32c_bits_xor 8, crc32c_tab_eq_bits, Nat.xor_comm]

theorem crc32c_fold_eq_bitwise (data : List Nat) :
    ∀ r : Nat, (∀ b ∈ data, b < 256) →
      data.foldl crc32c_step r = data.foldl crc32c_byte r := by
  induction data with
  | nil => intro r _; rfl
  | cons b tl ih =>
    intro r h
    rw [List.foldl_cons, List.foldl_cons, crc32c_step_eq_byte r b (h b (by simp))]
    exact ih _ (fun x hx => h x (List.mem_cons_of_mem _ hx))

set_option maxRecDepth 10000 in
/-- The bit-at-a-time definition gives the check value of CRC-32C. -/
theorem crc32c_bitwise_check_value :
    crc32c_bitwise 0 [0x31, 0x32, 0x33, 0x34, 0x35, 0x36, 0x37, 0x38, 0x39] = 0xE3069283 := by
  decide

/-- C32: the table-driven update equals the bit-at-a-time definition.  For
every `crc` and every byte sequence, `crc32c_update` equals the reflected CRC
computed one bit at a time with the polynomial 0x82F63B78, which is the bit
reflection of 0x1EDC6F41, with XOR 0xFFFFFFFF on entry and on exit; the `i`-th
table entry is eight such bit steps applied to `i`. -/
theorem crc32c_update_eq_bitwise (crc : Nat) (data : List Nat) (hd : ∀ b ∈ data, b < 256) :
    crc32c_update crc data = crc32c_bitwise crc data ∧
    reflect 32 0x1EDC6F41 = 0x82F63B78 ∧
    (∀ i : Nat, crc32c_tab i = crc32c_bit^[8] i) := by
  refine ⟨?_, by decide, crc32c_tab_eq_bits⟩
  unfold crc32c_update crc32c_bitwise
  rw [crc32c_fold_eq_bitwise data _ hd]

theorem crc32c_update_eq_bitwise_witness :
    crc32c_update 0 [0x31, 0x32, 0x33] = crc32c_bitwise 0 [0x31, 0x32, 0x33] ∧
    reflect 32 0x1EDC6F41 = 0x82F63B78 ∧
    (∀ i : Nat, crc32c_tab i = crc32c_bit^[8] i) :=
  crc32c_update_eq_bitwise 0 [0x31, 0x32, 0x33] (by decide)

theorem crc32c_bit_lt (c : Nat) (h : c < 2 ^ 32) : crc32c_bit c < 2 ^ 32 := by
  rw [← crc32c_tab_bit_eq]
  exact crc32c_tab_bit_lt c h

theorem crc32c_bit_odd_ge (c : Nat) (h : c < 2 ^ 32) :
    2 ^ 31 ≤ (c >>> 1) ^^^ 0x82F63B78 := by
  apply Nat.testBit_implies_ge
  rw [Nat.testBit_xor]
  have h1 : (c >>> 1).testBit 31 = false := by
    apply Nat.testBit_eq_false_of_lt
    rw [Nat.shiftRight_eq_div_pow]
    omega
  have h2 : (0x82F63B78 : Nat).testBit 31 = true := by decide
  rw [h1, h2]
  rfl

theorem crc32c_bit_inj (c1 c2 : Nat) (h1 : c1 < 2 ^ 32) (h2 : c2 < 2 ^ 32)
    (h : crc32c_bit c1 = crc32c_bit c2) : c1 = c2 := by
  have g1 := crc32c_bit_odd_ge c1 h1
  have g2 := crc32c_bit_odd_ge c2 h2
  have l1 : c1 >>> 1 < 2 ^ 31 := by rw [Nat.shiftRight_eq_div_pow]; omega
  have l2 : c2 >>> 1 < 2 ^ 31 := by rw [Nat.shiftRight_eq_div_pow]; omega
  have d1 : c1 >>> 1 = c1 / 2 := by rw [Nat.shiftRight_eq_div_pow]
  have d2 : c2 >>> 1 = c2 / 2 := by rw [Nat.shiftRight_eq_div_pow]
  unfold crc32c_bit at h
  by_cases o1 : c1 % 2 = 1 <;> by_cases o2 : c2 % 2 = 1
  · simp only [o1, o2, if_true] at h
    have := Nat.xor_left_injective h
    omega
  · simp only [o1, o2, if_true, if_false] at h
    omega
  · simp only [o1, o2, if_true, if_false] at h
    omega
  · simp only [o1, o2, if_false] at h
    omega

theorem crc32c_bits_lt (k : Nat) :
    ∀ c : Nat, c < 2 ^ 32 → crc32c_bit^[k] c < 2 ^ 32 := by
  induction k with
  | zero => intro c h; simpa using h
  | succ k ih =>
    intro c h
    rw [Function.iterate_succ_apply]
    exact ih _ (crc32c_bit_lt c h)

theorem crc32c_bits_inj (k : Nat) :
    ∀ c1 c2 : Nat, c1 < 2 ^ 32 → c2 < 2 ^ 32 →
      crc32c_bit^[k] c1 = crc32c_bit^[k] c2 → c1 = c2 := by
  induction k with
  | zero => intro c1 c2 _ _ h; simpa using h
  | succ k ih =>
    intro c1 c2 h1 h2 h
    rw [Function.iterate_succ_apply, Function.iterate_succ_apply] at h
    exact crc32c_bit_inj c1 c2 h1 h2 (ih _ _ (crc32c_bit_lt c1 h1) (crc32c_bit_lt c2 h2) h)

theorem crc32c_step_inj (c1 c2 b1 b2 : Nat) (h1 : c1 < 2 ^ 32) (h2 : c2 < 2 ^ 32)
    (hb1 : b1 < 256) (hb2 : b2 < 256) (h : crc32c_step c1 b1 = crc32c_step c2 b2) :
    c1 ^^^ b1 = c2 ^^^ b2 := by
  rw [crc32c_step_eq_byte c1 b1 hb1, crc32c_step_eq_byte c2 b2 hb2] at h
  unfold crc32c_byte at h
  have hb1w : b1 < 2 ^ 32 := by omega
  have hb2w : b2 < 2 ^ 32 := by omega
  exact crc32c_bits_inj 8 _ _ (Nat.xor_lt_two_pow h1 hb1w) (Nat.xor_lt_two_pow h2 hb2w) h

theorem crc32c_fold_ne (post : List Nat) :
    ∀ r1 r2 : Nat, r1 < 2 ^ 32 → r2 < 2 ^ 32 → (∀ b ∈ post, b < 256) → r1 ≠ r2 →
      post.foldl crc32c_step r1 ≠ post.foldl crc32c_step r2 := by
  induction post with
  | nil => intro r1 r2 _ _ _ h; simpa using h
  | cons b tl ih =>
    intro r1 r2 h1 h2 hb hne
    rw [List.foldl_cons, List.foldl_cons]
    apply ih _ _ (crc32c_step_lt r1 b h1) (crc32c_step_lt r2 b h2)
      (fun x hx => hb x (List.mem_cons_of_mem _ hx))
    intro h
    have hx := crc32c_step_inj r1 r2 b b h1 h2 (hb b (by simp)) (hb b (by simp)) h
    exact hne (Nat.xor_left_injective hx)

/-- C37: the checksum detects every single-bit error.  For every 32-bit
`crc`, every non-empty message (the bytes `pre`, then the byte `b`, then the
bytes `post`) and every bit position `j` of `b`, flipping that one bit
changes the value of `crc32c_update`. -/
theorem crc32c_single_bit_error (crc : Nat) (pre post : List Nat) (b j : Nat)
    (hcrc : crc < 2 ^ 32) (hb : b < 256)
    (hpost : ∀ x ∈ post, x < 256) (hj : j < 8) :
    crc32c_update crc (pre ++ (b ^^^ 2 ^ j) :: post) ≠ crc32c_update crc (pre ++ b :: post) := by
  have hf : (0xffffffff : Nat) < 2 ^ 32 := by decide
  have hr := crc32c_fold_lt pre (crc ^^^ 0xffffffff) (Nat.xor_lt_two_pow hcrc hf)
  have hj2 : 2 ^ j < 2 ^ 8 := Nat.pow_lt_pow_right (by decide) hj
  have hb2 : b ^^^ 2 ^ j < 256 := Nat.xor_lt_two_pow (by omega : b < 2 ^ 8) hj2
  have hne : b ^^^ 2 ^ j ≠ b := by
    intro h
    have h0 : b ^^^ 2 ^ j = b ^^^ 0 := by rw [Nat.xor_zero]; exact h
    have := Nat.xor_right_injective h0
    have hp : 0 < 2 ^ j := Nat.two_pow_pos j
    omega
  unfold crc32c_update
  rw [List.foldl_append, List.foldl_append, List.foldl_cons, List.foldl_cons]
  intro h
  have h2 := Nat.xor_left_injective h
  revert h2
  apply crc32c_fold_ne post _ _ (crc32c_step_lt _ _ hr) (crc32c_step_lt _ _ hr) hpost
  intro h3
  have hx := crc32c_step_inj _ _ _ _ hr hr hb2 hb h3
  exact hne (Nat.xor_right_injective hx)

theorem crc32c_single_bit_error_witness :
    crc32c_update 0 ([0x31] ++ (0x32 ^^^ 2 ^ 7) :: [0x33])
      ≠ crc32c_update 0 ([0x31] ++ 0x32 :: [0x33]) :=
  crc32c_single_bit_error 0 [0x31] [0x33] 0x32 7 (by decide) (by decide) (by decide)
    (by decide)

theorem cobs_enc_trace_snoc (m : Nat → Nat) (l : List Nat) (v : Nat) :
    (cobs_enc_trace m (l ++ [v])).2
      = (cobs_enc_trace m l).2 ++ cobs_enc_step_stores (cobs_enc_loop m l) v := by
  rw [← cobs_enc_trace_state]
  unfold cobs_enc_trace
  rw [List.foldl_append]
  rfl

/-- Every output index `cobs_enc` stores to is at most `cobs_enc_size(n)`, and
below it when `n` is not a multiple of 254. -/
theorem cobs_enc_stores_le_size (m : Nat → Nat) (inp : List Nat) (j : Nat)
    (hj : j ∈ (cobs_enc_trace m inp).2) :
    j ≤ cobs_enc_size inp.length ∧ (inp.length % 254 ≠ 0 → j < cobs_enc_size inp.length) := by
  have hle := trace_stores_le inp (cobs_enc_init m, [0]) _ (encRel_init m)
    (by intro j hj; simp at hj; omega) j hj
  obtain ⟨f, h1, h2, _, _⟩ := blkCount_loop inp
  unfold blk_loop at h1
  unfold cobs_enc_size
  have hf : 254 * f ≤ inp.length := by omega
  refine ⟨by omega, fun h => by omega⟩

/-- When the input ends with a run of 254 non-zero bytes that fills a block,
`cobs_enc` stores the code byte placeholder of the next block one position
past the frame. -/
theorem cobs_enc_trace_full_block (m : Nat → Nat) (l : List Nat) (v : Nat)
    (hl : l.length = 253) (hnz : ∀ x ∈ l, x ≠ 0) (hv : v ≠ 0) :
    255 ∈ (cobs_enc_trace m (l ++ [v])).2 := by
  rw [cobs_enc_trace_snoc]
  apply List.mem_append_right
  obtain ⟨h1, _, _, h4, _, _, _⟩ := encRel_loop m l
  obtain ⟨b1, b2⟩ := blk_run_open l [] [] false hnz (by simp [hl])
  unfold blk_loop at h1 h4
  rw [b1] at h1
  rw [b2] at h4
  simp only [List.length_nil] at h1
  rw [h1] at h4
  simp only [List.nil_append, hl] at h4
  unfold cobs_enc_step_stores
  simp only [hv, if_false, h1, h4, store_same, Nat.zero_add]
  decide

/-- C33 fails on the code: for an input of 254 non-zero bytes `cobs_enc`
stores the placeholder of a new block at output index 255, which is
`cobs_enc_size(254)`, one past a buffer of that size; and for the empty input
it stores at index 0 while `cobs_enc_size(0)` is 0. -/
theorem cobs_enc_placeholder_overrun (m : Nat → Nat) :
    255 ∈ (cobs_enc_trace m (List.replicate 253 1 ++ [1])).2 ∧
    (List.replicate 253 1 ++ [1]).length = 254 ∧
    cobs_enc_size 254 = 255 ∧
    0 ∈ (cobs_enc_trace m []).2 ∧ cobs_enc_size 0 = 0 := by
  refine ⟨?_, by rw [List.length_append, List.length_replicate]; rfl, by decide,
    by simp [cobs_enc_trace], by decide⟩
  apply cobs_enc_trace_full_block m _ 1 (List.length_replicate 253 1) _ (by decide)
  intro x hx
  rw [List.eq_of_mem_replicate hx]
  decide

theorem pcg32_geom_pow (k : Nat) :
    6364136223846793004 * pcg32_geom k + 1 = 6364136223846793005 ^ k := by
  induction k with
  | zero => simp [pcg32_geom]
  | succ k ih =>
    rw [pcg32_geom, Nat.pow_succ, ← ih]
    ring

theorem pcg32_geom_add (j k : Nat) :
    pcg32_geom (j + k) = 6364136223846793005 ^ k * pcg32_geom j + pcg32_geom k := by
  induction k with
  | zero => simp [pcg32_geom]
  | succ k ih =>
    rw [← Nat.add_assoc, pcg32_geom, ih, pcg32_geom, Nat.pow_succ]
    ring

theorem pcg32_mult_pow_mod (k : Nat) : 6364136223846793005 ^ k % 4 = 1 := by
  rw [Nat.pow_mod]
  have : 6364136223846793005 % 4 = 1 := by decide
  rw [this, Nat.one_pow]

theorem pcg32_geom_double (j : Nat) :
    pcg32_geom (2 * j) = pcg32_geom j * (2 * ((6364136223846793005 ^ j + 1) / 2)) ∧
    ((6364136223846793005 ^ j + 1) / 2) % 2 = 1 := by
  have h := pcg32_mult_pow_mod j
  have e : 2 * ((6364136223846793005 ^ j + 1) / 2) = 6364136223846793005 ^ j + 1 := by omega
  refine ⟨?_, by omega⟩
  rw [e, Nat.two_mul, pcg32_geom_add]
  ring

theorem pcg32_geom_odd (j : Nat) : pcg32_geom (2 * j + 1) % 2 = 1 := by
  rw [pcg32_geom, (pcg32_geom_double j).1]
  generalize (6364136223846793005 ^ j + 1) / 2 = m
  have : 6364136223846793005 * (pcg32_geom j * (2 * m))
      = 2 * (6364136223846793005 * (pcg32_geom j * m)) := by ring
  rw [this]
  omega

theorem pcg32_geom_dvd (n : Nat) : ∀ k : Nat, 2 ^ n ∣ pcg32_geom k ↔ 2 ^ n ∣ k := by
  induction n with
  | zero => intro k; simp
  | succ n ih =>
    intro k
    rcases Nat.even_or_odd' k with ⟨j, hj | hj⟩
    · subst hj
      obtain ⟨h1, h2⟩ := pcg32_geom_double j
      rw [h1]
      generalize (6364136223846793005 ^ j + 1) / 2 = m at h2
      have hcop : Nat.Coprime (2 ^ n) m :=
        Nat.Coprime.pow_left n (Nat.coprime_two_left.mpr (Nat.odd_iff.mpr h2))
      have e : pcg32_geom j * (2 * m) = 2 * (pcg32_geom j * m) := by ring
      rw [e, Nat.pow_succ, Nat.mul_comm (2 ^ n) 2,
        Nat.mul_dvd_mul_iff_left (by decide : 0 < 2),
        Nat.mul_dvd_mul_iff_left (by decide : 0 < 2), ← ih j]
      constructor
      · intro h; exact hcop.dvd_of_dvd_mul_right h
      · intro h; exact Dvd.dvd.mul_right h m
    · subst hj
      have h1 := pcg32_geom_odd j
      have h2 : (2 : Nat) ∣ 2 ^ (n + 1) := ⟨2 ^ n, by rw [Nat.pow_succ]; ring⟩
      constructor
      · intro h
        have := Nat.dvd_trans h2 h
        omega
      · intro h
        have := Nat.dvd_trans h2 h
        omega

theorem pcg32_draws_state (k : Nat) :
    ∀ rng : pcg32_random_t,
      (pcg32_draws k rng).2.state
        ≡ rng.state + pcg32_geom k * (6364136223846793004 * rng.state + rng.inc)
          [MOD 2 ^ 64] := by
  induction k with
  | zero => intro rng; simp [pcg32_draws, pcg32_geom]; exact Nat.ModEq.refl _
  | succ k ih =>
    intro rng
    have h := ih (pcg32_random_r rng).1
    have hs : (pcg32_random_r rng).1.state
        ≡ rng.state * 6364136223846793005 + rng.inc [MOD 2 ^ 64] := by
      show (rng.state * 6364136223846793005 + rng.inc) % 2 ^ 64 ≡ _ [MOD 2 ^ 64]
      exact Nat.mod_modEq _ _
    have hi : (pcg32_random_r rng).1.inc = rng.inc := rfl
    rw [hi] at h
    show (pcg32_draws k (pcg32_random_r rng).1).2.state ≡ _ [MOD 2 ^ 64]
    refine h.trans ?_
    have h2 : (pcg32_random_r rng).1.state
        + pcg32_geom k * (6364136223846793004 * (pcg32_random_r rng).1.state + rng.inc)
        ≡ (rng.state * 6364136223846793005 + rng.inc)
        + pcg32_geom k * (6364136223846793004 * (rng.state * 6364136223846793005 + rng.inc)
            + rng.inc) [MOD 2 ^ 64] :=
      Nat.ModEq.add hs (Nat.ModEq.mul_left _ (Nat.ModEq.add_right _ (Nat.ModEq.mul_left _ hs)))
    refine h2.trans ?_
    rw [pcg32_geom]
    have e : (rng.state * 6364136223846793005 + rng.inc)
        + pcg32_geom k * (6364136223846793004 * (rng.state * 6364136223846793005 + rng.inc)
            + rng.inc)
        = rng.state + (6364136223846793005 * pcg32_geom k + 1)
            * (6364136223846793004 * rng.state + rng.inc) := by ring
    rw [e]

theorem pcg32_draws_state_lt (k : Nat) :
    ∀ rng : pcg32_random_t, rng.state < 2 ^ 64 → (pcg32_draws k rng).2.state < 2 ^ 64 := by
  induction k with
  | zero => intro rng h; exact h
  | succ k ih =>
    intro rng _
    show (pcg32_draws k (pcg32_random_r rng).1).2.state < 2 ^ 64
    apply ih
    show (rng.state * 6364136223846793005 + rng.inc) % 2 ^ 64 < 2 ^ 64
    exact Nat.mod_lt _ (Nat.two_pow_pos 64)

/-- Full period of the state update: with an odd increment `d`-factor, the
states `s + pcg32_geom k * d` for `k < 2^64` are pairwise distinct modulo
`2^64`. -/
theorem pcg32_period_inj (s d k1 k2 : Nat) (hd : d % 2 = 1) (h1 : k1 < 2 ^ 64)
    (h2 : k2 < 2 ^ 64) (hle : k1 ≤ k2)
    (h : (s + pcg32_geom k1 * d) % 2 ^ 64 = (s + pcg32_geom k2 * d) % 2 ^ 64) : k1 = k2 := by
  have hm : pcg32_geom k1 * d ≡ pcg32_geom k2 * d [MOD 2 ^ 64] :=
    Nat.ModEq.add_left_cancel' s h
  have hg : pcg32_geom k2
      = 6364136223846793005 ^ k1 * pcg32_geom (k2 - k1) + pcg32_geom k1 := by
    rw [← pcg32_geom_add]
    congr 1
    omega
  have hle2 : pcg32_geom k1 * d ≤ pcg32_geom k2 * d := by
    rw [hg]
    exact Nat.mul_le_mul_right _ (Nat.le_add_left _ _)
  have hdvd := (Nat.modEq_iff_dvd' hle2).mp hm
  have e : pcg32_geom k2 * d - pcg32_geom k1 * d
      = pcg32_geom (k2 - k1) * (6364136223846793005 ^ k1 * d) := by
    rw [hg, Nat.add_mul, Nat.add_sub_cancel]
    ring
  rw [e] at hdvd
  have hodd : (6364136223846793005 ^ k1 * d) % 2 = 1 := by
    have := pcg32_mult_pow_mod k1
    rw [Nat.mul_mod]
    have h3 : 6364136223846793005 ^ k1 % 2 = 1 := by omega
    rw [h3, hd]
  have hcop : Nat.Coprime (2 ^ 64) (6364136223846793005 ^ k1 * d) :=
    Nat.Coprime.pow_left 64 (Nat.coprime_two_left.mpr (Nat.odd_iff.mpr hodd))
  have h4 := (pcg32_geom_dvd 64 (k2 - k1)).mp (hcop.dvd_of_dvd_mul_right hdvd)
  have h5 := Nat.eq_zero_of_dvd_of_lt h4 (by omega)
  omega

theorem pcg32_period_surj (s d t : Nat) (hd : d % 2 = 1) (ht : t < 2 ^ 64) :
    ∃ k, k < 2 ^ 64 ∧ (s + pcg32_geom k * d) % 2 ^ 64 = t := by
  let f : Fin (2 ^ 64) → Fin (2 ^ 64) :=
    fun k => ⟨(s + pcg32_geom k.val * d) % 2 ^ 64, Nat.mod_lt _ (Nat.two_pow_pos 64)⟩
  have hinj : Function.Injective f := by
    intro a b hab
    have h : (s + pcg32_geom a.val * d) % 2 ^ 64 = (s + pcg32_geom b.val * d) % 2 ^ 64 :=
      congrArg Fin.val hab
    apply Fin.ext
    rcases Nat.le_total a.val b.val with hle | hle
    · exact pcg32_period_inj s d _ _ hd a.isLt b.isLt hle h
    · exact (pcg32_period_inj s d _ _ hd b.isLt a.isLt hle h.symm).symm
  obtain ⟨k, hk⟩ := (Finite.injective_iff_surjective.mp hinj) ⟨t, ht⟩
  exact ⟨k.val, k.isLt, congrArg Fin.val hk⟩

theorem pcg32_reach_state (rng : pcg32_random_t) (t : Nat) (hinc : rng.inc % 2 = 1)
    (ht : t < 2 ^ 64) :
    ∃ j, j ≤ 2 ^ 64 ∧ (pcg32_draws j rng).2.state = t := by
  have hlt : (pcg32_random_r rng).1.state < 2 ^ 64 := by
    show (rng.state * 6364136223846793005 + rng.inc) % 2 ^ 64 < 2 ^ 64
    exact Nat.mod_lt _ (Nat.two_pow_pos 64)
  have hi : (pcg32_random_r rng).1.inc = rng.inc := rfl
  have hd : (6364136223846793004 * (pcg32_random_r rng).1.state
      + (pcg32_random_r rng).1.inc) % 2 = 1 := by
    rw [hi]; omega
  obtain ⟨k, hk, hkt⟩ := pcg32_period_surj (pcg32_random_r rng).1.state _ t hd ht
  refine ⟨k + 1, by omega, ?_⟩
  show (pcg32_draws k (pcg32_random_r rng).1).2.state = t
  have h1 := pcg32_draws_state k (pcg32_random_r rng).1
  have h2 := pcg32_draws_state_lt k (pcg32_random_r rng).1 hlt
  unfold Nat.ModEq at h1
  rw [Nat.mod_eq_of_lt h2, hkt] at h1
  exact h1

theorem pcg32_boundedrand_loop_accept (bound threshold : Nat) (j : Nat) :
    ∀ rng : pcg32_random_t,
      threshold ≤ (pcg32_random_r (pcg32_draws j rng).2).2 →
      ∃ r, ∀ fuel, j + 1 ≤ fuel → pcg32_boundedrand_loop bound threshold fuel rng = some r := by
  induction j with
  | zero =>
    intro rng h
    refine ⟨((pcg32_random_r rng).1, (pcg32_random_r rng).2 % bound), ?_⟩
    intro fuel hf
    obtain ⟨f, rfl⟩ : ∃ f, fuel = f + 1 := ⟨fuel - 1, by omega⟩
    have h2 : threshold ≤ (pcg32_random_r rng).2 := h
    simp [pcg32_boundedrand_loop, h2]
  | succ j ih =>
    intro rng h
    by_cases h2 : threshold ≤ (pcg32_random_r rng).2
    · refine ⟨((pcg32_random_r rng).1, (pcg32_random_r rng).2 % bound), ?_⟩
      intro fuel hf
      obtain ⟨f, rfl⟩ : ∃ f, fuel = f + 1 := ⟨fuel - 1, by omega⟩
      simp [pcg32_boundedrand_loop, h2]
    · obtain ⟨r, hr⟩ := ih (pcg32_random_r rng).1 h
      refine ⟨r, ?_⟩
      intro fuel hf
      obtain ⟨f, rfl⟩ : ∃ f, fuel = f + 1 := ⟨fuel - 1, by omega⟩
      have := hr f (by omega)
      simp [pcg32_boundedrand_loop, h2, this]

theorem pcg32_output_high (rng : pcg32_random_t) (h : rng.state = 2 ^ 58) :
    (pcg32_random_r rng).2 = 2147491840 := by
  unfold pcg32_random_r
  simp only [h]
  decide

theorem pcg32_threshold_lt (bound : Nat) (h1 : 1 ≤ bound) (h2 : bound < 2 ^ 32) :
    pcg32_threshold bound < 2 ^ 31 := by
  rw [pcg32_threshold_eq bound h1 h2]
  by_cases hb : bound ≤ 2 ^ 31
  · exact Nat.lt_of_lt_of_le (Nat.mod_lt _ (by omega)) hb
  · have hle : bound ≤ 2 ^ 32 := by omega
    rw [Nat.mod_eq_sub_mod hle]
    have := Nat.mod_le (2 ^ 32 - bound) bound
    omega

/-- C34: for every generator whose `inc` is odd and every `bound` with
`1 ≤ bound < 2^32`, `pcg32_boundedrand_r` returns after finitely many draws:
some number `n ≤ 2^64 + 1` of loop iterations is enough, and with at least
that many iterations allowed the call returns one and the same result, which
is below `bound`. -/
theorem pcg32_boundedrand_r_terminates (rng : pcg32_random_t) (bound : Nat)
    (hinc : rng.inc % 2 = 1) (hb1 : 1 ≤ bound) (hb2 : bound < 2 ^ 32) :
    ∃ n r, n ≤ 2 ^ 64 + 1 ∧ r.2 < bound ∧
      ∀ fuel, n ≤ fuel → pcg32_boundedrand_r fuel rng bound = some r := by
  obtain ⟨j, hj, hst⟩ := pcg32_reach_state rng (2 ^ 58) hinc (by decide)
  have hout := pcg32_output_high _ hst
  have hth := pcg32_threshold_lt bound hb1 hb2
  obtain ⟨r, hr⟩ := pcg32_boundedrand_loop_accept bound (pcg32_threshold bound) j rng
    (by rw [hout]; omega)
  refine ⟨j + 1, r, by omega, ?_, hr⟩
  exact pcg32_boundedrand_loop_lt bound _ hb1 (j + 1) rng r (hr (j + 1) (Nat.le_refl _))

theorem pcg32_boundedrand_r_terminates_witness :
    ∃ n r, n ≤ 2 ^ 64 + 1 ∧ r.2 < 4294967295 ∧
      ∀ fuel, n ≤ fuel → pcg32_boundedrand_r fuel PCG32_INITIALIZER 4294967295 = some r :=
  pcg32_boundedrand_r_terminates PCG32_INITIALIZER 4294967295 (by decide) (by decide)
    (by decide)

theorem fp_fields_pack (bias mb s e m : Nat) (hs : s < 2) (he : e < 2 * bias + 2)
    (hm : m < 2 ^ mb) :
    fp_mant mb (fp_pack bias mb s e m) = m ∧
    fp_exp bias mb (fp_pack bias mb s e m) = e ∧
    fp_sign bias mb (fp_pack bias mb s e m) = s := by
  have hP : 0 < 2 ^ mb := Nat.two_pow_pos mb
  have h1 : ((s * (2 * bias + 2) + e) * 2 ^ mb + m) / 2 ^ mb = s * (2 * bias + 2) + e := by
    rw [Nat.add_comm, Nat.add_mul_div_right _ _ hP, Nat.div_eq_of_lt hm, Nat.zero_add]
  refine ⟨?_, ?_, ?_⟩
  · unfold fp_mant fp_pack
    rw [Nat.add_comm, Nat.add_mul_mod_self_right, Nat.mod_eq_of_lt hm]
  · unfold fp_exp fp_pack
    rw [h1, Nat.add_comm, Nat.add_mul_mod_self_right, Nat.mod_eq_of_lt he]
  · unfold fp_sign fp_pack
    rw [← Nat.div_div_eq_div_mul, h1, Nat.add_comm,
      Nat.add_mul_div_right _ _ (by omega : 0 < 2 * bias + 2), Nat.div_eq_of_lt he,
      Nat.zero_add, Nat.mod_eq_of_lt hs]

theorem fp_pack_fields (bias mb x : Nat) (hx : x < 2 * ((2 * bias + 2) * 2 ^ mb)) :
    fp_pack bias mb (fp_sign bias mb x) (fp_exp bias mb x) (fp_mant mb x) = x := by
  unfold fp_pack fp_sign fp_exp fp_mant
  have hP : 0 < 2 ^ mb := Nat.two_pow_pos mb
  have h1 : x / (2 ^ mb * (2 * bias + 2)) < 2 := by
    rw [Nat.div_lt_iff_lt_mul (Nat.mul_pos hP (by omega))]
    calc x < 2 * ((2 * bias + 2) * 2 ^ mb) := hx
      _ = 2 * (2 ^ mb * (2 * bias + 2)) := by ring
  rw [Nat.mod_eq_of_lt h1, ← Nat.div_div_eq_div_mul]
  have h2 := Nat.div_add_mod (x / 2 ^ mb) (2 * bias + 2)
  have h3 := Nat.div_add_mod x (2 ^ mb)
  have h4 : x / 2 ^ mb / (2 * bias + 2) * (2 * bias + 2) + x / 2 ^ mb % (2 * bias + 2)
      = x / 2 ^ mb := by
    rw [Nat.mul_comm]; exact h2
  rw [h4, Nat.mul_comm]
  exact h3

theorem fp_pack_lt (bias mb s e m : Nat) (hs : s < 2) (he : e < 2 * bias + 2)
    (hm : m < 2 ^ mb) : fp_pack bias mb s e m < 2 * ((2 * bias + 2) * 2 ^ mb) := by
  unfold fp_pack
  have h1 : s * (2 * bias + 2) + e + 1 ≤ 2 * (2 * bias + 2) := by
    have : s ≤ 1 := by omega
    have := Nat.mul_le_mul_right (2 * bias + 2) this
    omega
  have h2 := Nat.mul_le_mul_right (2 ^ mb) h1
  have h3 : (s * (2 * bias + 2) + e + 1) * 2 ^ mb
      = (s * (2 * bias + 2) + e) * 2 ^ mb + 2 ^ mb := by ring
  have h4 : 2 * (2 * bias + 2) * 2 ^ mb = 2 * ((2 * bias + 2) * 2 ^ mb) := by ring
  omega

theorem fp_fields_lt (bias mb x : Nat) :
    fp_mant mb x < 2 ^ mb ∧ fp_exp bias mb x < 2 * bias + 2 ∧ fp_sign bias mb x < 2 := by
  refine ⟨Nat.mod_lt _ (Nat.two_pow_pos mb), Nat.mod_lt _ (by omega), Nat.mod_lt _ (by decide)⟩

theorem fp_msb_spec (n : Nat) :
    ∀ m : Nat, 0 < m → m < 2 ^ n →
      fp_msb n m < n ∧ 2 ^ fp_msb n m ≤ m ∧ m < 2 ^ (fp_msb n m + 1) := by
  induction n with
  | zero => intro m h0 h1; simp at h1; omega
  | succ n ih =>
    intro m h0 h1
    unfold fp_msb
    by_cases h : 2 ^ n ≤ m
    · rw [if_pos h]
      exact ⟨by omega, h, h1⟩
    · rw [if_neg h]
      obtain ⟨a, b, c⟩ := ih m h0 (by omega)
      exact ⟨by omega, b, c⟩

theorem fp_mul_pow_lt (m a b : Nat) (h : m < 2 ^ a) (hab : a ≤ b) :
    m * 2 ^ (b - a) < 2 ^ b := by
  have h1 : m * 2 ^ (b - a) < 2 ^ a * 2 ^ (b - a) :=
    Nat.mul_lt_mul_of_pos_right h (Nat.two_pow_pos _)
  rw [← Nat.pow_add] at h1
  have e : a + (b - a) = b := by omega
  rwa [e] at h1

/-- The widening conversion is exact: the binary64 pattern it gives stands for
the same number. -/
theorem fp_value_widen (bias mb x : Nat) (hmb : mb ≤ 52) (hbm : bias + mb ≤ 1023) :
    fp_value 1023 52 (fp_widen bias mb x) = fp_value bias mb x := by
  obtain ⟨hm, he, hs⟩ := fp_fields_lt bias mb x
  have hmw : fp_mant mb x * 2 ^ (52 - mb) < 2 ^ 52 := fp_mul_pow_lt _ _ _ hm hmb
  unfold fp_widen
  by_cases h1 : fp_exp bias mb x = 2 * bias + 1
  · simp only [h1, if_true]
    obtain ⟨f1, f2, f3⟩ := fp_fields_pack 1023 52 (fp_sign bias mb x) 2047
      (fp_mant mb x * 2 ^ (52 - mb)) hs (by decide) hmw
    unfold fp_value
    rw [f1, f2, f3]
    simp only [h1, if_true]
    have hp : 0 < 2 ^ (52 - mb) := Nat.two_pow_pos _
    by_cases hz : fp_mant mb x = 0
    · simp [hz]
    · have : fp_mant mb x * 2 ^ (52 - mb) ≠ 0 := Nat.mul_ne_zero hz (by omega)
      simp [hz, this]
  · simp only [h1, if_false]
    by_cases h2 : fp_exp bias mb x = 0
    · simp only [h2, if_true]
      by_cases hz : fp_mant mb x = 0
      · simp only [hz, if_true]
        obtain ⟨f1, f2, f3⟩ := fp_fields_pack 1023 52 (fp_sign bias mb x) 0 0 hs (by decide)
          (by decide)
        unfold fp_value
        rw [f1, f2, f3]
        have hne : ¬ ((0 : Nat) = 2 * bias + 1) := by omega
        simp [h2, hz, hne]
      · simp only [hz, if_false]
        obtain ⟨k1, k2, k3⟩ := fp_msb_spec mb (fp_mant mb x) (by omega) hm
        generalize fp_msb mb (fp_mant mb x) = k at k1 k2 k3
        have hr : fp_mant mb x - 2 ^ k < 2 ^ k := by
          rw [Nat.pow_succ] at k3; omega
        have hrw : (fp_mant mb x - 2 ^ k) * 2 ^ (52 - k) < 2 ^ 52 :=
          fp_mul_pow_lt _ _ _ hr (by omega)
        obtain ⟨f1, f2, f3⟩ := fp_fields_pack 1023 52 (fp_sign bias mb x)
          (1024 + k - bias - mb) ((fp_mant mb x - 2 ^ k) * 2 ^ (52 - k)) hs (by omega) hrw
        unfold fp_value
        rw [f1, f2, f3]
        have e1 : ¬ (1024 + k - bias - mb = 2 * 1023 + 1) := by omega
        have e2 : ¬ (1024 + k - bias - mb = 0) := by omega
        have e3 : ¬ ((0 : Nat) = 2 * bias + 1) := by omega
        simp only [e1, e2, h2, e3, if_false, if_true]
        have e4 : 1074 + (1024 + k - bias - mb) - 1023 - 52 = 1023 + k - bias - mb := by omega
        have e5 : (2 : Nat) ^ 52 = 2 ^ k * 2 ^ (52 - k) := by
          rw [← Nat.pow_add]
          have : k + (52 - k) = 52 := by omega
          rw [this]
        have e6 : (52 - k) + (1023 + k - bias - mb) = 1075 - bias - mb := by omega
        have e7 : 2 ^ k + (fp_mant mb x - 2 ^ k) = fp_mant mb x := by omega
        have key : (2 ^ 52 + (fp_mant mb x - 2 ^ k) * 2 ^ (52 - k))
            * 2 ^ (1074 + (1024 + k - bias - mb) - 1023 - 52)
            = fp_mant mb x * 2 ^ (1075 - bias - mb) := by
          rw [e4, e5, ← Nat.add_mul, e7, Nat.mul_assoc, ← Nat.pow_add, e6]
        rw [key]
    · simp only [h2, if_false]
      obtain ⟨f1, f2, f3⟩ := fp_fields_pack 1023 52 (fp_sign bias mb x)
        (fp_exp bias mb x + 1023 - bias) (fp_mant mb x * 2 ^ (52 - mb)) hs (by omega) hmw
      unfold fp_value
      rw [f1, f2, f3]
      have e1 : ¬ (fp_exp bias mb x + 1023 - bias = 2 * 1023 + 1) := by omega
      have e2 : ¬ (fp_exp bias mb x + 1023 - bias = 0) := by omega
      simp only [e1, e2, h1, h2, if_false]
      have e4 : 1074 + (fp_exp bias mb x + 1023 - bias) - 1023 - 52
          = (1022 + fp_exp bias mb x - bias) := by omega
      have e5 : (2 : Nat) ^ 52 = 2 ^ mb * 2 ^ (52 - mb) := by
        rw [← Nat.pow_add]
        have : mb + (52 - mb) = 52 := by omega
        rw [this]
      have e6 : (52 - mb) + (1022 + fp_exp bias mb x - bias)
          = 1074 + fp_exp bias mb x - bias - mb := by omega
      have key : (2 ^ 52 + fp_mant mb x * 2 ^ (52 - mb))
          * 2 ^ (1074 + (fp_exp bias mb x + 1023 - bias) - 1023 - 52)
          = (2 ^ mb + fp_mant mb x) * 2 ^ (1074 + fp_exp bias mb x - bias - mb) := by
        rw [e4, e5, ← Nat.add_mul, Nat.mul_assoc, ← Nat.pow_add, e6]
      rw [key]

theorem fp_scaled_lt (a b p q : Nat) (ha : a < 2 ^ 53) (hb : 2 ^ 52 ≤ b) (hpq : p < q) :
    a * 2 ^ p < b * 2 ^ q := by
  have e : q = p + (q - p) := by omega
  have h2 : 2 ≤ 2 ^ (q - p) := by
    have : 2 ^ 1 ≤ 2 ^ (q - p) := Nat.pow_le_pow_right (by decide) (by omega)
    simpa using this
  have h3 : a < b * 2 ^ (q - p) := by
    have := Nat.mul_le_mul hb h2
    omega
  have h4 : a * 2 ^ p < b * 2 ^ (q - p) * 2 ^ p :=
    Nat.mul_lt_mul_of_pos_right h3 (Nat.two_pow_pos p)
  have h5 : b * 2 ^ q = b * 2 ^ (q - p) * 2 ^ p := by
    rw [Nat.mul_assoc, ← Nat.pow_add]
    have : q - p + p = q := by omega
    rw [this]
  rw [h5]
  exact h4

theorem fp_scaled_inj (a b p q : Nat) (ha : 2 ^ 52 ≤ a) (ha2 : a < 2 ^ 53) (hb : 2 ^ 52 ≤ b)
    (hb2 : b < 2 ^ 53) (h : a * 2 ^ p = b * 2 ^ q) : p = q ∧ a = b := by
  rcases Nat.lt_trichotomy p q with hlt | heq | hgt
  · have := fp_scaled_lt a b p q ha2 hb hlt
    omega
  · subst heq
    exact ⟨rfl, Nat.eq_of_mul_eq_mul_right (Nat.two_pow_pos p) h⟩
  · have := fp_scaled_lt b a q p hb2 ha hgt
    omega

/-- Two binary64 patterns that stand for the same number, not a NaN, are the
same pattern. -/
theorem fp_value_double_inj (d1 d2 : Nat) (h1 : d1 < 2 ^ 64) (h2 : d2 < 2 ^ 64)
    (hv : fp_value 1023 52 d1 = fp_value 1023 52 d2)
    (hn : fp_value 1023 52 d1 ≠ fp_num.nan) : d1 = d2 := by
  obtain ⟨m1, e1, s1⟩ := fp_fields_lt 1023 52 d1
  obtain ⟨m2, e2, s2⟩ := fp_fields_lt 1023 52 d2
  have hb : (2 : Nat) ^ 64 = 2 * ((2 * 1023 + 2) * 2 ^ 52) := by decide
  have p1 := fp_pack_fields 1023 52 d1 (by omega)
  have p2 := fp_pack_fields 1023 52 d2 (by omega)
  have hsign : ∀ a b : Nat, a < 2 → b < 2 → decide (a = 1) = decide (b = 1) → a = b := by
    intro a b ha hb h
    by_cases h3 : a = 1
    · have : b = 1 := by simpa [h3] using h
      omega
    · have : ¬ (b = 1) := by simpa [h3] using h
      omega
  suffices hf : fp_sign 1023 52 d1 = fp_sign 1023 52 d2 ∧ fp_exp 1023 52 d1 = fp_exp 1023 52 d2
      ∧ fp_mant 52 d1 = fp_mant 52 d2 by
    rw [← p1, ← p2, hf.1, hf.2.1, hf.2.2]
  unfold fp_value at hv hn
  generalize fp_sign 1023 52 d1 = sa at *
  generalize fp_sign 1023 52 d2 = sb at *
  generalize fp_exp 1023 52 d1 = ea at *
  generalize fp_exp 1023 52 d2 = eb at *
  generalize fp_mant 52 d1 = ma at *
  generalize fp_mant 52 d2 = mb at *
  have x0 : (1075 : Nat) - 1023 - 52 = 0 := by decide
  by_cases a1 : ea = 2 * 1023 + 1
  · simp only [a1, if_true] at hv hn
    by_cases a2 : ma = 0
    · simp only [a2, if_true] at hv
      by_cases b1 : eb = 2 * 1023 + 1
      · simp only [b1, if_true] at hv
        by_cases b2 : mb = 0
        · simp only [b2, if_true, fp_num.inf.injEq] at hv
          exact ⟨hsign _ _ s1 s2 hv, by omega, by omega⟩
        · simp [b2] at hv
      · simp only [b1, if_false] at hv
        by_cases b3 : eb = 0 <;> simp [b3] at hv
    · simp [a2] at hn
  · simp only [a1, if_false] at hv
    by_cases b1 : eb = 2 * 1023 + 1
    · simp only [b1, if_true] at hv
      by_cases a3 : ea = 0 <;> by_cases b2 : mb = 0 <;> simp [a3, b2] at hv
    · simp only [b1, if_false] at hv
      by_cases a3 : ea = 0
      · by_cases b3 : eb = 0
        · simp only [a3, b3, if_true, fp_num.fin.injEq, x0, Nat.pow_zero, Nat.mul_one] at hv
          exact ⟨hsign _ _ s1 s2 hv.1, by omega, hv.2⟩
        · simp only [a3, b3, if_true, if_false, fp_num.fin.injEq, x0, Nat.pow_zero,
            Nat.mul_one] at hv
          have := fp_scaled_lt ma (2 ^ 52 + mb) 0 (1074 + eb - 1023 - 52 + 1) (by omega)
            (by omega) (by omega)
          rw [Nat.pow_succ] at this
          have h5 := hv.2
          have hp : 0 < 2 ^ (1074 + eb - 1023 - 52) := Nat.two_pow_pos _
          have h6 : (2 ^ 52 + mb) * 2 ^ (1074 + eb - 1023 - 52)
              ≤ (2 ^ 52 + mb) * (2 ^ (1074 + eb - 1023 - 52) * 2) :=
            Nat.mul_le_mul_left _ (by omega)
          have h7 : 2 ^ 52 ≤ (2 ^ 52 + mb) * 2 ^ (1074 + eb - 1023 - 52) := by
            calc 2 ^ 52 ≤ 2 ^ 52 + mb := by omega
              _ = (2 ^ 52 + mb) * 1 := by rw [Nat.mul_one]
              _ ≤ (2 ^ 52 + mb) * 2 ^ (1074 + eb - 1023 - 52) := Nat.mul_le_mul_left _ hp
          omega
      · by_cases b3 : eb = 0
        · simp only [a3, b3, if_true, if_false, fp_num.fin.injEq, x0, Nat.pow_zero,
            Nat.mul_one] at hv
          have hp : 0 < 2 ^ (1074 + ea - 1023 - 52) := Nat.two_pow_pos _
          have h7 : 2 ^ 52 ≤ (2 ^ 52 + ma) * 2 ^ (1074 + ea - 1023 - 52) := by
            calc 2 ^ 52 ≤ 2 ^ 52 + ma := by omega
              _ = (2 ^ 52 + ma) * 1 := by rw [Nat.mul_one]
              _ ≤ (2 ^ 52 + ma) * 2 ^ (1074 + ea - 1023 - 52) := Nat.mul_le_mul_left _ hp
          have h5 := hv.2
          omega
        · simp only [a3, b3, if_false, fp_num.fin.injEq] at hv
          obtain ⟨q1, q2⟩ := fp_scaled_inj _ _ _ _ (by omega) (by omega) (by omega) (by omega)
            hv.2
          exact ⟨hsign _ _ s1 s2 hv.1, by omega, by omega⟩

theorem fp_mul_pow_div (m a b : Nat) : m * 2 ^ (b - a) / 2 ^ (b - a) = m :=
  Nat.mul_div_cancel m (Nat.two_pow_pos _)

theorem fp_narrow_candidate_lt (bias mb d : Nat) (hmb : mb ≤ 52) :
    fp_narrow_candidate bias mb d < 2 * ((2 * bias + 2) * 2 ^ mb) := by
  obtain ⟨hm, he, hs⟩ := fp_fields_lt 1023 52 d
  have hdiv : fp_mant 52 d / 2 ^ (52 - mb) < 2 ^ mb := by
    rw [Nat.div_lt_iff_lt_mul (Nat.two_pow_pos _), ← Nat.pow_add]
    have : mb + (52 - mb) = 52 := by omega
    rw [this]; exact hm
  unfold fp_narrow_candidate
  split
  · exact fp_pack_lt _ _ _ _ _ hs (by omega) hdiv
  · split
    · exact fp_pack_lt _ _ _ _ _ hs (by omega) (Nat.two_pow_pos _)
    · split
      · apply fp_pack_lt _ _ _ _ _ hs (by omega)
        rw [Nat.div_lt_iff_lt_mul (Nat.two_pow_pos _), ← Nat.pow_add]
        have h53 : 2 ^ 52 + fp_mant 52 d < 2 ^ 53 := by
          rw [Nat.pow_succ]; omega
        exact Nat.lt_of_lt_of_le h53 (Nat.pow_le_pow_right (by decide) (by omega))
      · split
        · exact fp_pack_lt _ _ _ _ _ hs (by omega) hdiv
        · exact fp_pack_lt _ _ _ _ _ hs (by omega) (Nat.two_pow_pos _)

/-- Narrowing undoes widening: the candidate for the widened `x` is `x`,
unless `x` is a NaN. -/
theorem fp_narrow_candidate_widen (bias mb x : Nat) (hb : 1 ≤ bias) (hmb : mb ≤ 52)
    (hbm : bias + mb ≤ 1023) (hx : x < 2 * ((2 * bias + 2) * 2 ^ mb))
    (hn : fp_value bias mb x ≠ fp_num.nan) :
    fp_narrow_candidate bias mb (fp_widen bias mb x) = x := by
  obtain ⟨hm, he, hs⟩ := fp_fields_lt bias mb x
  have hmw : fp_mant mb x * 2 ^ (52 - mb) < 2 ^ 52 := fp_mul_pow_lt _ _ _ hm hmb
  have hpk := fp_pack_fields bias mb x hx
  unfold fp_widen
  by_cases h1 : fp_exp bias mb x = 2 * bias + 1
  · have hz : fp_mant mb x = 0 := by
      by_contra hz
      apply hn
      unfold fp_value
      simp [h1, hz]
    simp only [h1, if_true]
    obtain ⟨f1, f2, f3⟩ := fp_fields_pack 1023 52 (fp_sign bias mb x) 2047
      (fp_mant mb x * 2 ^ (52 - mb)) hs (by decide) hmw
    unfold fp_narrow_candidate
    rw [f1, f2, f3]
    simp only [if_true]
    rw [fp_mul_pow_div _ mb 52, ← h1]
    exact hpk
  · simp only [h1, if_false]
    by_cases h2 : fp_exp bias mb x = 0
    · simp only [h2, if_true]
      by_cases hz : fp_mant mb x = 0
      · simp only [hz, if_true]
        obtain ⟨f1, f2, f3⟩ := fp_fields_pack 1023 52 (fp_sign bias mb x) 0 0 hs (by decide)
          (by decide)
        unfold fp_narrow_candidate
        rw [f1, f2, f3]
        have e0 : ¬ ((0 : Nat) = 2047) := by decide
        simp only [e0, if_false, if_true]
        rw [h2, hz] at hpk
        exact hpk
      · simp only [hz, if_false]
        obtain ⟨k1, k2, k3⟩ := fp_msb_spec mb (fp_mant mb x) (by omega) hm
        generalize fp_msb mb (fp_mant mb x) = k at k1 k2 k3
        have hr : fp_mant mb x - 2 ^ k < 2 ^ k := by
          rw [Nat.pow_succ] at k3; omega
        have hrw : (fp_mant mb x - 2 ^ k) * 2 ^ (52 - k) < 2 ^ 52 :=
          fp_mul_pow_lt _ _ _ hr (by omega)
        obtain ⟨f1, f2, f3⟩ := fp_fields_pack 1023 52 (fp_sign bias mb x)
          (1024 + k - bias - mb) ((fp_mant mb x - 2 ^ k) * 2 ^ (52 - k)) hs (by omega) hrw
        unfold fp_narrow_candidate
        rw [f1, f2, f3]
        have e1 : ¬ (1024 + k - bias - mb = 2047) := by omega
        have e2 : ¬ (1024 + k - bias - mb = 0) := by omega
        have e3 : 1024 + k - bias - mb + bias ≤ 1023 := by omega
        simp only [e1, e2, e3, if_false, if_true]
        have e4 : 52 - mb + (1024 - bias - (1024 + k - bias - mb)) = 52 - k := by omega
        have e5 : (2 : Nat) ^ 52 = 2 ^ k * 2 ^ (52 - k) := by
          rw [← Nat.pow_add]
          have : k + (52 - k) = 52 := by omega
          rw [this]
        have e7 : 2 ^ k + (fp_mant mb x - 2 ^ k) = fp_mant mb x := by omega
        have key : (2 ^ 52 + (fp_mant mb x - 2 ^ k) * 2 ^ (52 - k))
            / 2 ^ (52 - mb + (1024 - bias - (1024 + k - bias - mb))) = fp_mant mb x := by
          rw [e4, e5, ← Nat.add_mul, e7]
          exact Nat.mul_div_cancel _ (Nat.two_pow_pos _)
        rw [key]
        rw [h2] at hpk
        exact hpk
    · simp only [h2, if_false]
      obtain ⟨f1, f2, f3⟩ := fp_fields_pack 1023 52 (fp_sign bias mb x)
        (fp_exp bias mb x + 1023 - bias) (fp_mant mb x * 2 ^ (52 - mb)) hs (by omega) hmw
      unfold fp_narrow_candidate
      rw [f1, f2, f3]
      have e1 : ¬ (fp_exp bias mb x + 1023 - bias = 2047) := by omega
      have e2 : ¬ (fp_exp bias mb x + 1023 - bias = 0) := by omega
      have e3 : ¬ (fp_exp bias mb x + 1023 - bias + bias ≤ 1023) := by omega
      have e4 : fp_exp bias mb x + 1023 - bias + bias - 1023 ≤ 2 * bias := by omega
      have e5 : fp_exp bias mb x + 1023 - bias + bias - 1023 = fp_exp bias mb x := by omega
      simp only [e1, e2, e3, e4, if_false, if_true]
      rw [e5, fp_mul_pow_div _ mb 52]
      exact hpk

theorem fp_widen_lt (bias mb x : Nat) (hmb : mb ≤ 52) (hbm : bias + mb ≤ 1023) :
    fp_widen bias mb x < 2 ^ 64 := by
  obtain ⟨hm, he, hs⟩ := fp_fields_lt bias mb x
  have hmw : fp_mant mb x * 2 ^ (52 - mb) < 2 ^ 52 := fp_mul_pow_lt _ _ _ hm hmb
  have hb : (2 : Nat) ^ 64 = 2 * ((2 * 1023 + 2) * 2 ^ 52) := by decide
  rw [hb]
  unfold fp_widen
  split
  · exact fp_pack_lt _ _ _ _ _ hs (by decide) hmw
  · split
    · split
      · exact fp_pack_lt _ _ _ _ _ hs (by decide) (by decide)
      · rename_i hz
        obtain ⟨k1, k2, k3⟩ := fp_msb_spec mb (fp_mant mb x) (by omega) hm
        generalize fp_msb mb (fp_mant mb x) = k at k1 k2 k3
        have hr : fp_mant mb x - 2 ^ k < 2 ^ k := by
          rw [Nat.pow_succ] at k3; omega
        exact fp_pack_lt _ _ _ _ _ hs (by omega) (fp_mul_pow_lt _ _ _ hr (by omega))
    · exact fp_pack_lt _ _ _ _ _ hs (by omega) hmw

/-- The reverse conversion detects exact representability: for a binary64
pattern `d` that is not a NaN, it returns the pattern `x` of the narrower
format exactly when `x` stands for the same number as `d`. -/
theorem fp_narrow_iff (bias mb d x : Nat) (hb : 1 ≤ bias) (hmb : mb ≤ 52)
    (hbm : bias + mb ≤ 1023) (hd : d < 2 ^ 64) (hn : fp_value 1023 52 d ≠ fp_num.nan) :
    fp_narrow bias mb d = some x ↔
      (x < 2 * ((2 * bias + 2) * 2 ^ mb) ∧ fp_value bias mb x = fp_value 1023 52 d) := by
  unfold fp_narrow
  constructor
  · intro h
    by_cases hw : fp_widen bias mb (fp_narrow_candidate bias mb d) = d
    · simp only [hw, if_true, Option.some.injEq] at h
      subst h
      refine ⟨fp_narrow_candidate_lt bias mb d hmb, ?_⟩
      rw [← fp_value_widen bias mb _ hmb hbm, hw]
    · simp [hw] at h
  · rintro ⟨hx, hv⟩
    have hnx : fp_value bias mb x ≠ fp_num.nan := by rw [hv]; exact hn
    have hw : fp_widen bias mb x = d := by
      apply fp_value_double_inj _ _ (fp_widen_lt bias mb x hmb hbm) hd
      · rw [fp_value_widen bias mb x hmb hbm, hv]
      · rw [fp_value_widen bias mb x hmb hbm]; exact hnx
    have hc : fp_narrow_candidate bias mb d = x := by
      rw [← hw]
      exact fp_narrow_candidate_widen bias mb x hb hmb hbm hx hnx
    rw [hc, hw]
    simp

set_option maxRecDepth 20000 in
/-- The rows of the table of `test_float` hold in the model; the doubles are
given by their bit patterns, and NaN is 7FF8000000000000. -/
theorem cbor_test_float_rows :
    cbor_write_float64 20 0x0000000000000000 = ok [0xf9, 0x00, 0x00] ∧
    cbor_read_float64 [0xf9, 0x00, 0x00] = ok (0x0000000000000000, []) ∧
    cbor_write_float64 20 0x8000000000000000 = ok [0xf9, 0x80, 0x00] ∧
    cbor_read_float64 [0xf9, 0x80, 0x00] = ok (0x8000000000000000, []) ∧
    cbor_write_float64 20 0x3ff0000000000000 = ok [0xf9, 0x3c, 0x00] ∧
    cbor_read_float64 [0xf9, 0x3c, 0x00] = ok (0x3ff0000000000000, []) ∧
    cbor_write_float64 20 0xbff0000000000000 = ok [0xf9, 0xbc, 0x00] ∧
    cbor_read_float64 [0xf9, 0xbc, 0x00] = ok (0xbff0000000000000, []) ∧
    cbor_write_float64 20 0x409ffc0000000000 = ok [0xf9, 0x67, 0xff] ∧
    cbor_read_float64 [0xf9, 0x67, 0xff] = ok (0x409ffc0000000000, []) ∧
    cbor_write_float64 20 0xc09ffc0000000000 = ok [0xf9, 0xe7, 0xff] ∧
    cbor_read_float64 [0xf9, 0xe7, 0xff] = ok (0xc09ffc0000000000, []) ∧
    cbor_write_float64 20 0x40affe0000000000 = ok [0xfa, 0x45, 0x7f, 0xf0, 0x00] ∧
    cbor_read_float64 [0xfa, 0x45, 0x7f, 0xf0, 0x00] = ok (0x40affe0000000000, []) ∧
    cbor_write_float64 20 0xc0affe0000000000 = ok [0xfa, 0xc5, 0x7f, 0xf0, 0x00] ∧
    cbor_read_float64 [0xfa, 0xc5, 0x7f, 0xf0, 0x00] = ok (0xc0affe0000000000, []) ∧
    cbor_write_float64 20 0x416fffffe0000000 = ok [0xfa, 0x4b, 0x7f, 0xff, 0xff] ∧
    cbor_read_float64 [0xfa, 0x4b, 0x7f, 0xff, 0xff] = ok (0x416fffffe0000000, []) ∧
    cbor_write_float64 20 0xc16fffffe0000000 = ok [0xfa, 0xcb, 0x7f, 0xff, 0xff] ∧
    cbor_read_float64 [0xfa, 0xcb, 0x7f, 0xff, 0xff] = ok (0xc16fffffe0000000, []) ∧
    cbor_write_float64 20 0x417ffffff0000000 = ok [0xfb, 0x41, 0x7f, 0xff, 0xff, 0xf0, 0x00, 0x00, 0x00] ∧
    cbor_read_float64 [0xfb, 0x41, 0x7f, 0xff, 0xff, 0xf0, 0x00, 0x00, 0x00] = ok (0x417ffffff0000000, []) ∧
    cbor_write_float64 20 0xc17ffffff0000000 = ok [0xfb, 0xc1, 0x7f, 0xff, 0xff, 0xf0, 0x00, 0x00, 0x00] ∧
    cbor_read_float64 [0xfb, 0xc1, 0x7f, 0xff, 0xff, 0xf0, 0x00, 0x00, 0x00] = ok (0xc17ffffff0000000, []) ∧
    cbor_write_float64 20 0x7ff0000000000000 = ok [0xf9, 0x7c, 0x00] ∧
    cbor_read_float64 [0xf9, 0x7c, 0x00] = ok (0x7ff0000000000000, []) ∧
    cbor_write_float64 20 0xfff0000000000000 = ok [0xf9, 0xfc, 0x00] ∧
    cbor_read_float64 [0xf9, 0xfc, 0x00] = ok (0xfff0000000000000, []) ∧
    cbor_write_float64 20 0x7ff8000000000000 = ok [0xf9, 0x7e, 0x00] ∧
    cbor_read_float64 [0xf9, 0x7e, 0x00] = ok (0x7ff8000000000000, []) ∧
    cbor_read_float64 [0xfa, 0x7f, 0x80, 0x00, 0x00] = ok (0x7ff0000000000000, []) ∧
    cbor_read_float64 [0xfa, 0xff, 0x80, 0x00, 0x00] = ok (0xfff0000000000000, []) ∧
    cbor_read_float64 [0xfa, 0x7f, 0xc0, 0x00, 0x00] = ok (0x7ff8000000000000, []) ∧
    cbor_read_float64 [0xfb, 0x7f, 0xf0, 0x00, 0x00, 0x00, 0x00, 0x00, 0x00] = ok (0x7ff0000000000000, []) ∧
    cbor_read_float64 [0xfb, 0xff, 0xf0, 0x00, 0x00, 0x00, 0x00, 0x00, 0x00] = ok (0xfff0000000000000, []) ∧
    cbor_read_float64 [0xfb, 0x7f, 0xf8, 0x00, 0x00, 0x00, 0x00, 0x00, 0x00] = ok (0x7ff8000000000000, []) ∧
    fp_value 1023 52 0x7ff8000000000000 = fp_num.nan := by
  and_intros <;> decide

theorem fp_is_nan_iff (bias mb x : Nat) :
    fp_is_nan bias mb x = true ↔ fp_value bias mb x = fp_num.nan := by
  unfold fp_is_nan fp_value
  by_cases h1 : fp_exp bias mb x = 2 * bias + 1
  · by_cases h2 : fp_mant mb x = 0 <;> simp [h1, h2]
  · by_cases h3 : fp_exp bias mb x = 0 <;> simp [h1, h3]

theorem cbor_read_float64_half (h : Nat) (rest : List Nat) (hh : h < 2 ^ 16) :
    cbor_read_float64 (0xf9 :: (be_bytes 2 h ++ rest)) = ok (fp_widen 15 10 h, rest) := by
  have e := cbor_read_head_wide 7 1 h rest (by decide) (by simpa using hh)
  have e1 : (7 * 32 + 24 + 1 : Nat) = 0xf9 := by decide
  have e2 : (2 : Nat) ^ 1 = 2 := by decide
  rw [e1, e2] at e
  simp only [cbor_read_float64]
  rw [e]
  simp

theorem cbor_read_float64_single (f : Nat) (rest : List Nat) (hf : f < 2 ^ 32) :
    cbor_read_float64 (0xfa :: (be_bytes 4 f ++ rest)) = ok (fp_widen 127 23 f, rest) := by
  have e := cbor_read_head_wide 7 2 f rest (by decide) (by simpa using hf)
  have e1 : (7 * 32 + 24 + 2 : Nat) = 0xfa := by decide
  have e2 : (2 : Nat) ^ 2 = 4 := by decide
  rw [e1, e2] at e
  simp only [cbor_read_float64]
  rw [e]
  simp

theorem cbor_read_float64_double (d : Nat) (rest : List Nat) (hd : d < 2 ^ 64) :
    cbor_read_float64 (0xfb :: (be_bytes 8 d ++ rest)) = ok (d, rest) := by
  have e := cbor_read_head_wide 7 3 d rest (by decide) (by simpa using hd)
  have e1 : (7 * 32 + 24 + 3 : Nat) = 0xfb := by decide
  have e2 : (2 : Nat) ^ 3 = 8 := by decide
  rw [e1, e2] at e
  simp only [cbor_read_float64]
  rw [e]
  simp

theorem cbor_write_float64_cases (avail d : Nat) (ha : 9 ≤ avail)
    (hn : fp_value 1023 52 d ≠ fp_num.nan) :
    (∀ h, fp_narrow 15 10 d = some h → cbor_write_float64 avail d = ok (0xf9 :: be_bytes 2 h)) ∧
    (∀ f, fp_narrow 15 10 d = none → fp_narrow 127 23 d = some f →
      cbor_write_float64 avail d = ok (0xfa :: be_bytes 4 f)) ∧
    (fp_narrow 15 10 d = none → fp_narrow 127 23 d = none →
      cbor_write_float64 avail d = ok (0xfb :: be_bytes 8 d)) := by
  have hnan : fp_is_nan 1023 52 d = false := by
    cases h : fp_is_nan 1023 52 d
    · rfl
    · exact absurd ((fp_is_nan_iff 1023 52 d).mp h) hn
  refine ⟨?_, ?_, ?_⟩
  · intro h h1
    unfold cbor_write_float64
    simp only [hnan, Bool.false_eq_true, if_false, h1, List.length_cons, be_bytes_length]
    have : 2 + 1 ≤ avail := by omega
    simp only [this, if_true]
  · intro f h1 h2
    unfold cbor_write_float64
    simp only [hnan, Bool.false_eq_true, if_false, h1, h2, List.length_cons, be_bytes_length]
    have : 4 + 1 ≤ avail := by omega
    simp only [this, if_true]
  · intro h1 h2
    unfold cbor_write_float64
    simp only [hnan, Bool.false_eq_true, if_false, h1, h2, List.length_cons, be_bytes_length]
    have : 8 + 1 ≤ avail := by omega
    simp only [this, if_true]

theorem fp_narrow_none (bias mb d : Nat) (hb : 1 ≤ bias) (hmb : mb ≤ 52)
    (hbm : bias + mb ≤ 1023) (hd : d < 2 ^ 64) (hn : fp_value 1023 52 d ≠ fp_num.nan)
    (h : ¬ ∃ x, x < 2 * ((2 * bias + 2) * 2 ^ mb) ∧ fp_value bias mb x = fp_value 1023 52 d) :
    fp_narrow bias mb d = none := by
  cases hc : fp_narrow bias mb d with
  | none => rfl
  | some x => exact absurd ⟨x, (fp_narrow_iff bias mb d x hb hmb hbm hd hn).mp hc⟩ h

theorem fp_narrow_widen (bias mb d x : Nat) (h : fp_narrow bias mb d = some x) :
    fp_widen bias mb x = d := by
  unfold fp_narrow at h
  by_cases hw : fp_widen bias mb (fp_narrow_candidate bias mb d) = d
  · simp only [hw, if_true, Option.some.injEq] at h
    rw [← h, hw]
  · simp [hw] at h

/-- C26: `cbor_write_float64` writes the narrowest lossless width.  For every
double, given by its bit pattern `d`: a NaN is written as f97e00, which reads
back as a NaN; otherwise the double is written as a float16 (f9 and the
binary16 pattern) if it is an exact half, else as a float32 (fa and the
binary32 pattern) if it is an exact single, else as a float64 (fb and `d`);
and `cbor_read_float64` of the written bytes returns `d` bit for bit.  The
spec's example: +∞ is written as F97C00, and F97C00 reads as +∞. -/
theorem cbor_write_float64_narrowest (avail d : Nat) (ha : 9 ≤ avail) (hd : d < 2 ^ 64) :
    (fp_value 1023 52 d = fp_num.nan →
      cbor_write_float64 avail d = ok [0xf9, 0x7e, 0x00] ∧
      ∃ v, (∀ rest, cbor_read_float64 ([0xf9, 0x7e, 0x00] ++ rest) = ok (v, rest)) ∧
        fp_value 1023 52 v = fp_num.nan) ∧
    (fp_value 1023 52 d ≠ fp_num.nan →
      (∀ h, h < 2 ^ 16 → fp_value 15 10 h = fp_value 1023 52 d →
        cbor_write_float64 avail d = ok (0xf9 :: be_bytes 2 h)) ∧
      (¬ is_exact_half d → ∀ f, f < 2 ^ 32 → fp_value 127 23 f = fp_value 1023 52 d →
        cbor_write_float64 avail d = ok (0xfa :: be_bytes 4 f)) ∧
      (¬ is_exact_half d → ¬ is_exact_single d →
        cbor_write_float64 avail d = ok (0xfb :: be_bytes 8 d)) ∧
      ∃ b, cbor_write_float64 avail d = ok b ∧
        ∀ rest, cbor_read_float64 (b ++ rest) = ok (d, rest)) ∧
    cbor_write_float64 avail 0x7ff0000000000000 = ok [0xf9, 0x7c, 0x00] ∧
    cbor_read_float64 [0xf9, 0x7c, 0x00] = ok (0x7ff0000000000000, []) ∧
    fp_value 1023 52 0x7ff0000000000000 = fp_num.inf false := by
  have b16 : (2 : Nat) * ((2 * 15 + 2) * 2 ^ 10) = 2 ^ 16 := by decide
  have b32 : (2 : Nat) * ((2 * 127 + 2) * 2 ^ 23) = 2 ^ 32 := by decide
  have hinf : fp_value 1023 52 0x7ff0000000000000 ≠ fp_num.nan := by decide
  refine ⟨?_, ?_, ?_, by decide, by decide⟩
  · intro hnan
    refine ⟨?_, 0x7ff8000000000000, ?_, by decide⟩
    · have h1 := (fp_is_nan_iff 1023 52 d).mpr hnan
      unfold cbor_write_float64
      simp only [h1, if_true]
      have : [0xf9, 0x7e, 0x00].length ≤ avail := by simp; omega
      simp only [this, if_true]
    · intro rest
      have e := cbor_read_float64_half 0x7e00 rest (by decide)
      have e1 : be_bytes 2 0x7e00 = [0x7e, 0x00] := by decide
      have e2 : fp_widen 15 10 0x7e00 = 0x7ff8000000000000 := by decide
      rw [e1, e2] at e
      exact e
  · intro hn
    obtain ⟨w1, w2, w3⟩ := cbor_write_float64_cases avail d ha hn
    refine ⟨?_, ?_, ?_, ?_⟩
    · intro h hh hv
      exact w1 h ((fp_narrow_iff 15 10 d h (by decide) (by decide) (by decide) hd hn).mpr
        ⟨by rw [b16]; exact hh, hv⟩)
    · intro hnh f hf hv
      have n1 : fp_narrow 15 10 d = none :=
        fp_narrow_none 15 10 d (by decide) (by decide) (by decide) hd hn
          (fun ⟨x, hx, hxv⟩ => hnh ⟨x, by rw [← b16]; exact hx, hxv⟩)
      exact w2 f n1 ((fp_narrow_iff 127 23 d f (by decide) (by decide) (by decide) hd hn).mpr
        ⟨by rw [b32]; exact hf, hv⟩)
    · intro hnh hns
      have n1 : fp_narrow 15 10 d = none :=
        fp_narrow_none 15 10 d (by decide) (by decide) (by decide) hd hn
          (fun ⟨x, hx, hxv⟩ => hnh ⟨x, by rw [← b16]; exact hx, hxv⟩)
      have n2 : fp_narrow 127 23 d = none :=
        fp_narrow_none 127 23 d (by decide) (by decide) (by decide) hd hn
          (fun ⟨x, hx, hxv⟩ => hns ⟨x, by rw [← b32]; exact hx, hxv⟩)
      exact w3 n1 n2
    · cases c1 : fp_narrow 15 10 d with
      | some h =>
        refine ⟨_, w1 h c1, ?_⟩
        intro rest
        have hlt := ((fp_narrow_iff 15 10 d h (by decide) (by decide) (by decide) hd hn).mp
          c1).1
        rw [b16] at hlt
        rw [List.cons_append, cbor_read_float64_half h rest hlt, fp_narrow_widen 15 10 d h c1]
      | none =>
        cases c2 : fp_narrow 127 23 d with
        | some f =>
          refine ⟨_, w2 f c1 c2, ?_⟩
          intro rest
          have hlt := ((fp_narrow_iff 127 23 d f (by decide) (by decide) (by decide) hd
            hn).mp c2).1
          rw [b32] at hlt
          rw [List.cons_append, cbor_read_float64_single f rest hlt,
            fp_narrow_widen 127 23 d f c2]
        | none =>
          refine ⟨_, w3 c1 c2, ?_⟩
          intro rest
          rw [List.cons_append, cbor_read_float64_double d rest hd]
  · have h := (cbor_write_float64_cases avail 0x7ff0000000000000 ha hinf).1 0x7c00 (by decide)
    have e1 : be_bytes 2 0x7c00 = [0x7c, 0x00] := by decide
    rw [e1] at h
    exact h

theorem cbor_write_float64_narrowest_witness :
    cbor_write_float64 20 0x3ff0000000000000 = ok (0xf9 :: be_bytes 2 0x3c00) ∧
    cbor_write_float64 20 0x40affe0000000000 = ok (0xfa :: be_bytes 4 0x457ff000) ∧
    ∃ b, cbor_write_float64 20 0x417ffffff0000000 = ok b ∧
      ∀ rest, cbor_read_float64 (b ++ rest) = ok (0x417ffffff0000000, rest) :=
  ⟨((cbor_write_float64_narrowest 20 0x3ff0000000000000 (by decide) (by decide)).2.1
      (by decide)).1 0x3c00 (by decide)
      ((fp_value_widen 15 10 0x3c00 (by decide) (by decide)).symm.trans
        (congrArg (fp_value 1023 52) (by decide))),
    by decide,
    ((cbor_write_float64_narrowest 20 0x417ffffff0000000 (by decide) (by decide)).2.1
      (by decide)).2.2.2⟩

/-- The writer on the edge of the binary16 range: `2^-24`, the smallest
subnormal half, is written as a half; `2^-25` is not a half and is written as
a single; 65504, the largest half, is written as a half and 65520 is not;
`2^-149`, the smallest subnormal single, is written as a single and `2^-150`
as a double. -/
theorem cbor_write_float64_edges :
    cbor_write_float64 20 0x3e70000000000000 = ok [0xf9, 0x00, 0x01] ∧
    cbor_read_float64 [0xf9, 0x00, 0x01] = ok (0x3e70000000000000, []) ∧
    cbor_write_float64 20 0x3e60000000000000 = ok [0xfa, 0x33, 0x00, 0x00, 0x00] ∧
    cbor_write_float64 20 0x40effc0000000000 = ok [0xf9, 0x7b, 0xff] ∧
    cbor_write_float64 20 0x40effe0000000000 = ok [0xfa, 0x47, 0x7f, 0xf0, 0x00] ∧
    cbor_write_float64 20 0x36a0000000000000 = ok [0xfa, 0x00, 0x00, 0x00, 0x01] ∧
    cbor_read_float64 [0xfa, 0x00, 0x00, 0x00, 0x01] = ok (0x36a0000000000000, []) ∧
    cbor_write_float64 20 0x3690000000000000
      = ok [0xfb, 0x36, 0x90, 0x00, 0x00, 0x00, 0x00, 0x00, 0x00] := by
  and_intros <;> decide

/-- The rows of the table of `test_int64` hold in the model: `cbor_pack` "q" writes the
bytes of every canonical row, and `cbor_unpack` "q" returns the value or the
error of every row. -/
theorem cbor_test_int64_rows :
    cbor_pack 20 "q" [cbor_arg_t.int64 0] = ok [0x00] ∧
    cbor_unpack "q" [0x00] = ok ([cbor_arg_t.int64 0], []) ∧
    cbor_pack 20 "q" [cbor_arg_t.int64 1] = ok [0x01] ∧
    cbor_unpack "q" [0x01] = ok ([cbor_arg_t.int64 1], []) ∧
    cbor_pack 20 "q" [cbor_arg_t.int64 23] = ok [0x17] ∧
    cbor_unpack "q" [0x17] = ok ([cbor_arg_t.int64 23], []) ∧
    cbor_pack 20 "q" [cbor_arg_t.int64 24] = ok [0x18, 0x18] ∧
    cbor_unpack "q" [0x18, 0x18] = ok ([cbor_arg_t.int64 24], []) ∧
    cbor_pack 20 "q" [cbor_arg_t.int64 25] = ok [0x18, 0x19] ∧
    cbor_unpack "q" [0x18, 0x19] = ok ([cbor_arg_t.int64 25], []) ∧
    cbor_pack 20 "q" [cbor_arg_t.int64 255] = ok [0x18, 0xff] ∧
    cbor_unpack "q" [0x18, 0xff] = ok ([cbor_arg_t.int64 255], []) ∧
    cbor_pack 20 "q" [cbor_arg_t.int64 256] = ok [0x19, 0x01, 0x00] ∧
    cbor_unpack "q" [0x19, 0x01, 0x00] = ok ([cbor_arg_t.int64 256], []) ∧
    cbor_pack 20 "q" [cbor_arg_t.int64 257] = ok [0x19, 0x01, 0x01] ∧
    cbor_unpack "q" [0x19, 0x01, 0x01] = ok ([cbor_arg_t.int64 257], []) ∧
    cbor_pack 20 "q" [cbor_arg_t.int64 65535] = ok [0x19, 0xff, 0xff] ∧
    cbor_unpack "q" [0x19, 0xff, 0xff] = ok ([cbor_arg_t.int64 65535], []) ∧
    cbor_pack 20 "q" [cbor_arg_t.int64 65536] = ok [0x1a, 0x00, 0x01, 0x00, 0x00] ∧
    cbor_unpack "q" [0x1a, 0x00, 0x01, 0x00, 0x00] = ok ([cbor_arg_t.int64 65536], []) ∧
    cbor_pack 20 "q" [cbor_arg_t.int64 65537] = ok [0x1a, 0x00, 0x01, 0x00, 0x01] ∧
    cbor_unpack "q" [0x1a, 0x00, 0x01, 0x00, 0x01] = ok ([cbor_arg_t.int64 65537], []) ∧
    cbor_pack 20 "q" [cbor_arg_t.int64 4294967295] = ok [0x1a, 0xff, 0xff, 0xff, 0xff] ∧
    cbor_unpack "q" [0x1a, 0xff, 0xff, 0xff, 0xff] = ok ([cbor_arg_t.int64 4294967295], []) ∧
    cbor_pack 20 "q" [cbor_arg_t.int64 4294967296] = ok [0x1b, 0x00, 0x00, 0x00, 0x01, 0x00, 0x00, 0x00, 0x00] ∧
    cbor_unpack "q" [0x1b, 0x00, 0x00, 0x00, 0x01, 0x00, 0x00, 0x00, 0x00] = ok ([cbor_arg_t.int64 4294967296], []) ∧
    cbor_pack 20 "q" [cbor_arg_t.int64 4294967297] = ok [0x1b, 0x00, 0x00, 0x00, 0x01, 0x00, 0x00, 0x00, 0x01] ∧
    cbor_unpack "q" [0x1b, 0x00, 0x00, 0x00, 0x01, 0x00, 0x00, 0x00, 0x01] = ok ([cbor_arg_t.int64 4294967297], []) ∧
    cbor_pack 20 "q" [cbor_arg_t.int64 9223372036854775807] = ok [0x1b, 0x7f, 0xff, 0xff, 0xff, 0xff, 0xff, 0xff, 0xff] ∧
    cbor_unpack "q" [0x1b, 0x7f, 0xff, 0xff, 0xff, 0xff, 0xff, 0xff, 0xff] = ok ([cbor_arg_t.int64 9223372036854775807], []) ∧
    cbor_unpack "q" [0x18, 0x00] = ok ([cbor_arg_t.int64 0], []) ∧
    cbor_unpack "q" [0x19, 0x00, 0x01] = ok ([cbor_arg_t.int64 1], []) ∧
    cbor_unpack "q" [0x1a, 0x00, 0x00, 0x00, 0x02] = ok ([cbor_arg_t.int64 2], []) ∧
    cbor_unpack "q" [0x1b, 0x00, 0x00, 0x00, 0x00, 0x00, 0x00, 0x00, 0x03] = ok ([cbor_arg_t.int64 3], []) ∧
    cbor_unpack "q" [0x1c] = error CBOR_ERROR_INVALID_AI ∧
    cbor_unpack "q" [0x1d] = error CBOR_ERROR_INVALID_AI ∧
    cbor_unpack "q" [0x1e] = error CBOR_ERROR_INVALID_AI ∧
    cbor_unpack "q" [0x1f] = error CBOR_ERROR_INVALID_AI ∧
    cbor_pack 20 "q" [cbor_arg_t.int64 (-1)] = ok [0x20] ∧
    cbor_unpack "q" [0x20] = ok ([cbor_arg_t.int64 (-1)], []) ∧
    cbor_pack 20 "q" [cbor_arg_t.int64 (-2)] = ok [0x21] ∧
    cbor_unpack "q" [0x21] = ok ([cbor_arg_t.int64 (-2)], []) ∧
    cbor_pack 20 "q" [cbor_arg_t.int64 (-24)] = ok [0x37] ∧
    cbor_unpack "q" [0x37] = ok ([cbor_arg_t.int64 (-24)], []) ∧
    cbor_pack 20 "q" [cbor_arg_t.int64 (-25)] = ok [0x38, 0x18] ∧
    cbor_unpack "q" [0x38, 0x18] = ok ([cbor_arg_t.int64 (-25)], []) ∧
    cbor_pack 20 "q" [cbor_arg_t.int64 (-26)] = ok [0x38, 0x19] ∧
    cbor_unpack "q" [0x38, 0x19] = ok ([cbor_arg_t.int64 (-26)], []) ∧
    cbor_pack 20 "q" [cbor_arg_t.int64 (-256)] = ok [0x38, 0xff] ∧
    cbor_unpack "q" [0x38, 0xff] = ok ([cbor_arg_t.int64 (-256)], []) ∧
    cbor_pack 20 "q" [cbor_arg_t.int64 (-257)] = ok [0x39, 0x01, 0x00] ∧
    cbor_unpack "q" [0x39, 0x01, 0x00] = ok ([cbor_arg_t.int64 (-257)], []) ∧
    cbor_pack 20 "q" [cbor_arg_t.int64 (-258)] = ok [0x39, 0x01, 0x01] ∧
    cbor_unpack "q" [0x39, 0x01, 0x01] = ok ([cbor_arg_t.int64 (-258)], []) ∧
    cbor_pack 20 "q" [cbor_arg_t.int64 (-65536)] = ok [0x39, 0xff, 0xff] ∧
    cbor_unpack "q" [0x39, 0xff, 0xff] = ok ([cbor_arg_t.int64 (-65536)], []) ∧
    cbor_pack 20 "q" [cbor_arg_t.int64 (-65537)] = ok [0x3a, 0x00, 0x01, 0x00, 0x00] ∧
    cbor_unpack "q" [0x3a, 0x00, 0x01, 0x00, 0x00] = ok ([cbor_arg_t.int64 (-65537)], []) ∧
    cbor_pack 20 "q" [cbor_arg_t.int64 (-65538)] = ok [0x3a, 0x00, 0x01, 0x00, 0x01] ∧
    cbor_unpack "q" [0x3a, 0x00, 0x01, 0x00, 0x01] = ok ([cbor_arg_t.int64 (-65538)], []) ∧
    cbor_pack 20 "q" [cbor_arg_t.int64 (-4294967296)] = ok [0x3a, 0xff, 0xff, 0xff, 0xff] ∧
    cbor_unpack "q" [0x3a, 0xff, 0xff, 0xff, 0xff] = ok ([cbor_arg_t.int64 (-4294967296)], []) ∧
    cbor_pack 20 "q" [cbor_arg_t.int64 (-4294967297)] = ok [0x3b, 0x00, 0x00, 0x00, 0x01, 0x00, 0x00, 0x00, 0x00] ∧
    cbor_unpack "q" [0x3b, 0x00, 0x00, 0x00, 0x01, 0x00, 0x00, 0x00, 0x00] = ok ([cbor_arg_t.int64 (-4294967297)], []) ∧
    cbor_pack 20 "q" [cbor_arg_t.int64 (-4294967298)] = ok [0x3b, 0x00, 0x00, 0x00, 0x01, 0x00, 0x00, 0x00, 0x01] ∧
    cbor_unpack "q" [0x3b, 0x00, 0x00, 0x00, 0x01, 0x00, 0x00, 0x00, 0x01] = ok ([cbor_arg_t.int64 (-4294967298)], []) ∧
    cbor_pack 20 "q" [cbor_arg_t.int64 (-9223372036854775808)] = ok [0x3b, 0x7f, 0xff, 0xff, 0xff, 0xff, 0xff, 0xff, 0xff] ∧
    cbor_unpack "q" [0x3b, 0x7f, 0xff, 0xff, 0xff, 0xff, 0xff, 0xff, 0xff] = ok ([cbor_arg_t.int64 (-9223372036854775808)], []) ∧
    cbor_unpack "q" [0x3c] = error CBOR_ERROR_INVALID_AI ∧
    cbor_unpack "q" [0x3d] = error CBOR_ERROR_INVALID_AI ∧
    cbor_unpack "q" [0x3e] = error CBOR_ERROR_INVALID_AI ∧
    cbor_unpack "q" [0x3f] = error CBOR_ERROR_INVALID_AI ∧
    cbor_unpack "q" [0x38, 0x00] = ok ([cbor_arg_t.int64 (-1)], []) ∧
    cbor_unpack "q" [0x39, 0x00, 0x01] = ok ([cbor_arg_t.int64 (-2)], []) ∧
    cbor_unpack "q" [0x3a, 0x00, 0x00, 0x00, 0x02] = ok ([cbor_arg_t.int64 (-3)], []) ∧
    cbor_unpack "q" [0x3b, 0x00, 0x00, 0x00, 0x00, 0x00, 0x00, 0x00, 0x03] = ok ([cbor_arg_t.int64 (-4)], []) ∧
    cbor_unpack "q" [0x1b, 0x80, 0x00, 0x00, 0x00, 0x00, 0x00, 0x00, 0x00] = error CBOR_ERROR_RANGE ∧
    cbor_unpack "q" [0x1b, 0xff, 0xff, 0xff, 0xff, 0xff, 0xff, 0xff, 0xff] = error CBOR_ERROR_RANGE ∧
    cbor_unpack "q" [0x3b, 0x80, 0x00, 0x00, 0x00, 0x00, 0x00, 0x00, 0x00] = error CBOR_ERROR_RANGE ∧
    cbor_unpack "q" [0x3b, 0xff, 0xff, 0xff, 0xff, 0xff, 0xff, 0xff, 0xff] = error CBOR_ERROR_RANGE := by
  and_intros <;> decide

/-- The rows of the table of `test_uint64` hold in the model. -/
theorem cbor_test_uint64_rows :
    cbor_pack 20 "Q" [cbor_arg_t.uint64 0] = ok [0x00] ∧
    cbor_unpack "Q" [0x00] = ok ([cbor_arg_t.uint64 0], []) ∧
    cbor_pack 20 "Q" [cbor_arg_t.uint64 1] = ok [0x01] ∧
    cbor_unpack "Q" [0x01] = ok ([cbor_arg_t.uint64 1], []) ∧
    cbor_pack 20 "Q" [cbor_arg_t.uint64 23] = ok [0x17] ∧
    cbor_unpack "Q" [0x17] = ok ([cbor_arg_t.uint64 23], []) ∧
    cbor_pack 20 "Q" [cbor_arg_t.uint64 24] = ok [0x18, 0x18] ∧
    cbor_unpack "Q" [0x18, 0x18] = ok ([cbor_arg_t.uint64 24], []) ∧
    cbor_pack 20 "Q" [cbor_arg_t.uint64 25] = ok [0x18, 0x19] ∧
    cbor_unpack "Q" [0x18, 0x19] = ok ([cbor_arg_t.uint64 25], []) ∧
    cbor_pack 20 "Q" [cbor_arg_t.uint64 255] = ok [0x18, 0xff] ∧
    cbor_unpack "Q" [0x18, 0xff] = ok ([cbor_arg_t.uint64 255], []) ∧
    cbor_pack 20 "Q" [cbor_arg_t.uint64 256] = ok [0x19, 0x01, 0x00] ∧
    cbor_unpack "Q" [0x19, 0x01, 0x00] = ok ([cbor_arg_t.uint64 256], []) ∧
    cbor_pack 20 "Q" [cbor_arg_t.uint64 257] = ok [0x19, 0x01, 0x01] ∧
    cbor_unpack "Q" [0x19, 0x01, 0x01] = ok ([cbor_arg_t.uint64 257], []) ∧
    cbor_pack 20 "Q" [cbor_arg_t.uint64 65535] = ok [0x19, 0xff, 0xff] ∧
    cbor_unpack "Q" [0x19, 0xff, 0xff] = ok ([cbor_arg_t.uint64 65535], []) ∧
    cbor_pack 20 "Q" [cbor_arg_t.uint64 65536] = ok [0x1a, 0x00, 0x01, 0x00, 0x00] ∧
    cbor_unpack "Q" [0x1a, 0x00, 0x01, 0x00, 0x00] = ok ([cbor_arg_t.uint64 65536], []) ∧
    cbor_pack 20 "Q" [cbor_arg_t.uint64 65537] = ok [0x1a, 0x00, 0x01, 0x00, 0x01] ∧
    cbor_unpack "Q" [0x1a, 0x00, 0x01, 0x00, 0x01] = ok ([cbor_arg_t.uint64 65537], []) ∧
    cbor_pack 20 "Q" [cbor_arg_t.uint64 4294967295] = ok [0x1a, 0xff, 0xff, 0xff, 0xff] ∧
    cbor_unpack "Q" [0x1a, 0xff, 0xff, 0xff, 0xff] = ok ([cbor_arg_t.uint64 4294967295], []) ∧
    cbor_pack 20 "Q" [cbor_arg_t.uint64 4294967296] = ok [0x1b, 0x00, 0x00, 0x00, 0x01, 0x00, 0x00, 0x00, 0x00] ∧
    cbor_unpack "Q" [0x1b, 0x00, 0x00, 0x00, 0x01, 0x00, 0x00, 0x00, 0x00] = ok ([cbor_arg_t.uint64 4294967296], []) ∧
    cbor_pack 20 "Q" [cbor_arg_t.uint64 4294967297] = ok [0x1b, 0x00, 0x00, 0x00, 0x01, 0x00, 0x00, 0x00, 0x01] ∧
    cbor_unpack "Q" [0x1b, 0x00, 0x00, 0x00, 0x01, 0x00, 0x00, 0x00, 0x01] = ok ([cbor_arg_t.uint64 4294967297], []) ∧
    cbor_pack 20 "Q" [cbor_arg_t.uint64 18446744073709551615] = ok [0x1b, 0xff, 0xff, 0xff, 0xff, 0xff, 0xff, 0xff, 0xff] ∧
    cbor_unpack "Q" [0x1b, 0xff, 0xff, 0xff, 0xff, 0xff, 0xff, 0xff, 0xff] = ok ([cbor_arg_t.uint64 18446744073709551615], []) ∧
    cbor_unpack "Q" [0x18, 0x00] = ok ([cbor_arg_t.uint64 0], []) ∧
    cbor_unpack "Q" [0x19, 0x00, 0x01] = ok ([cbor_arg_t.uint64 1], []) ∧
    cbor_unpack "Q" [0x1a, 0x00, 0x00, 0x00, 0x02] = ok ([cbor_arg_t.uint64 2], []) ∧
    cbor_unpack "Q" [0x1b, 0x00, 0x00, 0x00, 0x00, 0x00, 0x00, 0x00, 0x03] = ok ([cbor_arg_t.uint64 3], []) ∧
    cbor_unpack "Q" [0x1c] = error CBOR_ERROR_INVALID_AI ∧
    cbor_unpack "Q" [0x1d] = error CBOR_ERROR_INVALID_AI ∧
    cbor_unpack "Q" [0x1e] = error CBOR_ERROR_INVALID_AI ∧
    cbor_unpack "Q" [0x1f] = error CBOR_ERROR_INVALID_AI := by
  and_intros <;> decide

set_option maxRecDepth 20000

/-- The rows of the table of `test_bytes` hold in the model. -/
theorem cbor_test_bytes_rows :
    cbor_write_bytes 300 [] = ok [0x40] ∧
    cbor_read_bytes [0x40] = ok ([], []) ∧
    cbor_write_bytes 300 [0x30, 0x30, 0x30, 0x30, 0x30, 0x30, 0x30, 0x30, 0x30, 0x30, 0x30, 0x30,
      0x30, 0x30, 0x30, 0x30, 0x30, 0x30, 0x30, 0x30, 0x30, 0x30, 0x30] = ok [0x57, 0x30, 0x30, 0x30,
      0x30, 0x30, 0x30, 0x30, 0x30, 0x30, 0x30, 0x30, 0x30, 0x30, 0x30, 0x30, 0x30, 0x30, 0x30, 0x30,
      0x30, 0x30, 0x30, 0x30] ∧
    cbor_read_bytes [0x57, 0x30, 0x30, 0x30, 0x30, 0x30, 0x30, 0x30, 0x30, 0x30, 0x30, 0x30, 0x30,
      0x30, 0x30, 0x30, 0x30, 0x30, 0x30, 0x30, 0x30, 0x30, 0x30, 0x30] = ok ([0x30, 0x30, 0x30, 0x30,
      0x30, 0x30, 0x30, 0x30, 0x30, 0x30, 0x30, 0x30, 0x30, 0x30, 0x30, 0x30, 0x30, 0x30, 0x30, 0x30,
      0x30, 0x30, 0x30], []) ∧
    cbor_write_bytes 300 [0x30, 0x30, 0x30, 0x30, 0x30, 0x30, 0x30, 0x30, 0x30, 0x30, 0x30, 0x30,
      0x30, 0x30, 0x30, 0x30, 0x30, 0x30, 0x30, 0x30, 0x30, 0x30, 0x30, 0x30] = ok [0x58, 0x18, 0x30,
      0x30, 0x30, 0x30, 0x30, 0x30, 0x30, 0x30, 0x30, 0x30, 0x30, 0x30, 0x30, 0x30, 0x30, 0x30, 0x30,
      0x30, 0x30, 0x30, 0x30, 0x30, 0x30, 0x30] ∧
    cbor_read_bytes [0x58, 0x18, 0x30, 0x30, 0x30, 0x30, 0x30, 0x30, 0x30, 0x30, 0x30, 0x30, 0x30,
      0x30, 0x30, 0x30, 0x30, 0x30, 0x30, 0x30, 0x30, 0x30, 0x30, 0x30, 0x30, 0x30] = ok ([0x30, 0x30,
      0x30, 0x30, 0x30, 0x30, 0x30, 0x30, 0x30, 0x30, 0x30, 0x30, 0x30, 0x30, 0x30, 0x30, 0x30, 0x30,
      0x30, 0x30, 0x30, 0x30, 0x30, 0x30], []) ∧
    cbor_write_bytes 300 [0x30, 0x30, 0x30, 0x30, 0x30, 0x30, 0x30, 0x30, 0x30, 0x30, 0x30, 0x30,
      0x30, 0x30, 0x30, 0x30, 0x30, 0x30, 0x30, 0x30, 0x30, 0x30, 0x30, 0x30, 0x30, 0x30, 0x30, 0x30,
      0x30, 0x30, 0x30, 0x30, 0x30, 0x30, 0x30, 0x30, 0x30, 0x30, 0x30, 0x30, 0x30, 0x30, 0x30, 0x30,
      0x30, 0x30, 0x30, 0x30, 0x30, 0x30, 0x30, 0x30, 0x30, 0x30, 0x30, 0x30, 0x30, 0x30, 0x30, 0x30,
      0x30, 0x30, 0x30, 0x30, 0x30, 0x30, 0x30, 0x30, 0x30, 0x30, 0x30, 0x30, 0x30, 0x30, 0x30, 0x30,
      0x30, 0x30, 0x30, 0x30, 0x30, 0x30, 0x30, 0x30, 0x30, 0x30, 0x30, 0x30, 0x30, 0x30, 0x30, 0x30,
      0x30, 0x30, 0x30, 0x30, 0x30, 0x30, 0x30, 0x30, 0x30, 0x30, 0x30, 0x30, 0x30, 0x30, 0x30, 0x30,
      0x30, 0x30, 0x30, 0x30, 0x30, 0x30, 0x30, 0x30, 0x30, 0x30, 0x30, 0x30, 0x30, 0x30, 0x30, 0x30,
      0x30, 0x30, 0x30, 0x30, 0x30, 0x30, 0x30, 0x30, 0x30, 0x30, 0x30, 0x30, 0x30, 0x30, 0x30, 0x30,
      0x30, 0x30, 0x30, 0x30, 0x30, 0x30, 0x30, 0x30, 0x30, 0x30, 0x30, 0x30, 0x30, 0x30, 0x30, 0x30,
      0x30, 0x30, 0x30, 0x30, 0x30, 0x30, 0x30, 0x30, 0x30, 0x30, 0x30, 0x30, 0x30, 0x30, 0x30, 0x30,
      0x30, 0x30, 0x30, 0x30, 0x30, 0x30, 0x30, 0x30, 0x30, 0x30, 0x30, 0x30, 0x30, 0x30, 0x30, 0x30,
      0x30, 0x30, 0x30, 0x30, 0x30, 0x30, 0x30, 0x30, 0x30, 0x30, 0x30, 0x30, 0x30, 0x30, 0x30, 0x30,
      0x30, 0x30, 0x30, 0x30, 0x30, 0x30, 0x30, 0x30, 0x30, 0x30, 0x30, 0x30, 0x30, 0x30, 0x30, 0x30,
      0x30, 0x30, 0x30, 0x30, 0x30, 0x30, 0x30, 0x30, 0x30, 0x30, 0x30, 0x30, 0x30, 0x30, 0x30, 0x30,
      0x30, 0x30, 0x30, 0x30, 0x30, 0x30, 0x30, 0x30, 0x30, 0x30, 0x30, 0x30, 0x30, 0x30, 0x30, 0x30,
      0x30, 0x30, 0x30] = ok [0x58, 0xff, 0x30, 0x30, 0x30, 0x30, 0x30, 0x30, 0x30, 0x30, 0x30, 0x30,
      0x30, 0x30, 0x30, 0x30, 0x30, 0x30, 0x30, 0x30, 0x30, 0x30, 0x30, 0x30, 0x30, 0x30, 0x30, 0x30,
      0x30, 0x30, 0x30, 0x30, 0x30, 0x30, 0x30, 0x30, 0x30, 0x30, 0x30, 0x30, 0x30, 0x30, 0x30, 0x30,
      0x30, 0x30, 0x30, 0x30, 0x30, 0x30, 0x30, 0x30, 0x30, 0x30, 0x30, 0x30, 0x30, 0x30, 0x30, 0x30,
      0x30, 0x30, 0x30, 0x30, 0x30, 0x30, 0x30, 0x30, 0x30, 0x30, 0x30, 0x30, 0x30, 0x30, 0x30, 0x30,
      0x30, 0x30, 0x30, 0x30, 0x30, 0x30, 0x30, 0x30, 0x30, 0x30, 0x30, 0x30, 0x30, 0x30, 0x30, 0x30,
      0x30, 0x30, 0x30, 0x30, 0x30, 0x30, 0x30, 0x30, 0x30, 0x30, 0x30, 0x30, 0x30, 0x30, 0x30, 0x30,
      0x30, 0x30, 0x30, 0x30, 0x30, 0x30, 0x30, 0x30, 0x30, 0x30, 0x30, 0x30, 0x30, 0x30, 0x30, 0x30,
      0x30, 0x30, 0x30, 0x30, 0x30, 0x30, 0x30, 0x30, 0x30, 0x30, 0x30, 0x30, 0x30, 0x30, 0x30, 0x30,
      0x30, 0x30, 0x30, 0x30, 0x30, 0x30, 0x30, 0x30, 0x30, 0x30, 0x30, 0x30, 0x30, 0x30, 0x30, 0x30,
      0x30, 0x30, 0x30, 0x30, 0x30, 0x30, 0x30, 0x30, 0x30, 0x30, 0x30, 0x30, 0x30, 0x30, 0x30, 0x30,
      0x30, 0x30, 0x30, 0x30, 0x30, 0x30, 0x30, 0x30, 0x30, 0x30, 0x30, 0x30, 0x30, 0x30, 0x30, 0x30,
      0x30, 0x30, 0x30, 0x30, 0x30, 0x30, 0x30, 0x30, 0x30, 0x30, 0x30, 0x30, 0x30, 0x30, 0x30, 0x30,
      0x30, 0x30, 0x30, 0x30, 0x30, 0x30, 0x30, 0x30, 0x30, 0x30, 0x30, 0x30, 0x30, 0x30, 0x30, 0x30,
      0x30, 0x30, 0x30, 0x30, 0x30, 0x30, 0x30, 0x30, 0x30, 0x30, 0x30, 0x30, 0x30, 0x30, 0x30, 0x30,
      0x30, 0x30, 0x30, 0x30, 0x30, 0x30, 0x30, 0x30, 0x30, 0x30, 0x30, 0x30, 0x30, 0x30, 0x30, 0x30,
      0x30, 0x30, 0x30, 0x30, 0x30] ∧
    cbor_read_bytes [0x58, 0xff, 0x30, 0x30, 0x30, 0x30, 0x30, 0x30, 0x30, 0x30, 0x30, 0x30, 0x30,
      0x30, 0x30, 0x30, 0x30, 0x30, 0x30, 0x30, 0x30, 0x30, 0x30, 0x30, 0x30, 0x30, 0x30, 0x30, 0x30,
      0x30, 0x30, 0x30, 0x30, 0x30, 0x30, 0x30, 0x30, 0x30, 0x30, 0x30, 0x30, 0x30, 0x30, 0x30, 0x30,
      0x30, 0x30, 0x30, 0x30, 0x30, 0x30, 0x30, 0x30, 0x30, 0x30, 0x30, 0x30, 0x30, 0x30, 0x30, 0x30,
      0x30, 0x30, 0x30, 0x30, 0x30, 0x30, 0x30, 0x30, 0x30, 0x30, 0x30, 0x30, 0x30, 0x30, 0x30, 0x30,
      0x30, 0x30, 0x30, 0x30, 0x30, 0x30, 0x30, 0x30, 0x30, 0x30, 0x30, 0x30, 0x30, 0x30, 0x30, 0x30,
      0x30, 0x30, 0x30, 0x30, 0x30, 0x30, 0x30, 0x30, 0x30, 0x30, 0x30, 0x30, 0x30, 0x30, 0x30, 0x30,
      0x30, 0x30, 0x30, 0x30, 0x30, 0x30, 0x30, 0x30, 0x30, 0x30, 0x30, 0x30, 0x30, 0x30, 0x30, 0x30,
      0x30, 0x30, 0x30, 0x30, 0x30, 0x30, 0x30, 0x30, 0x30, 0x30, 0x30, 0x30, 0x30, 0x30, 0x30, 0x30,
      0x30, 0x30, 0x30, 0x30, 0x30, 0x30, 0x30, 0x30, 0x30, 0x30, 0x30, 0x30, 0x30, 0x30, 0x30, 0x30,
      0x30, 0x30, 0x30, 0x30, 0x30, 0x30, 0x30, 0x30, 0x30, 0x30, 0x30, 0x30, 0x30, 0x30, 0x30, 0x30,
      0x30, 0x30, 0x30, 0x30, 0x30, 0x30, 0x30, 0x30, 0x30, 0x30, 0x30, 0x30, 0x30, 0x30, 0x30, 0x30,
      0x30, 0x30, 0x30, 0x30, 0x30, 0x30, 0x30, 0x30, 0x30, 0x30, 0x30, 0x30, 0x30, 0x30, 0x30, 0x30,
      0x30, 0x30, 0x30, 0x30, 0x30, 0x30, 0x30, 0x30, 0x30, 0x30, 0x30, 0x30, 0x30, 0x30, 0x30, 0x30,
      0x30, 0x30, 0x30, 0x30, 0x30, 0x30, 0x30, 0x30, 0x30, 0x30, 0x30, 0x30, 0x30, 0x30, 0x30, 0x30,
      0x30, 0x30, 0x30, 0x30, 0x30, 0x30, 0x30, 0x30, 0x30, 0x30, 0x30, 0x30, 0x30, 0x30, 0x30, 0x30,
      0x30, 0x30, 0x30, 0x30] = ok ([0x30, 0x30, 0x30, 0x30, 0x30, 0x30, 0x30, 0x30, 0x30, 0x30, 0x30,
      0x30, 0x30, 0x30, 0x30, 0x30, 0x30, 0x30, 0x30, 0x30, 0x30, 0x30, 0x30, 0x30, 0x30, 0x30, 0x30,
      0x30, 0x30, 0x30, 0x30, 0x30, 0x30, 0x30, 0x30, 0x30, 0x30, 0x30, 0x30, 0x30, 0x30, 0x30, 0x30,
      0x30, 0x30, 0x30, 0x30, 0x30, 0x30, 0x30, 0x30, 0x30, 0x30, 0x30, 0x30, 0x30, 0x30, 0x30, 0x30,
      0x30, 0x30, 0x30, 0x30, 0x30, 0x30, 0x30, 0x30, 0x30, 0x30, 0x30, 0x30, 0x30, 0x30, 0x30, 0x30,
      0x30, 0x30, 0x30, 0x30, 0x30, 0x30, 0x30, 0x30, 0x30, 0x30, 0x30, 0x30, 0x30, 0x30, 0x30, 0x30,
      0x30, 0x30, 0x30, 0x30, 0x30, 0x30, 0x30, 0x30, 0x30, 0x30, 0x30, 0x30, 0x30, 0x30, 0x30, 0x30,
      0x30, 0x30, 0x30, 0x30, 0x30, 0x30, 0x30, 0x30, 0x30, 0x30, 0x30, 0x30, 0x30, 0x30, 0x30, 0x30,
      0x30, 0x30, 0x30, 0x30, 0x30, 0x30, 0x30, 0x30, 0x30, 0x30, 0x30, 0x30, 0x30, 0x30, 0x30, 0x30,
      0x30, 0x30, 0x30, 0x30, 0x30, 0x30, 0x30, 0x30, 0x30, 0x30, 0x30, 0x30, 0x30, 0x30, 0x30, 0x30,
      0x30, 0x30, 0x30, 0x30, 0x30, 0x30, 0x30, 0x30, 0x30, 0x30, 0x30, 0x30, 0x30, 0x30, 0x30, 0x30,
      0x30, 0x30, 0x30, 0x30, 0x30, 0x30, 0x30, 0x30, 0x30, 0x30, 0x30, 0x30, 0x30, 0x30, 0x30, 0x30,
      0x30, 0x30, 0x30, 0x30, 0x30, 0x30, 0x30, 0x30, 0x30, 0x30, 0x30, 0x30, 0x30, 0x30, 0x30, 0x30,
      0x30, 0x30, 0x30, 0x30, 0x30, 0x30, 0x30, 0x30, 0x30, 0x30, 0x30, 0x30, 0x30, 0x30, 0x30, 0x30,
      0x30, 0x30, 0x30, 0x30, 0x30, 0x30, 0x30, 0x30, 0x30, 0x30, 0x30, 0x30, 0x30, 0x30, 0x30, 0x30,
      0x30, 0x30, 0x30, 0x30, 0x30, 0x30, 0x30, 0x30, 0x30, 0x30, 0x30, 0x30, 0x30, 0x30, 0x30, 0x30,
      0x30, 0x30, 0x30, 0x30], []) ∧
    cbor_write_bytes 300 [0x30, 0x30, 0x30, 0x30, 0x30, 0x30, 0x30, 0x30, 0x30, 0x30, 0x30, 0x30,
      0x30, 0x30, 0x30, 0x30, 0x30, 0x30, 0x30, 0x30, 0x30, 0x30, 0x30, 0x30, 0x30, 0x30, 0x30, 0x30,
      0x30, 0x30, 0x30, 0x30, 0x30, 0x30, 0x30, 0x30, 0x30, 0x30, 0x30, 0x30, 0x30, 0x30, 0x30, 0x30,
      0x30, 0x30, 0x30, 0x30, 0x30, 0x30, 0x30, 0x30, 0x30, 0x30, 0x30, 0x30, 0x30, 0x30, 0x30, 0x30,
      0x30, 0x30, 0x30, 0x30, 0x30, 0x30, 0x30, 0x30, 0x30, 0x30, 0x30, 0x30, 0x30, 0x30, 0x30, 0x30,
      0x30, 0x30, 0x30, 0x30, 0x30, 0x30, 0x30, 0x30, 0x30, 0x30, 0x30, 0x30, 0x30, 0x30, 0x30, 0x30,
      0x30, 0x30, 0x30, 0x30, 0x30, 0x30, 0x30, 0x30, 0x30, 0x30, 0x30, 0x30, 0x30, 0x30, 0x30, 0x30,
      0x30, 0x30, 0x30, 0x30, 0x30, 0x30, 0x30, 0x30, 0x30, 0x30, 0x30, 0x30, 0x30, 0x30, 0x30, 0x30,
      0x30, 0x30, 0x30, 0x30, 0x30, 0x30, 0x30, 0x30, 0x30, 0x30, 0x30, 0x30, 0x30, 0x30, 0x30, 0x30,
      0x30, 0x30, 0x30, 0x30, 0x30, 0x30, 0x30, 0x30, 0x30, 0x30, 0x30, 0x30, 0x30, 0x30, 0x30, 0x30,
      0x30, 0x30, 0x30, 0x30, 0x30, 0x30, 0x30, 0x30, 0x30, 0x30, 0x30, 0x30, 0x30, 0x30, 0x30, 0x30,
      0x30, 0x30, 0x30, 0x30, 0x30, 0x30, 0x30, 0x30, 0x30, 0x30, 0x30, 0x30, 0x30, 0x30, 0x30, 0x30,
      0x30, 0x30, 0x30, 0x30, 0x30, 0x30, 0x30, 0x30, 0x30, 0x30, 0x30, 0x30, 0x30, 0x30, 0x30, 0x30,
      0x30, 0x30, 0x30, 0x30, 0x30, 0x30, 0x30, 0x30, 0x30, 0x30, 0x30, 0x30, 0x30, 0x30, 0x30, 0x30,
      0x30, 0x30, 0x30, 0x30, 0x30, 0x30, 0x30, 0x30, 0x30, 0x30, 0x30, 0x30, 0x30, 0x30, 0x30, 0x30,
      0x30, 0x30, 0x30, 0x30, 0x30, 0x30, 0x30, 0x30, 0x30, 0x30, 0x30, 0x30, 0x30, 0x30, 0x30, 0x30,
      0x30, 0x30, 0x30, 0x30] = ok [0x59, 0x01, 0x00, 0x30, 0x30, 0x30, 0x30, 0x30, 0x30, 0x30, 0x30,
      0x30, 0x30, 0x30, 0x30, 0x30, 0x30, 0x30, 0x30, 0x30, 0x30, 0x30, 0x30, 0x30, 0x30, 0x30, 0x30,
      0x30, 0x30, 0x30, 0x30, 0x30, 0x30, 0x30, 0x30, 0x30, 0x30, 0x30, 0x30, 0x30, 0x30, 0x30, 0x30,
      0x30, 0x30, 0x30, 0x30, 0x30, 0x30, 0x30, 0x30, 0x30, 0x30, 0x30, 0x30, 0x30, 0x30, 0x30, 0x30,
      0x30, 0x30, 0x30, 0x30, 0x30, 0x30, 0x30, 0x30, 0x30, 0x30, 0x30, 0x30, 0x30, 0x30, 0x30, 0x30,
      0x30, 0x30, 0x30, 0x30, 0x30, 0x30, 0x30, 0x30, 0x30, 0x30, 0x30, 0x30, 0x30, 0x30, 0x30, 0x30,
      0x30, 0x30, 0x30, 0x30, 0x30, 0x30, 0x30, 0x30, 0x30, 0x30, 0x30, 0x30, 0x30, 0x30, 0x30, 0x30,
      0x30, 0x30, 0x30, 0x30, 0x30, 0x30, 0x30, 0x30, 0x30, 0x30, 0x30, 0x30, 0x30, 0x30, 0x30, 0x30,
      0x30, 0x30, 0x30, 0x30, 0x30, 0x30, 0x30, 0x30, 0x30, 0x30, 0x30, 0x30, 0x30, 0x30, 0x30, 0x30,
      0x30, 0x30, 0x30, 0x30, 0x30, 0x30, 0x30, 0x30, 0x30, 0x30, 0x30, 0x30, 0x30, 0x30, 0x30, 0x30,
      0x30, 0x30, 0x30, 0x30, 0x30, 0x30, 0x30, 0x30, 0x30, 0x30, 0x30, 0x30, 0x30, 0x30, 0x30, 0x30,
      0x30, 0x30, 0x30, 0x30, 0x30, 0x30, 0x30, 0x30, 0x30, 0x30, 0x30, 0x30, 0x30, 0x30, 0x30, 0x30,
      0x30, 0x30, 0x30, 0x30, 0x30, 0x30, 0x30, 0x30, 0x30, 0x30, 0x30, 0x30, 0x30, 0x30, 0x30, 0x30,
      0x30, 0x30, 0x30, 0x30, 0x30, 0x30, 0x30, 0x30, 0x30, 0x30, 0x30, 0x30, 0x30, 0x30, 0x30, 0x30,
      0x30, 0x30, 0x30, 0x30, 0x30, 0x30, 0x30, 0x30, 0x30, 0x30, 0x30, 0x30, 0x30, 0x30, 0x30, 0x30,
      0x30, 0x30, 0x30, 0x30, 0x30, 0x30, 0x30, 0x30, 0x30, 0x30, 0x30, 0x30, 0x30, 0x30, 0x30, 0x30,
      0x30, 0x30, 0x30, 0x30, 0x30, 0x30, 0x30, 0x30] ∧
    cbor_read_bytes [0x59, 0x01, 0x00, 0x30, 0x30, 0x30, 0x30, 0x30, 0x30, 0x30, 0x30, 0x30, 0x30,
      0x30, 0x30, 0x30, 0x30, 0x30, 0x30, 0x30, 0x30, 0x30, 0x30, 0x30, 0x30, 0x30, 0x30, 0x30, 0x30,
      0x30, 0x30, 0x30, 0x30, 0x30, 0x30, 0x30, 0x30, 0x30, 0x30, 0x30, 0x30, 0x30, 0x30, 0x30, 0x30,
      0x30, 0x30, 0x30, 0x30, 0x30, 0x30, 0x30, 0x30, 0x30, 0x30, 0x30, 0x30, 0x30, 0x30, 0x30, 0x30,
      0x30, 0x30, 0x30, 0x30, 0x30, 0x30, 0x30, 0x30, 0x30, 0x30, 0x30, 0x30, 0x30, 0x30, 0x30, 0x30,
      0x30, 0x30, 0x30, 0x30, 0x30, 0x30, 0x30, 0x30, 0x30, 0x30, 0x30, 0x30, 0x30, 0x30, 0x30, 0x30,
      0x30, 0x30, 0x30, 0x30, 0x30, 0x30, 0x30, 0x30, 0x30, 0x30, 0x30, 0x30, 0x30, 0x30, 0x30, 0x30,
      0x30, 0x30, 0x30, 0x30, 0x30, 0x30, 0x30, 0x30, 0x30, 0x30, 0x30, 0x30, 0x30, 0x30, 0x30, 0x30,
      0x30, 0x30, 0x30, 0x30, 0x30, 0x30, 0x30, 0x30, 0x30, 0x30, 0x30, 0x30, 0x30, 0x30, 0x30, 0x30,
      0x30, 0x30, 0x30, 0x30, 0x30, 0x30, 0x30, 0x30, 0x30, 0x30, 0x30, 0x30, 0x30, 0x30, 0x30, 0x30,
      0x30, 0x30, 0x30, 0x30, 0x30, 0x30, 0x30, 0x30, 0x30, 0x30, 0x30, 0x30, 0x30, 0x30, 0x30, 0x30,
      0x30, 0x30, 0x30, 0x30, 0x30, 0x30, 0x30, 0x30, 0x30, 0x30, 0x30, 0x30, 0x30, 0x30, 0x30, 0x30,
      0x30, 0x30, 0x30, 0x30, 0x30, 0x30, 0x30, 0x30, 0x30, 0x30, 0x30, 0x30, 0x30, 0x30, 0x30, 0x30,
      0x30, 0x30, 0x30, 0x30, 0x30, 0x30, 0x30, 0x30, 0x30, 0x30, 0x30, 0x30, 0x30, 0x30, 0x30, 0x30,
      0x30, 0x30, 0x30, 0x30, 0x30, 0x30, 0x30, 0x30, 0x30, 0x30, 0x30, 0x30, 0x30, 0x30, 0x30, 0x30,
      0x30, 0x30, 0x30, 0x30, 0x30, 0x30, 0x30, 0x30, 0x30, 0x30, 0x30, 0x30, 0x30, 0x30, 0x30, 0x30,
      0x30, 0x30, 0x30, 0x30, 0x30, 0x30] = ok ([0x30, 0x30, 0x30, 0x30, 0x30, 0x30, 0x30, 0x30, 0x30,
      0x30, 0x30, 0x30, 0x30, 0x30, 0x30, 0x30, 0x30, 0x30, 0x30, 0x30, 0x30, 0x30, 0x30, 0x30, 0x30,
      0x30, 0x30, 0x30, 0x30, 0x30, 0x30, 0x30, 0x30, 0x30, 0x30, 0x30, 0x30, 0x30, 0x30, 0x30, 0x30,
      0x30, 0x30, 0x30, 0x30, 0x30, 0x30, 0x30, 0x30, 0x30, 0x30, 0x30, 0x30, 0x30, 0x30, 0x30, 0x30,
      0x30, 0x30, 0x30, 0x30, 0x30, 0x30, 0x30, 0x30, 0x30, 0x30, 0x30, 0x30, 0x30, 0x30, 0x30, 0x30,
      0x30, 0x30, 0x30, 0x30, 0x30, 0x30, 0x30, 0x30, 0x30, 0x30, 0x30, 0x30, 0x30, 0x30, 0x30, 0x30,
      0x30, 0x30, 0x30, 0x30, 0x30, 0x30, 0x30, 0x30, 0x30, 0x30, 0x30, 0x30, 0x30, 0x30, 0x30, 0x30,
      0x30, 0x30, 0x30, 0x30, 0x30, 0x30, 0x30, 0x30, 0x30, 0x30, 0x30, 0x30, 0x30, 0x30, 0x30, 0x30,
      0x30, 0x30, 0x30, 0x30, 0x30, 0x30, 0x30, 0x30, 0x30, 0x30, 0x30, 0x30, 0x30, 0x30, 0x30, 0x30,
      0x30, 0x30, 0x30, 0x30, 0x30, 0x30, 0x30, 0x30, 0x30, 0x30, 0x30, 0x30, 0x30, 0x30, 0x30, 0x30,
      0x30, 0x30, 0x30, 0x30, 0x30, 0x30, 0x30, 0x30, 0x30, 0x30, 0x30, 0x30, 0x30, 0x30, 0x30, 0x30,
      0x30, 0x30, 0x30, 0x30, 0x30, 0x30, 0x30, 0x30, 0x30, 0x30, 0x30, 0x30, 0x30, 0x30, 0x30, 0x30,
      0x30, 0x30, 0x30, 0x30, 0x30, 0x30, 0x30, 0x30, 0x30, 0x30, 0x30, 0x30, 0x30, 0x30, 0x30, 0x30,
      0x30, 0x30, 0x30, 0x30, 0x30, 0x30, 0x30, 0x30, 0x30, 0x30, 0x30, 0x30, 0x30, 0x30, 0x30, 0x30,
      0x30, 0x30, 0x30, 0x30, 0x30, 0x30, 0x30, 0x30, 0x30, 0x30, 0x30, 0x30, 0x30, 0x30, 0x30, 0x30,
      0x30, 0x30, 0x30, 0x30, 0x30, 0x30, 0x30, 0x30, 0x30, 0x30, 0x30, 0x30, 0x30, 0x30, 0x30, 0x30,
      0x30, 0x30, 0x30, 0x30, 0x30, 0x30, 0x30], []) ∧
    cbor_read_bytes [0x5f, 0x46, 0x61, 0x62, 0x63, 0x64, 0x65, 0x66, 0xff] = ok ([0x61, 0x62, 0x63,
      0x64, 0x65, 0x66], []) ∧
    cbor_read_bytes [0x5f, 0x40, 0x41, 0x41, 0x40, 0xff] = ok ([0x41], []) ∧
    cbor_read_bytes [0x5f, 0x40, 0xff] = ok ([], []) ∧
    cbor_read_bytes [0x58, 0x00] = ok ([], []) ∧
    cbor_read_bytes [0x5f, 0xff] = ok ([], []) ∧
    cbor_read_bytes [0x59, 0x00, 0x00] = ok ([], []) ∧
    cbor_read_bytes [0x5a, 0x00, 0x00, 0x00, 0x00] = ok ([], []) ∧
    cbor_read_bytes [0x5b, 0x00, 0x00, 0x00, 0x00, 0x00, 0x00, 0x00, 0x00] = ok ([], []) ∧
    cbor_read_bytes [0x58, 0x01, 0x41] = ok ([0x41], []) ∧
    cbor_read_bytes [0x59, 0x00, 0x01, 0x42] = ok ([0x42], []) ∧
    cbor_read_bytes [0x5a, 0x00, 0x00, 0x00, 0x01, 0x43] = ok ([0x43], []) ∧
    cbor_read_bytes [0x5b, 0x00, 0x00, 0x00, 0x00, 0x00, 0x00, 0x00, 0x01, 0x44] = ok ([0x44], []) ∧
    cbor_read_bytes [0x5c] = error CBOR_ERROR_INVALID_AI ∧
    cbor_read_bytes [0x5d] = error CBOR_ERROR_INVALID_AI ∧
    cbor_read_bytes [0x5e] = error CBOR_ERROR_INVALID_AI ∧
    cbor_read_bytes [0x42, 0x41] = error CBOR_ERROR_END_OF_STREAM ∧
    cbor_read_bytes [0x5f, 0x46, 0x61, 0x62, 0x63, 0x64, 0x65, 0x66, 0x42, 0x78, 0x7a] = error
      CBOR_ERROR_END_OF_STREAM ∧
    cbor_read_bytes [0x5f, 0x66, 0x61, 0x62, 0x63, 0x64, 0x65, 0x66, 0x42, 0x78, 0x7a, 0xff] = error
      CBOR_ERROR_INDEF_MISMATCH ∧
    cbor_read_bytes [0x5f, 0x5f, 0x46, 0x61, 0x62, 0x63, 0x64, 0x65, 0x66, 0xff, 0xff] = error
      CBOR_ERROR_INDEF_NESTING := by
  and_intros <;> decide

/-- The rows of the table of `test_text` hold in the model, except the row
7f6661626364656662787a61c261a9ff: there the test expects
`CBOR_ERROR_INVALID_UTF8` for a code point split across two chunks, and the
reader modelled on spec §4.5 validates the whole logical string and accepts
it. -/
theorem cbor_test_text_rows :
    cbor_write_textn 300 [] = ok [0x60] ∧
    cbor_read_text [0x60] = ok ([], []) ∧
    cbor_write_textn 300 [0x30, 0x30, 0x30, 0x30, 0x30, 0x30, 0x30, 0x30, 0x30, 0x30, 0x30, 0x30,
      0x30, 0x30, 0x30, 0x30, 0x30, 0x30, 0x30, 0x30, 0x30, 0x30, 0x30] = ok [0x77, 0x30, 0x30, 0x30,
      0x30, 0x30, 0x30, 0x30, 0x30, 0x30, 0x30, 0x30, 0x30, 0x30, 0x30, 0x30, 0x30, 0x30, 0x30, 0x30,
      0x30, 0x30, 0x30, 0x30] ∧
    cbor_read_text [0x77, 0x30, 0x30, 0x30, 0x30, 0x30, 0x30, 0x30, 0x30, 0x30, 0x30, 0x30, 0x30,
      0x30, 0x30, 0x30, 0x30, 0x30, 0x30, 0x30, 0x30, 0x30, 0x30, 0x30] = ok ([0x30, 0x30, 0x30, 0x30,
      0x30, 0x30, 0x30, 0x30, 0x30, 0x30, 0x30, 0x30, 0x30, 0x30, 0x30, 0x30, 0x30, 0x30, 0x30, 0x30,
      0x30, 0x30, 0x30], []) ∧
    cbor_write_textn 300 [0x30, 0x30, 0x30, 0x30, 0x30, 0x30, 0x30, 0x30, 0x30, 0x30, 0x30, 0x30,
      0x30, 0x30, 0x30, 0x30, 0x30, 0x30, 0x30, 0x30, 0x30, 0x30, 0x30, 0x30] = ok [0x78, 0x18, 0x30,
      0x30, 0x30, 0x30, 0x30, 0x30, 0x30, 0x30, 0x30, 0x30, 0x30, 0x30, 0x30, 0x30, 0x30, 0x30, 0x30,
      0x30, 0x30, 0x30, 0x30, 0x30, 0x30, 0x30] ∧
    cbor_read_text [0x78, 0x18, 0x30, 0x30, 0x30, 0x30, 0x30, 0x30, 0x30, 0x30, 0x30, 0x30, 0x30,
      0x30, 0x30, 0x30, 0x30, 0x30, 0x30, 0x30, 0x30, 0x30, 0x30, 0x30, 0x30, 0x30] = ok ([0x30, 0x30,
      0x30, 0x30, 0x30, 0x30, 0x30, 0x30, 0x30, 0x30, 0x30, 0x30, 0x30, 0x30, 0x30, 0x30, 0x30, 0x30,
      0x30, 0x30, 0x30, 0x30, 0x30, 0x30], []) ∧
    cbor_write_textn 300 [0x30, 0x30, 0x30, 0x30, 0x30, 0x30, 0x30, 0x30, 0x30, 0x30, 0x30, 0x30,
      0x30, 0x30, 0x30, 0x30, 0x30, 0x30, 0x30, 0x30, 0x30, 0x30, 0x30, 0x30, 0x30, 0x30, 0x30, 0x30,
      0x30, 0x30, 0x30, 0x30, 0x30, 0x30, 0x30, 0x30, 0x30, 0x30, 0x30, 0x30, 0x30, 0x30, 0x30, 0x30,
      0x30, 0x30, 0x30, 0x30, 0x30, 0x30, 0x30, 0x30, 0x30, 0x30, 0x30, 0x30, 0x30, 0x30, 0x30, 0x30,
      0x30, 0x30, 0x30, 0x30, 0x30, 0x30, 0x30, 0x30, 0x30, 0x30, 0x30, 0x30, 0x30, 0x30, 0x30, 0x30,
      0x30, 0x30, 0x30, 0x30, 0x30, 0x30, 0x30, 0x30, 0x30, 0x30, 0x30, 0x30, 0x30, 0x30, 0x30, 0x30,
      0x30, 0x30, 0x30, 0x30, 0x30, 0x30, 0x30, 0x30, 0x30, 0x30, 0x30, 0x30, 0x30, 0x30, 0x30, 0x30,
      0x30, 0x30, 0x30, 0x30, 0x30, 0x30, 0x30, 0x30, 0x30, 0x30, 0x30, 0x30, 0x30, 0x30, 0x30, 0x30,
      0x30, 0x30, 0x30, 0x30, 0x30, 0x30, 0x30, 0x30, 0x30, 0x30, 0x30, 0x30, 0x30, 0x30, 0x30, 0x30,
      0x30, 0x30, 0x30, 0x30, 0x30, 0x30, 0x30, 0x30, 0x30, 0x30, 0x30, 0x30, 0x30, 0x30, 0x30, 0x30,
      0x30, 0x30, 0x30, 0x30, 0x30, 0x30, 0x30, 0x30, 0x30, 0x30, 0x30, 0x30, 0x30, 0x30, 0x30, 0x30,
      0x30, 0x30, 0x30, 0x30, 0x30, 0x30, 0x30, 0x30, 0x30, 0x30, 0x30, 0x30, 0x30, 0x30, 0x30, 0x30,
      0x30, 0x30, 0x30, 0x30, 0x30, 0x30, 0x30, 0x30, 0x30, 0x30, 0x30, 0x30, 0x30, 0x30, 0x30, 0x30,
      0x30, 0x30, 0x30, 0x30, 0x30, 0x30, 0x30, 0x30, 0x30, 0x30, 0x30, 0x30, 0x30, 0x30, 0x30, 0x30,
      0x30, 0x30, 0x30, 0x30, 0x30, 0x30, 0x30, 0x30, 0x30, 0x30, 0x30, 0x30, 0x30, 0x30, 0x30, 0x30,
      0x30, 0x30, 0x30, 0x30, 0x30, 0x30, 0x30, 0x30, 0x30, 0x30, 0x30, 0x30, 0x30, 0x30, 0x30, 0x30,
      0x30, 0x30, 0x30] = ok [0x78, 0xff, 0x30, 0x30, 0x30, 0x30, 0x30, 0x30, 0x30, 0x30, 0x30, 0x30,
      0x30, 0x30, 0x30, 0x30, 0x30, 0x30, 0x30, 0x30, 0x30, 0x30, 0x30, 0x30, 0x30, 0x30, 0x30, 0x30,
      0x30, 0x30, 0x30, 0x30, 0x30, 0x30, 0x30, 0x30, 0x30, 0x30, 0x30, 0x30, 0x30, 0x30, 0x30, 0x30,
      0x30, 0x30, 0x30, 0x30, 0x30, 0x30, 0x30, 0x30, 0x30, 0x30, 0x30, 0x30, 0x30, 0x30, 0x30, 0x30,
      0x30, 0x30, 0x30, 0x30, 0x30, 0x30, 0x30, 0x30, 0x30, 0x30, 0x30, 0x30, 0x30, 0x30, 0x30, 0x30,
      0x30, 0x30, 0x30, 0x30, 0x30, 0x30, 0x30, 0x30, 0x30, 0x30, 0x30, 0x30, 0x30, 0x30, 0x30, 0x30,
      0x30, 0x30, 0x30, 0x30, 0x30, 0x30, 0x30, 0x30, 0x30, 0x30, 0x30, 0x30, 0x30, 0x30, 0x30, 0x30,
      0x30, 0x30, 0x30, 0x30, 0x30, 0x30, 0x30, 0x30, 0x30, 0x30, 0x30, 0x30, 0x30, 0x30, 0x30, 0x30,
      0x30, 0x30, 0x30, 0x30, 0x30, 0x30, 0x30, 0x30, 0x30, 0x30, 0x30, 0x30, 0x30, 0x30, 0x30, 0x30,
      0x30, 0x30, 0x30, 0x30, 0x30, 0x30, 0x30, 0x30, 0x30, 0x30, 0x30, 0x30, 0x30, 0x30, 0x30, 0x30,
      0x30, 0x30, 0x30, 0x30, 0x30, 0x30, 0x30, 0x30, 0x30, 0x30, 0x30, 0x30, 0x30, 0x30, 0x30, 0x30,
      0x30, 0x30, 0x30, 0x30, 0x30, 0x30, 0x30, 0x30, 0x30, 0x30, 0x30, 0x30, 0x30, 0x30, 0x30, 0x30,
      0x30, 0x30, 0x30, 0x30, 0x30, 0x30, 0x30, 0x30, 0x30, 0x30, 0x30, 0x30, 0x30, 0x30, 0x30, 0x30,
      0x30, 0x30, 0x30, 0x30, 0x30, 0x30, 0x30, 0x30, 0x30, 0x30, 0x30, 0x30, 0x30, 0x30, 0x30, 0x30,
      0x30, 0x30, 0x30, 0x30, 0x30, 0x30, 0x30, 0x30, 0x30, 0x30, 0x30, 0x30, 0x30, 0x30, 0x30, 0x30,
      0x30, 0x30, 0x30, 0x30, 0x30, 0x30, 0x30, 0x30, 0x30, 0x30, 0x30, 0x30, 0x30, 0x30, 0x30, 0x30,
      0x30, 0x30, 0x30, 0x30, 0x30] ∧
    cbor_read_text [0x78, 0xff, 0x30, 0x30, 0x30, 0x30, 0x30, 0x30, 0x30, 0x30, 0x30, 0x30, 0x30,
      0x30, 0x30, 0x30, 0x30, 0x30, 0x30, 0x30, 0x30, 0x30, 0x30, 0x30, 0x30, 0x30, 0x30, 0x30, 0x30,
      0x30, 0x30, 0x30, 0x30, 0x30, 0x30, 0x30, 0x30, 0x30, 0x30, 0x30, 0x30, 0x30, 0x30, 0x30, 0x30,
      0x30, 0x30, 0x30, 0x30, 0x30, 0x30, 0x30, 0x30, 0x30, 0x30, 0x30, 0x30, 0x30, 0x30, 0x30, 0x30,
      0x30, 0x30, 0x30, 0x30, 0x30, 0x30, 0x30, 0x30, 0x30, 0x30, 0x30, 0x30, 0x30, 0x30, 0x30, 0x30,
      0x30, 0x30, 0x30, 0x30, 0x30, 0x30, 0x30, 0x30, 0x30, 0x30, 0x30, 0x30, 0x30, 0x30, 0x30, 0x30,
      0x30, 0x30, 0x30, 0x30, 0x30, 0x30, 0x30, 0x30, 0x30, 0x30, 0x30, 0x30, 0x30, 0x30, 0x30, 0x30,
      0x30, 0x30, 0x30, 0x30, 0x30, 0x30, 0x30, 0x30, 0x30, 0x30, 0x30, 0x30, 0x30, 0x30, 0x30, 0x30,
      0x30, 0x30, 0x30, 0x30, 0x30, 0x30, 0x30, 0x30, 0x30, 0x30, 0x30, 0x30, 0x30, 0x30, 0x30, 0x30,
      0x30, 0x30, 0x30, 0x30, 0x30, 0x30, 0x30, 0x30, 0x30, 0x30, 0x30, 0x30, 0x30, 0x30, 0x30, 0x30,
      0x30, 0x30, 0x30, 0x30, 0x30, 0x30, 0x30, 0x30, 0x30, 0x30, 0x30, 0x30, 0x30, 0x30, 0x30, 0x30,
      0x30, 0x30, 0x30, 0x30, 0x30, 0x30, 0x30, 0x30, 0x30, 0x30, 0x30, 0x30, 0x30, 0x30, 0x30, 0x30,
      0x30, 0x30, 0x30, 0x30, 0x30, 0x30, 0x30, 0x30, 0x30, 0x30, 0x30, 0x30, 0x30, 0x30, 0x30, 0x30,
      0x30, 0x30, 0x30, 0x30, 0x30, 0x30, 0x30, 0x30, 0x30, 0x30, 0x30, 0x30, 0x30, 0x30, 0x30, 0x30,
      0x30, 0x30, 0x30, 0x30, 0x30, 0x30, 0x30, 0x30, 0x30, 0x30, 0x30, 0x30, 0x30, 0x30, 0x30, 0x30,
      0x30, 0x30, 0x30, 0x30, 0x30, 0x30, 0x30, 0x30, 0x30, 0x30, 0x30, 0x30, 0x30, 0x30, 0x30, 0x30,
      0x30, 0x30, 0x30, 0x30] = ok ([0x30, 0x30, 0x30, 0x30, 0x30, 0x30, 0x30, 0x30, 0x30, 0x30, 0x30,
      0x30, 0x30, 0x30, 0x30, 0x30, 0x30, 0x30, 0x30, 0x30, 0x30, 0x30, 0x30, 0x30, 0x30, 0x30, 0x30,
      0x30, 0x30, 0x30, 0x30, 0x30, 0x30, 0x30, 0x30, 0x30, 0x30, 0x30, 0x30, 0x30, 0x30, 0x30, 0x30,
      0x30, 0x30, 0x30, 0x30, 0x30, 0x30, 0x30, 0x30, 0x30, 0x30, 0x30, 0x30, 0x30, 0x30, 0x30, 0x30,
      0x30, 0x30, 0x30, 0x30, 0x30, 0x30, 0x30, 0x30, 0x30, 0x30, 0x30, 0x30, 0x30, 0x30, 0x30, 0x30,
      0x30, 0x30, 0x30, 0x30, 0x30, 0x30, 0x30, 0x30, 0x30, 0x30, 0x30, 0x30, 0x30, 0x30, 0x30, 0x30,
      0x30, 0x30, 0x30, 0x30, 0x30, 0x30, 0x30, 0x30, 0x30, 0x30, 0x30, 0x30, 0x30, 0x30, 0x30, 0x30,
      0x30, 0x30, 0x30, 0x30, 0x30, 0x30, 0x30, 0x30, 0x30, 0x30, 0x30, 0x30, 0x30, 0x30, 0x30, 0x30,
      0x30, 0x30, 0x30, 0x30, 0x30, 0x30, 0x30, 0x30, 0x30, 0x30, 0x30, 0x30, 0x30, 0x30, 0x30, 0x30,
      0x30, 0x30, 0x30, 0x30, 0x30, 0x30, 0x30, 0x30, 0x30, 0x30, 0x30, 0x30, 0x30, 0x30, 0x30, 0x30,
      0x30, 0x30, 0x30, 0x30, 0x30, 0x30, 0x30, 0x30, 0x30, 0x30, 0x30, 0x30, 0x30, 0x30, 0x30, 0x30,
      0x30, 0x30, 0x30, 0x30, 0x30, 0x30, 0x30, 0x30, 0x30, 0x30, 0x30, 0x30, 0x30, 0x30, 0x30, 0x30,
      0x30, 0x30, 0x30, 0x30, 0x30, 0x30, 0x30, 0x30, 0x30, 0x30, 0x30, 0x30, 0x30, 0x30, 0x30, 0x30,
      0x30, 0x30, 0x30, 0x30, 0x30, 0x30, 0x30, 0x30, 0x30, 0x30, 0x30, 0x30, 0x30, 0x30, 0x30, 0x30,
      0x30, 0x30, 0x30, 0x30, 0x30, 0x30, 0x30, 0x30, 0x30, 0x30, 0x30, 0x30, 0x30, 0x30, 0x30, 0x30,
      0x30, 0x30, 0x30, 0x30, 0x30, 0x30, 0x30, 0x30, 0x30, 0x30, 0x30, 0x30, 0x30, 0x30, 0x30, 0x30,
      0x30, 0x30, 0x30, 0x30], []) ∧
    cbor_write_textn 300 [0x30, 0x30, 0x30, 0x30, 0x30, 0x30, 0x30, 0x30, 0x30, 0x30, 0x30, 0x30,
      0x30, 0x30, 0x30, 0x30, 0x30, 0x30, 0x30, 0x30, 0x30, 0x30, 0x30, 0x30, 0x30, 0x30, 0x30, 0x30,
      0x30, 0x30, 0x30, 0x30, 0x30, 0x30, 0x30, 0x30, 0x30, 0x30, 0x30, 0x30, 0x30, 0x30, 0x30, 0x30,
      0x30, 0x30, 0x30, 0x30, 0x30, 0x30, 0x30, 0x30, 0x30, 0x30, 0x30, 0x30, 0x30, 0x30, 0x30, 0x30,
      0x30, 0x30, 0x30, 0x30, 0x30, 0x30, 0x30, 0x30, 0x30, 0x30, 0x30, 0x30, 0x30, 0x30, 0x30, 0x30,
      0x30, 0x30, 0x30, 0x30, 0x30, 0x30, 0x30, 0x30, 0x30, 0x30, 0x30, 0x30, 0x30, 0x30, 0x30, 0x30,
      0x30, 0x30, 0x30, 0x30, 0x30, 0x30, 0x30, 0x30, 0x30, 0x30, 0x30, 0x30, 0x30, 0x30, 0x30, 0x30,
      0x30, 0x30, 0x30, 0x30, 0x30, 0x30, 0x30, 0x30, 0x30, 0x30, 0x30, 0x30, 0x30, 0x30, 0x30, 0x30,
      0x30, 0x30, 0x30, 0x30, 0x30, 0x30, 0x30, 0x30, 0x30, 0x30, 0x30, 0x30, 0x30, 0x30, 0x30, 0x30,
      0x30, 0x30, 0x30, 0x30, 0x30, 0x30, 0x30, 0x30, 0x30, 0x30, 0x30, 0x30, 0x30, 0x30, 0x30, 0x30,
      0x30, 0x30, 0x30, 0x30, 0x30, 0x30, 0x30, 0x30, 0x30, 0x30, 0x30, 0x30, 0x30, 0x30, 0x30, 0x30,
      0x30, 0x30, 0x30, 0x30, 0x30, 0x30, 0x30, 0x30, 0x30, 0x30, 0x30, 0x30, 0x30, 0x30, 0x30, 0x30,
      0x30, 0x30, 0x30, 0x30, 0x30, 0x30, 0x30, 0x30, 0x30, 0x30, 0x30, 0x30, 0x30, 0x30, 0x30, 0x30,
      0x30, 0x30, 0x30, 0x30, 0x30, 0x30, 0x30, 0x30, 0x30, 0x30, 0x30, 0x30, 0x30, 0x30, 0x30, 0x30,
      0x30, 0x30, 0x30, 0x30, 0x30, 0x30, 0x30, 0x30, 0x30, 0x30, 0x30, 0x30, 0x30, 0x30, 0x30, 0x30,
      0x30, 0x30, 0x30, 0x30, 0x30, 0x30, 0x30, 0x30, 0x30, 0x30, 0x30, 0x30, 0x30, 0x30, 0x30, 0x30,
      0x30, 0x30, 0x30, 0x30] = ok [0x79, 0x01, 0x00, 0x30, 0x30, 0x30, 0x30, 0x30, 0x30, 0x30, 0x30,
      0x30, 0x30, 0x30, 0x30, 0x30, 0x30, 0x30, 0x30, 0x30, 0x30, 0x30, 0x30, 0x30, 0x30, 0x30, 0x30,
      0x30, 0x30, 0x30, 0x30, 0x30, 0x30, 0x30, 0x30, 0x30, 0x30, 0x30, 0x30, 0x30, 0x30, 0x30, 0x30,
      0x30, 0x30, 0x30, 0x30, 0x30, 0x30, 0x30, 0x30, 0x30, 0x30, 0x30, 0x30, 0x30, 0x30, 0x30, 0x30,
      0x30, 0x30, 0x30, 0x30, 0x30, 0x30, 0x30, 0x30, 0x30, 0x30, 0x30, 0x30, 0x30, 0x30, 0x30, 0x30,
      0x30, 0x30, 0x30, 0x30, 0x30, 0x30, 0x30, 0x30, 0x30, 0x30, 0x30, 0x30, 0x30, 0x30, 0x30, 0x30,
      0x30, 0x30, 0x30, 0x30, 0x30, 0x30, 0x30, 0x30, 0x30, 0x30, 0x30, 0x30, 0x30, 0x30, 0x30, 0x30,
      0x30, 0x30, 0x30, 0x30, 0x30, 0x30, 0x30, 0x30, 0x30, 0x30, 0x30, 0x30, 0x30, 0x30, 0x30, 0x30,
      0x30, 0x30, 0x30, 0x30, 0x30, 0x30, 0x30, 0x30, 0x30, 0x30, 0x30, 0x30, 0x30, 0x30, 0x30, 0x30,
      0x30, 0x30, 0x30, 0x30, 0x30, 0x30, 0x30, 0x30, 0x30, 0x30, 0x30, 0x30, 0x30, 0x30, 0x30, 0x30,
      0x30, 0x30, 0x30, 0x30, 0x30, 0x30, 0x30, 0x30, 0x30, 0x30, 0x30, 0x30, 0x30, 0x30, 0x30, 0x30,
      0x30, 0x30, 0x30, 0x30, 0x30, 0x30, 0x30, 0x30, 0x30, 0x30, 0x30, 0x30, 0x30, 0x30, 0x30, 0x30,
      0x30, 0x30, 0x30, 0x30, 0x30, 0x30, 0x30, 0x30, 0x30, 0x30, 0x30, 0x30, 0x30, 0x30, 0x30, 0x30,
      0x30, 0x30, 0x30, 0x30, 0x30, 0x30, 0x30, 0x30, 0x30, 0x30, 0x30, 0x30, 0x30, 0x30, 0x30, 0x30,
      0x30, 0x30, 0x30, 0x30, 0x30, 0x30, 0x30, 0x30, 0x30, 0x30, 0x30, 0x30, 0x30, 0x30, 0x30, 0x30,
      0x30, 0x30, 0x30, 0x30, 0x30, 0x30, 0x30, 0x30, 0x30, 0x30, 0x30, 0x30, 0x30, 0x30, 0x30, 0x30,
      0x30, 0x30, 0x30, 0x30, 0x30, 0x30, 0x30, 0x30] ∧
    cbor_read_text [0x79, 0x01, 0x00, 0x30, 0x30, 0x30, 0x30, 0x30, 0x30, 0x30, 0x30, 0x30, 0x30,
      0x30, 0x30, 0x30, 0x30, 0x30, 0x30, 0x30, 0x30, 0x30, 0x30, 0x30, 0x30, 0x30, 0x30, 0x30, 0x30,
      0x30, 0x30, 0x30, 0x30, 0x30, 0x30, 0x30, 0x30, 0x30, 0x30, 0x30, 0x30, 0x30, 0x30, 0x30, 0x30,
      0x30, 0x30, 0x30, 0x30, 0x30, 0x30, 0x30, 0x30, 0x30, 0x30, 0x30, 0x30, 0x30, 0x30, 0x30, 0x30,
      0x30, 0x30, 0x30, 0x30, 0x30, 0x30, 0x30, 0x30, 0x30, 0x30, 0x30, 0x30, 0x30, 0x30, 0x30, 0x30,
      0x30, 0x30, 0x30, 0x30, 0x30, 0x30, 0x30, 0x30, 0x30, 0x30, 0x30, 0x30, 0x30, 0x30, 0x30, 0x30,
      0x30, 0x30, 0x30, 0x30, 0x30, 0x30, 0x30, 0x30, 0x30, 0x30, 0x30, 0x30, 0x30, 0x30, 0x30, 0x30,
      0x30, 0x30, 0x30, 0x30, 0x30, 0x30, 0x30, 0x30, 0x30, 0x30, 0x30, 0x30, 0x30, 0x30, 0x30, 0x30,
      0x30, 0x30, 0x30, 0x30, 0x30, 0x30, 0x30, 0x30, 0x30, 0x30, 0x30, 0x30, 0x30, 0x30, 0x30, 0x30,
      0x30, 0x30, 0x30, 0x30, 0x30, 0x30, 0x30, 0x30, 0x30, 0x30, 0x30, 0x30, 0x30, 0x30, 0x30, 0x30,
      0x30, 0x30, 0x30, 0x30, 0x30, 0x30, 0x30, 0x30, 0x30, 0x30, 0x30, 0x30, 0x30, 0x30, 0x30, 0x30,
      0x30, 0x30, 0x30, 0x30, 0x30, 0x30, 0x30, 0x30, 0x30, 0x30, 0x30, 0x30, 0x30, 0x30, 0x30, 0x30,
      0x30, 0x30, 0x30, 0x30, 0x30, 0x30, 0x30, 0x30, 0x30, 0x30, 0x30, 0x30, 0x30, 0x30, 0x30, 0x30,
      0x30, 0x30, 0x30, 0x30, 0x30, 0x30, 0x30, 0x30, 0x30, 0x30, 0x30, 0x30, 0x30, 0x30, 0x30, 0x30,
      0x30, 0x30, 0x30, 0x30, 0x30, 0x30, 0x30, 0x30, 0x30, 0x30, 0x30, 0x30, 0x30, 0x30, 0x30, 0x30,
      0x30, 0x30, 0x30, 0x30, 0x30, 0x30, 0x30, 0x30, 0x30, 0x30, 0x30, 0x30, 0x30, 0x30, 0x30, 0x30,
      0x30, 0x30, 0x30, 0x30, 0x30, 0x30] = ok ([0x30, 0x30, 0x30, 0x30, 0x30, 0x30, 0x30, 0x30, 0x30,
      0x30, 0x30, 0x30, 0x30, 0x30, 0x30, 0x30, 0x30, 0x30, 0x30, 0x30, 0x30, 0x30, 0x30, 0x30, 0x30,
      0x30, 0x30, 0x30, 0x30, 0x30, 0x30, 0x30, 0x30, 0x30, 0x30, 0x30, 0x30, 0x30, 0x30, 0x30, 0x30,
      0x30, 0x30, 0x30, 0x30, 0x30, 0x30, 0x30, 0x30, 0x30, 0x30, 0x30, 0x30, 0x30, 0x30, 0x30, 0x30,
      0x30, 0x30, 0x30, 0x30, 0x30, 0x30, 0x30, 0x30, 0x30, 0x30, 0x30, 0x30, 0x30, 0x30, 0x30, 0x30,
      0x30, 0x30, 0x30, 0x30, 0x30, 0x30, 0x30, 0x30, 0x30, 0x30, 0x30, 0x30, 0x30, 0x30, 0x30, 0x30,
      0x30, 0x30, 0x30, 0x30, 0x30, 0x30, 0x30, 0x30, 0x30, 0x30, 0x30, 0x30, 0x30, 0x30, 0x30, 0x30,
      0x30, 0x30, 0x30, 0x30, 0x30, 0x30, 0x30, 0x30, 0x30, 0x30, 0x30, 0x30, 0x30, 0x30, 0x30, 0x30,
      0x30, 0x30, 0x30, 0x30, 0x30, 0x30, 0x30, 0x30, 0x30, 0x30, 0x30, 0x30, 0x30, 0x30, 0x30, 0x30,
      0x30, 0x30, 0x30, 0x30, 0x30, 0x30, 0x30, 0x30, 0x30, 0x30, 0x30, 0x30, 0x30, 0x30, 0x30, 0x30,
      0x30, 0x30, 0x30, 0x30, 0x30, 0x30, 0x30, 0x30, 0x30, 0x30, 0x30, 0x30, 0x30, 0x30, 0x30, 0x30,
      0x30, 0x30, 0x30, 0x30, 0x30, 0x30, 0x30, 0x30, 0x30, 0x30, 0x30, 0x30, 0x30, 0x30, 0x30, 0x30,
      0x30, 0x30, 0x30, 0x30, 0x30, 0x30, 0x30, 0x30, 0x30, 0x30, 0x30, 0x30, 0x30, 0x30, 0x30, 0x30,
      0x30, 0x30, 0x30, 0x30, 0x30, 0x30, 0x30, 0x30, 0x30, 0x30, 0x30, 0x30, 0x30, 0x30, 0x30, 0x30,
      0x30, 0x30, 0x30, 0x30, 0x30, 0x30, 0x30, 0x30, 0x30, 0x30, 0x30, 0x30, 0x30, 0x30, 0x30, 0x30,
      0x30, 0x30, 0x30, 0x30, 0x30, 0x30, 0x30, 0x30, 0x30, 0x30, 0x30, 0x30, 0x30, 0x30, 0x30, 0x30,
      0x30, 0x30, 0x30, 0x30, 0x30, 0x30, 0x30], []) ∧
    cbor_read_text [0x7f, 0x66, 0x61, 0x62, 0x63, 0x64, 0x65, 0x66, 0x62, 0x78, 0x7a, 0x62, 0xc2,
      0xa9, 0xff] = ok ([0x61, 0x62, 0x63, 0x64, 0x65, 0x66, 0x78, 0x7a, 0xc2, 0xa9], []) ∧
    cbor_read_text [0x7f, 0x62, 0xc2, 0xa9, 0xff] = ok ([0xc2, 0xa9], []) ∧
    cbor_read_text [0x7f, 0x60, 0x62, 0xc2, 0xa9, 0x60, 0xff] = ok ([0xc2, 0xa9], []) ∧
    cbor_read_text [0x7f, 0x60, 0xff] = ok ([], []) ∧
    cbor_read_text [0x7f, 0xff] = ok ([], []) ∧
    cbor_read_text [0x78, 0x00] = ok ([], []) ∧
    cbor_read_text [0x79, 0x00, 0x00] = ok ([], []) ∧
    cbor_read_text [0x7a, 0x00, 0x00, 0x00, 0x00] = ok ([], []) ∧
    cbor_read_text [0x7b, 0x00, 0x00, 0x00, 0x00, 0x00, 0x00, 0x00, 0x00] = ok ([], []) ∧
    cbor_read_text [0x78, 0x01, 0x41] = ok ([0x41], []) ∧
    cbor_read_text [0x79, 0x00, 0x01, 0x42] = ok ([0x42], []) ∧
    cbor_read_text [0x7a, 0x00, 0x00, 0x00, 0x01, 0x43] = ok ([0x43], []) ∧
    cbor_read_text [0x7b, 0x00, 0x00, 0x00, 0x00, 0x00, 0x00, 0x00, 0x01, 0x44] = ok ([0x44], []) ∧
    cbor_read_text [0x7c] = error CBOR_ERROR_INVALID_AI ∧
    cbor_read_text [0x7d] = error CBOR_ERROR_INVALID_AI ∧
    cbor_read_text [0x7e] = error CBOR_ERROR_INVALID_AI ∧
    cbor_read_text [0x62, 0x41] = error CBOR_ERROR_END_OF_STREAM ∧
    cbor_read_text [0x61, 0xc2] = error CBOR_ERROR_INVALID_UTF8 ∧
    cbor_read_text [0x7f, 0x66, 0x61, 0x62, 0x63, 0x64, 0x65, 0x66, 0x62, 0x78, 0x7a, 0x62, 0xc2,
      0xa9] = error CBOR_ERROR_END_OF_STREAM ∧
    cbor_read_text [0x7f, 0x46, 0x61, 0x62, 0x63, 0x64, 0x65, 0x66, 0x62, 0x78, 0x7a, 0x62, 0xc2,
      0xa9, 0xff] = error CBOR_ERROR_INDEF_MISMATCH ∧
    cbor_read_text [0x7f, 0x7f, 0x66, 0x61, 0x62, 0x63, 0x64, 0x65, 0x66, 0xff, 0xff] = error
      CBOR_ERROR_INDEF_NESTING := by
  and_intros <;> decide

end UcComm
